import Mathlib

/-!
Verification of js-distributed: script pool, script cache and futures,
configuration updates, host functions, and the export and import of scripts.

A shallow embedding of `util/script/pool.go`, `util/script/cache.go`,
`util/script/future.go`, `util/script/store_redis.go`, `util/redis.go`, the
package `util/config`, `util/strings/string.go`, `util/mysql/config.go`,
`util/script/api_mysql.go`, `util/script/api_redis.go` and `script_export.go`,
followed by the properties proved about them.

Conventions of the embedding.

* A Go map or an `xsync.Map` keyed by strings is an association list
  (`GoMap`); only `get`, `set` and `del` are used to read and write it.
* A Go `error` is a value of `Err`; a nil error is `none`.
* A pointer that the code compares with nil is an `Option`.
* `time.Now()` is passed in as an argument of the operation that reads it.
* The script engine (goja) and the Redis server are not part of the
  repository; what the code calls on them is a parameter (`Goja`) or a small
  state model (`RedisServer`).
-/

set_option autoImplicit false

namespace Script

/-! ## Maps keyed by strings -/

/-- A string-keyed map as an association list; the first binding of a key is
the live one. -/
abbrev GoMap (V : Type) := List (String × V)

namespace GoMap

variable {V : Type}

/-- Map read: `v, ok := m[key]` / `m.Load(key)`. -/
def get : GoMap V → String → Option V
  | [], _ => none
  | (k, v) :: m, key => if k = key then some v else get m key

/-- Map delete: `delete(m, key)` / `m.Delete(key)`. -/
def del : GoMap V → String → GoMap V
  | [], _ => []
  | (k, v) :: m, key => if k = key then del m key else (k, v) :: del m key

/-- Map write: `m[key] = v` / `m.Store(key, v)`. -/
def set (m : GoMap V) (key : String) (v : V) : GoMap V :=
  (key, v) :: del m key

/-- Key enumeration, in the order a `range` / `Range` visits the map. -/
def keys (m : GoMap V) : List String := m.map Prod.fst

end GoMap

/-! ## Errors, values, the engine -/

/-- Go `error` values that the modelled code creates or passes on. -/
inductive Err where
  /-- An error made by `errors.New(s)`, or one returned by a library. -/
  | msg (s : String)
  /-- The result of `fmt.Errorf("compile %q failed: %w", name, cause)`. -/
  | compileFailed (name : String) (cause : Err)
  /-- The result of `fmt.Errorf("script %q not found or not compiled", name)`. -/
  | notFound (name : String)
  /-- A `*goja.Exception`: an uncaught script exception. -/
  | exception (text : String)
  /-- The result of `fmt.Errorf("panic: %v", r)`. -/
  | panicked (text : String)
  /-- The go-redis sentinel `redis.Nil`: key or field missing. -/
  | redisNil
  deriving DecidableEq, Repr

/-- A compiled `*goja.Program`, identified by a handle. -/
structure Program where
  id : Nat
  deriving DecidableEq, Repr

/-- A Go function value, identified by a handle. -/
structure FuncId where
  id : Nat
  deriving DecidableEq, Repr

/-- `time.Time`, as a tick count. -/
abbrev Time := Nat

/-- Values of type `interface{}` that cross the host/script boundary. -/
inductive GoValue where
  /-- The nil interface value / JS `undefined`. -/
  | null
  /-- A string. -/
  | str (s : String)
  /-- A number. -/
  | num (n : Int)
  /-- A boolean. -/
  | bool (b : Bool)
  /-- A value of the named type `HostFunc`. -/
  | hostFunc (f : FuncId)
  /-- A value of the unnamed type
  `func(rt *goja.Runtime, fc goja.FunctionCall) (goja.Value, error)`. -/
  | rawHostFunc (f : FuncId)
  /-- A value of type `func(call goja.FunctionCall) goja.Value`. -/
  | gojaFunc (f : FuncId)
  /-- The closure `wrapped` built around host function `f`: it calls `f` and
  turns a returned error into a script exception. -/
  | wrapped (f : FuncId)
  /-- A `map[string]interface{}`, by the address of the map. -/
  | mapRef (addr : Nat)
  deriving DecidableEq, Repr

/-- A `goja.Runtime` as the binding code sees it: the properties of the global
object, and the Go maps reachable from them. A map is a reference: the runtime
keeps the map it was given, so a later write to the map is visible to the
script. `heap[a]` is the content of the map with address `a`. -/
structure Runtime where
  globals : GoMap GoValue
  heap : List (GoMap GoValue)
  deriving DecidableEq, Repr

/-- What a panic carries. -/
inductive PanicValue where
  /-- A `*goja.Exception`. -/
  | exception (text : String)
  /-- Any other value (a string, a `runtime.Error`, ...), by its `%v` text. -/
  | other (text : String)
  deriving DecidableEq, Repr

/-- The ways `rt.RunProgram(prog)` can end. -/
inductive RunOutcome where
  /-- Returns `(v, nil)`; the payload is `v.Export()`. -/
  | value (v : GoValue)
  /-- Returns `(nil, err)` with `err` non-nil. -/
  | error (e : Err)
  /-- Does not return: a Go panic unwinds through the call. The engine
  re-panics with every recovered value that is not a script exception, so a
  host function that panics with such a value ends the run this way. -/
  | panic (r : PanicValue)
  deriving DecidableEq, Repr

/-- The script engine, which lies outside the repository. -/
structure Goja where
  /-- The call `goja.Compile(name, code, true)`. -/
  Compile : String → String → Except Err Program
  /-- The call `rt.RunProgram(prog)` on a runtime with its globals bound. -/
  RunProgram : Program → Runtime → RunOutcome

/-! ## `util/script/pool.go` -/

/-- The struct `programEntry`. -/
structure programEntry where
  code : String
  program : Option Program
  updated : Time
  deriving DecidableEq, Repr

/-- The struct `Result`. `Duration` is in ticks. -/
structure Result where
  Success : Bool
  Value : GoValue
  Err : Option Err
  Duration : Nat
  deriving DecidableEq, Repr

/-- The struct `ScriptPool`: the compile cache and the capability registry.
The fields `Store` and `Cache` are not read or written by the methods below
and are left out. Every value stored in `scripts` is a non-nil pointer. -/
structure ScriptPool where
  scripts : GoMap programEntry
  injects : GoMap FuncId
  deriving DecidableEq, Repr

/-- The method `ScriptPool.Inject`. A nil `fn` is `none`. -/
def Inject (p : ScriptPool) (name : String) (fn : Option FuncId) : Option Err × ScriptPool :=
  match fn with
  | none => (some (Err.msg "inject: name and fn must be non-nil"), p)
  | some f =>
    if name = "" then (some (Err.msg "inject: name and fn must be non-nil"), p)
    else (none, { p with injects := p.injects.set name f })

/-- The method `ScriptPool.SetScript`. Returns the error (nil is `none`) and the
pool afterwards. In `Compute`, both branches of the callback leave the entry
`(code, prog, now)` under `name`: the first stores a new entry, the second
overwrites the three fields of the current one. -/
def SetScript (g : Goja) (p : ScriptPool) (name code : String) (now : Time) :
    Option Err × ScriptPool :=
  if name = "" then (some (Err.msg "SetScript: empty name"), p)
  else
    match g.Compile name code with
    | .error err => (some (Err.compileFailed name err), p)
    | .ok prog =>
      let entry : programEntry :=
        match p.scripts.get name with
        | none => { code := code, program := some prog, updated := now }
        | some cur => { cur with code := code, program := some prog, updated := now }
      (none, { p with scripts := p.scripts.set name entry })

/-- The first lines of `runScriptWithContext` (130-134): load the entry and take
its program; `none` is the `not found or not compiled` return. -/
def loadProgram (p : ScriptPool) (name : String) : Option Program :=
  match p.scripts.get name with
  | none => none
  | some entry => entry.program

/-- The library function `strings.Split` for a one-byte separator, on the
characters of the string: the pieces between consecutive separators, with
empty pieces kept. -/
def splitChars (sep : Char) : List Char → List (List Char)
  | [] => [[]]
  | c :: cs =>
    if c = sep then [] :: splitChars sep cs
    else
      match splitChars sep cs with
      | [] => [[c]]
      | p :: ps => (c :: p) :: ps

/-- The call `strings.Split(s, sep)`; every call site passes a one-byte `sep`. -/
def Split (s : String) (sep : Char) : List String :=
  (splitChars sep s.toList).map String.mk

/-- The call `rt.Set(name, v)`: define or overwrite a property of the global
object. -/
def rtSet (rt : Runtime) (name : String) (v : GoValue) : Runtime :=
  { rt with globals := rt.globals.set name v }

/-- The call `make(map[string]interface{})`: a new empty map at a new address. -/
def newMap (rt : Runtime) : Nat × Runtime :=
  (rt.heap.length, { rt with heap := rt.heap ++ [[]] })

/-- The assignment `obj[key] = v` on the map at address `obj`. -/
def mapStore (rt : Runtime) (obj : Nat) (key : String) (v : GoValue) : Runtime :=
  { rt with heap := rt.heap.set obj ((rt.heap.getD obj []).set key v) }

/-- The state of the capability-binding loop: the runtime and the local
`objMap` (object name to the map created for it). -/
structure BindState where
  rt : Runtime
  objMap : GoMap Nat
  deriving DecidableEq, Repr

/-- The body of the `p.injects.Range` callback (lines 144-177) for one
registered pair `(k, fn)`. -/
def bindCapability (st : BindState) (k : String) (fn : FuncId) : BindState :=
  let wrapped := GoValue.wrapped fn
  let parts := Split k '.'
  if 1 < parts.length ∧ parts.length ≤ 3 then
    let objName := parts.getD 0 ""
    let methodName := parts.getD 1 ""
    match st.objMap.get objName with
    | some obj => { st with rt := mapStore st.rt obj methodName wrapped }
    | none =>
      let (obj, rt1) := newMap st.rt
      let rt2 := rtSet rt1 objName (GoValue.mapRef obj)
      { rt := mapStore rt2 obj methodName wrapped, objMap := st.objMap.set objName obj }
  else
    { st with rt := rtSet st.rt k wrapped }

/-- The capability binding of `runScriptWithContext`: `objMap` starts empty and
the registry is traversed once, in the order of the list `injects`. -/
def bindCapabilities (rt : Runtime) (injects : GoMap FuncId) : BindState :=
  injects.foldl (fun st kv => bindCapability st kv.1 kv.2) { rt := rt, objMap := [] }

/-- One step of the inner loop of `injectsExtra` (lines 221-225): make the next
map, hang it under `part` in the current one, and move into it. -/
def descend (cur : Nat × Runtime) (part : String) : Nat × Runtime :=
  let (nextObj, rt1) := newMap cur.2
  (nextObj, mapStore rt1 cur.1 part (GoValue.mapRef nextObj))

/-- The body of the `range opts` loop of `injectsExtra` for one entry `(k, v)`. -/
def injectExtra (rt : Runtime) (k : String) (v : GoValue) : Runtime :=
  let parts := Split k '.'
  if 1 < parts.length then
    let (currentObj, rt1) := newMap rt
    let rt2 := rtSet rt1 (parts.getD 0 "") (GoValue.mapRef currentObj)
    let (lastObj, rt3) := ((parts.drop 1).dropLast).foldl descend (currentObj, rt2)
    mapStore rt3 lastObj (parts.getLastD "") v
  else
    match v with
    | GoValue.hostFunc fn => rtSet rt k (GoValue.wrapped fn)
    | GoValue.rawHostFunc fn => rtSet rt k (GoValue.wrapped fn)
    | GoValue.gojaFunc fn => rtSet rt k (GoValue.gojaFunc fn)
    | other => rtSet rt k other

/-- The function `injectsExtra`; the list `opts` gives the entries of the map
in the order the `range` loop visits them. -/
def injectsExtra (rt : Runtime) (opts : GoMap GoValue) : Runtime :=
  opts.foldl (fun r kv => injectExtra r kv.1 kv.2) rt

/-- Property read `v.key` as a script performs it on a bound value: a map
container yields the value stored under `key`; no other bound value carries an
installed property. -/
def getProp (rt : Runtime) (v : GoValue) (key : String) : Option GoValue :=
  match v with
  | GoValue.mapRef a => (rt.heap.getD a []).get key
  | _ => none

/-- What the script expression `p1.p2...pn` evaluates to: the global `p1`,
followed by one property read per further segment; `none` when a segment is
missing. -/
def evalPath (rt : Runtime) : List String → Option GoValue
  | [] => none
  | p :: ps => ps.foldl (fun acc key => acc.bind (fun v => getProp rt v key)) (rt.globals.get p)

/-- The deferred function of `runScriptWithContext` (lines 187-197), as an
update of the object `res` points to; `r` is what `recover()` returns. -/
def deferredRecover (res : Result) (start finish : Time) (r : Option PanicValue) : Result :=
  let res1 := { res with Duration := finish - start }
  match r with
  | none => res1
  | some (PanicValue.exception text) =>
    { res1 with Err := some (Err.exception text), Success := false }
  | some (PanicValue.other text) =>
    { res1 with Err := some (Err.panicked text), Success := false }

/-- What a call of `runScriptWithContext` leaves behind once the program has
been started: the two values handed to the caller, and the final content of
the object the local variable `res` points to. -/
structure Exit where
  result : Option Result
  err : Option Err
  resObj : Result
  deriving DecidableEq, Repr

/-- Lines 181-208 of `runScriptWithContext`. The result parameters of the Go
function are unnamed, so the caller receives what a `return` statement
evaluated; when `RunProgram` panics no `return` statement runs, the deferred
function updates the object and recovers, and the caller receives the zero
values `(nil, nil)`. In the two returning cases the returned pointer is `res`
itself, so the caller sees the update of `Duration`. -/
def execute (g : Goja) (prog : Program) (rt : Runtime) (start finish : Time) : Exit :=
  let res : Result := { Success := false, Value := GoValue.null, Err := none, Duration := 0 }
  match g.RunProgram prog rt with
  | RunOutcome.error err =>
    let res1 := deferredRecover { res with Err := some err, Success := false } start finish none
    { result := some res1, err := some err, resObj := res1 }
  | RunOutcome.value v =>
    let res1 := deferredRecover { res with Value := v, Success := true } start finish none
    { result := some res1, err := none, resObj := res1 }
  | RunOutcome.panic r =>
    { result := none, err := none, resObj := deferredRecover res start finish (some r) }

/-- The runtime the program runs on: `goja.New()` (the built-in globals are
not modelled), then the capability binding, then `injectsExtra`. `heap` holds
the Go maps that exist when the call starts, those `opts` may refer to. -/
def prepareRuntime (p : ScriptPool) (heap : List (GoMap GoValue)) (opts : GoMap GoValue) :
    Runtime :=
  injectsExtra (bindCapabilities { globals := [], heap := heap } p.injects).rt opts

/-- The method `runScriptWithContext`. The context only decides whether the
engine is interrupted, which is part of what `g.RunProgram` answers; `start`
and `finish` are the two clock readings. -/
def runScriptWithContext (g : Goja) (p : ScriptPool) (heap : List (GoMap GoValue))
    (name : String) (opts : GoMap GoValue) (start finish : Time) : Option Result × Option Err :=
  match loadProgram p name with
  | none => (none, some (Err.notFound name))
  | some prog =>
    let e := execute g prog (prepareRuntime p heap opts) start finish
    (e.result, e.err)

/-- The method `RunScript`. -/
def RunScript (g : Goja) (p : ScriptPool) (heap : List (GoMap GoValue))
    (name : String) (opts : GoMap GoValue) (start finish : Time) : Option Result × Option Err :=
  runScriptWithContext g p heap name opts start finish

/-- The method `RunScriptWithContext`. -/
def RunScriptWithContext (g : Goja) (p : ScriptPool) (heap : List (GoMap GoValue))
    (name : String) (opts : GoMap GoValue) (start finish : Time) : Option Result × Option Err :=
  runScriptWithContext g p heap name opts start finish

/-- The value a completed run of the goroutine of `RunScriptAsync` sends on
the channel: a fresh failed `Result` when `runScriptWithContext` returned an
error, the returned pointer otherwise. -/
def asyncDeliver (ret : Option Result × Option Err) : Option Result :=
  match ret.2 with
  | some err => some { Success := false, Value := GoValue.null, Err := some err, Duration := 0 }
  | none => ret.1

/-! ## `util/script/future.go` -/

/-- The struct `Future`. The channel `ch` has capacity 1 (it is made by
`make(chan *Result, 1)`) and is given by the list of values it buffers, oldest
first; the context is not used by the methods below. -/
structure Future where
  ch : List (Option Result)
  done : Bool
  deriving DecidableEq, Repr

/-- The capacity of the channel of a `Future`. -/
def chanCap : Nat := 1

/-- Channel send `ch <- x`: `none` when the buffer is full and the send would
block. -/
def chanSend (ch : List (Option Result)) (x : Option Result) : Option (List (Option Result)) :=
  if ch.length < chanCap then some (ch ++ [x]) else none

/-- How a method call on a `Future` ends when no other goroutine touches the
channel meanwhile. -/
inductive Call (α : Type) where
  /-- The call blocks on the channel. -/
  | blocked
  /-- The call dereferences a nil `*Result` and panics. -/
  | nilDeref
  /-- The call returns `a` and leaves the future in state `f`. -/
  | ret (a : α) (f : Future)
  deriving DecidableEq, Repr

/-- The `Result` built by the `default` branch of `Wait`. -/
def consumed : Result :=
  { Success := false, Value := GoValue.null, Err := some (Err.msg "future already consumed"),
    Duration := 0 }

/-- The method `Future.Wait`. -/
def Future.Wait (f : Future) : Call (Option Result) :=
  if f.done then
    match f.ch with
    | r :: rest =>
      match chanSend rest r with
      | some ch1 => Call.ret r { f with ch := ch1 }
      | none => Call.blocked
    | [] => Call.ret (some consumed) f
  else
    match f.ch with
    | [] => Call.blocked
    | r :: rest =>
      match chanSend rest r with
      | some ch1 => Call.ret r { ch := ch1, done := true }
      | none => Call.blocked

/-- The method `Future.Result`: `r := f.Wait(); return r.Value, r.Err`. -/
def Future.Result (f : Future) : Call (GoValue × Option Err) :=
  match f.Wait with
  | Call.blocked => Call.blocked
  | Call.nilDeref => Call.nilDeref
  | Call.ret none _ => Call.nilDeref
  | Call.ret (some r) f1 => Call.ret (r.Value, r.Err) f1

/-- The method `Future.Err`: `return f.Wait().Err`. -/
def Future.Err (f : Future) : Call (Option Err) :=
  match f.Wait with
  | Call.blocked => Call.blocked
  | Call.nilDeref => Call.nilDeref
  | Call.ret none _ => Call.nilDeref
  | Call.ret (some r) f1 => Call.ret r.Err f1

/-- The method `RunScriptAsync`, observed once its goroutine has finished: the
channel buffers the one value the goroutine sent and `done` is still unset. -/
def RunScriptAsync (g : Goja) (p : ScriptPool) (heap : List (GoMap GoValue))
    (name : String) (opts : GoMap GoValue) (start finish : Time) : Future :=
  { ch := [asyncDeliver (runScriptWithContext g p heap name opts start finish)], done := false }

/-- A number of `Wait` calls in a row on one future: the values returned, in
call order, and the final state; `none` when a call does not return. -/
def waitTimes : Nat → Future → Option (List (Option Result) × Future)
  | 0, f => some ([], f)
  | n + 1, f =>
    match f.Wait with
    | Call.ret r f1 =>
      match waitTimes n f1 with
      | some (rs, f2) => some (r :: rs, f2)
      | none => none
    | _ => none

/-! ## `util/script/store.go`, `util/redis.go`, `util/script/store_redis.go` -/

/-- The calls a `Load` makes to its `ScriptLoadCallback`: the `(name, code)`
arguments, in call order. -/
abbrev LoadCalls := List (String × String)

/-- The interface `ScriptStore`, over the state `σ` of the implementing store.
`Save` and `Delete` return the error (nil is `none`) and the store afterwards;
`Get`, `List` and `Exists` read the store; `Load` is given by the calls it
makes to its callback. -/
structure ScriptStore (σ : Type) where
  Load : σ → LoadCalls
  Save : σ → String → String → Option Err × σ
  Get : σ → String → Except Err String
  Delete : σ → String → Option Err × σ
  List : σ → Except Err (List String)
  Exists : σ → String → Except Err Bool

/-- The Redis server behind a `*redis.Client`, reduced to its hashes (key to
field to value). When `fault` is set the server cannot be reached and every
command fails with that error, changing nothing. -/
structure RedisServer where
  hashes : GoMap (GoMap String)
  fault : Option Err
  deriving DecidableEq, Repr

/-- The fields of the hash stored at `key`; a missing key is an empty hash. -/
def RedisServer.hash (r : RedisServer) (key : String) : GoMap String :=
  (r.hashes.get key).getD []

/-- The command `HSET key field value`, as `Client.HSet(...).Err()`. -/
def RedisServer.HSet (r : RedisServer) (key field value : String) : Option Err × RedisServer :=
  match r.fault with
  | some e => (some e, r)
  | none => (none, { r with hashes := r.hashes.set key ((r.hash key).set field value) })

/-- The command `HGET key field`, as `Client.HGet(...).Result()`: a missing
field is the error `redis.Nil`. -/
def RedisServer.HGet (r : RedisServer) (key field : String) : Except Err String :=
  match r.fault with
  | some e => Except.error e
  | none =>
    match (r.hash key).get field with
    | some v => Except.ok v
    | none => Except.error Err.redisNil

/-- The command `HDEL key field`, as `Client.HDel(...).Err()`. -/
def RedisServer.HDelete (r : RedisServer) (key field : String) : Option Err × RedisServer :=
  match r.fault with
  | some e => (some e, r)
  | none => (none, { r with hashes := r.hashes.set key ((r.hash key).del field) })

/-- The command `HKEYS key`, as `Client.HKeys(...).Result()`. -/
def RedisServer.HKeys (r : RedisServer) (key : String) : Except Err (List String) :=
  match r.fault with
  | some e => Except.error e
  | none => Except.ok (r.hash key).keys

/-- The command `HEXISTS key field`, as `Client.HExists(...).Result()`. -/
def RedisServer.HExists (r : RedisServer) (key field : String) : Except Err Bool :=
  match r.fault with
  | some e => Except.error e
  | none => Except.ok ((r.hash key).get field).isSome

/-- The constant `DEFAULT_HSET_GROUP`. -/
def DEFAULT_HSET_GROUP : String := "gotask"

/-- The function `getGroupName`. -/
def getGroupName (group : String) : String :=
  if group = "" then DEFAULT_HSET_GROUP else group

/-- The method `RedisClient.SetHValue`. -/
def SetHValue (rc : RedisServer) (group key value : String) : Option Err × RedisServer :=
  rc.HSet (getGroupName group) key value

/-- The method `RedisClient.GetHValue`. -/
def GetHValue (rc : RedisServer) (group key : String) : Except Err String :=
  match rc.HGet (getGroupName group) key with
  | Except.error err => Except.error err
  | Except.ok value => Except.ok value

/-- The method `RedisClient.HKeys`. -/
def HKeys (rc : RedisServer) (group : String) : Except Err (List String) :=
  match rc.HKeys (getGroupName group) with
  | Except.error err => Except.error err
  | Except.ok ks => Except.ok ks

/-- The method `RedisClient.HDel`. -/
def HDel (rc : RedisServer) (group key : String) : Option Err × RedisServer :=
  rc.HDelete (getGroupName group) key

/-- The struct `ScriptRedisStore`; the pointer `Redis` may be nil. -/
structure ScriptRedisStore where
  Group : String
  Redis : Option RedisServer
  deriving DecidableEq, Repr

/-- The error `errors.New("redis client not initialized")`. -/
def notInitialized : Err := Err.msg "redis client not initialized"

/-- The method `ScriptRedisStore.Save`. -/
def ScriptRedisStore.Save (s : ScriptRedisStore) (scriptName scriptCode : String) :
    Option Err × ScriptRedisStore :=
  match s.Redis with
  | none => (some notInitialized, s)
  | some rc =>
    match SetHValue rc s.Group scriptName scriptCode with
    | (some err, rc1) => (some err, { s with Redis := some rc1 })
    | (none, rc1) => (none, { s with Redis := some rc1 })

/-- The method `ScriptRedisStore.Get`. -/
def ScriptRedisStore.Get (s : ScriptRedisStore) (scriptName : String) : Except Err String :=
  match s.Redis with
  | none => Except.error notInitialized
  | some rc =>
    match GetHValue rc s.Group scriptName with
    | Except.error err => Except.error err
    | Except.ok scriptCode => Except.ok scriptCode

/-- The method `ScriptRedisStore.Delete`. -/
def ScriptRedisStore.Delete (s : ScriptRedisStore) (scriptName : String) :
    Option Err × ScriptRedisStore :=
  match s.Redis with
  | none => (some notInitialized, s)
  | some rc =>
    match HDel rc s.Group scriptName with
    | (some err, rc1) => (some err, { s with Redis := some rc1 })
    | (none, rc1) => (none, { s with Redis := some rc1 })

/-- The method `ScriptRedisStore.List`. -/
def ScriptRedisStore.List (s : ScriptRedisStore) : Except Err (List String) :=
  match s.Redis with
  | none => Except.error notInitialized
  | some rc =>
    match HKeys rc s.Group with
    | Except.error err => Except.error err
    | Except.ok scriptNames => Except.ok scriptNames

/-- The method `ScriptRedisStore.Exists`; it passes `s.Group` to `HExists`
as it is, without `getGroupName`. -/
def ScriptRedisStore.Exists (s : ScriptRedisStore) (scriptName : String) : Except Err Bool :=
  match s.Redis with
  | none => Except.error notInitialized
  | some rc =>
    match rc.HExists s.Group scriptName with
    | Except.error err => Except.error err
    | Except.ok ex => Except.ok ex

/-- The method `ScriptRedisStore.Load`: the names of `List`, each with the
code `Get` returns for it; a name whose `Get` fails is skipped, and a failing
`List` loads nothing. -/
def ScriptRedisStore.Load (s : ScriptRedisStore) : LoadCalls :=
  match s.List with
  | Except.error _ => []
  | Except.ok scriptNames =>
    scriptNames.filterMap fun name =>
      match s.Get name with
      | Except.error _ => none
      | Except.ok code => some (name, code)

/-- The type `*ScriptRedisStore` as an implementation of `ScriptStore`. -/
def redisStore : ScriptStore ScriptRedisStore where
  Load := ScriptRedisStore.Load
  Save := ScriptRedisStore.Save
  Get := ScriptRedisStore.Get
  Delete := ScriptRedisStore.Delete
  List := ScriptRedisStore.List
  Exists := ScriptRedisStore.Exists

/-! ## `util/script/cache.go` -/

/-- The struct `ScriptEntry`. -/
structure ScriptEntry where
  Name : String
  Code : String
  UpdatedAt : Time
  deriving DecidableEq, Repr

/-- The struct `ScriptCache` over a store with state `σ`. Every value stored
in `scripts` is a non-nil pointer; `initOnce` has run exactly when
`initialized` is set. -/
structure ScriptCache (σ : Type) where
  scripts : GoMap ScriptEntry
  initialized : Bool
  Store : σ

/-- The function `NewScriptCache`. -/
def NewScriptCache {σ : Type} (store : σ) : ScriptCache σ :=
  { scripts := [], initialized := false, Store := store }

/-- The method `ScriptCache.Initialize`. -/
def Initialize {σ : Type} (S : ScriptStore σ) (sc : ScriptCache σ) (now : Time) : ScriptCache σ :=
  if sc.initialized then sc
  else
    { sc with
      scripts := (S.Load sc.Store).foldl
        (fun m nc => m.set nc.1 { Name := nc.1, Code := nc.2, UpdatedAt := now }) sc.scripts
      initialized := true }

/-- The method `ScriptCache.GetScript`: the code or the error, and the cache
afterwards. -/
def GetScript {σ : Type} (S : ScriptStore σ) (sc : ScriptCache σ) (name : String) (now : Time) :
    Except Err String × ScriptCache σ :=
  match sc.scripts.get name with
  | some entry => (Except.ok entry.Code, sc)
  | none =>
    match S.Get sc.Store name with
    | Except.error err => (Except.error err, sc)
    | Except.ok code =>
      (Except.ok code,
        { sc with scripts := sc.scripts.set name { Name := name, Code := code, UpdatedAt := now } })

/-- The method `ScriptCache.StoreScript`. -/
def StoreScript {σ : Type} (S : ScriptStore σ) (sc : ScriptCache σ) (name code : String)
    (now : Time) : Option Err × ScriptCache σ :=
  match S.Save sc.Store name code with
  | (some err, st) => (some err, { sc with Store := st })
  | (none, st) =>
    (none,
      { sc with
        Store := st
        scripts := sc.scripts.set name { Name := name, Code := code, UpdatedAt := now } })

/-- The method `ScriptCache.DeleteScript`. -/
def DeleteScript {σ : Type} (S : ScriptStore σ) (sc : ScriptCache σ) (name : String) :
    Option Err × ScriptCache σ :=
  match S.Delete sc.Store name with
  | (some err, st) => (some err, { sc with Store := st })
  | (none, st) => (none, { sc with Store := st, scripts := sc.scripts.del name })

/-- The method `ScriptCache.ListScripts`. -/
def ListScripts {σ : Type} (S : ScriptStore σ) (sc : ScriptCache σ) : Except Err (List String) :=
  if !sc.initialized then S.List sc.Store
  else Except.ok sc.scripts.keys

/-- The method `ScriptCache.ScriptExists`. -/
def ScriptExists {σ : Type} (S : ScriptStore σ) (sc : ScriptCache σ) (name : String)
    (now : Time) : Except Err Bool × ScriptCache σ :=
  match sc.scripts.get name with
  | some _ => (Except.ok true, sc)
  | none =>
    match S.Exists sc.Store name with
    | Except.error err => (Except.error err, sc)
    | Except.ok ex =>
      if ex then
        match S.Get sc.Store name with
        | Except.error _ => (Except.ok true, sc)
        | Except.ok code =>
          (Except.ok ex,
            { sc with
              scripts := sc.scripts.set name { Name := name, Code := code, UpdatedAt := now } })
      else (Except.ok ex, sc)

/-! ## Predicates used to state the properties -/

/-- Every value a script reaches by one property read from a global is a
wrapped host function. -/
def boundFunctionsOnly (rt : Runtime) : Prop :=
  ∀ a v b w, rt.globals.get a = some v → getProp rt v b = some w → ∃ f, w = GoValue.wrapped f

/-- The script `name` is in the store: the hash the store writes to has the
field `name`. -/
def ScriptRedisStore.holds (s : ScriptRedisStore) (name : String) : Bool :=
  match s.Redis with
  | none => false
  | some rc => ((rc.hash (getGroupName s.Group)).get name).isSome

/-! ## Sample engines, pools and stores -/

/-- An engine that compiles the sources `1` and `2`, rejects every other
source, and runs a program to the number it denotes. -/
def twoProgramEngine : Goja where
  Compile := fun _ code =>
    if code = "1" then Except.ok { id := 1 }
    else if code = "2" then Except.ok { id := 2 }
    else Except.error (Err.msg "SyntaxError: unexpected token")
  RunProgram := fun prog _ => RunOutcome.value (GoValue.num prog.id)

/-- The pool made by `NewScriptPool`: nothing compiled, nothing registered. -/
def emptyPool : ScriptPool := { scripts := [], injects := [] }

/-- An engine on which every run ends in the panic of a host function that
dereferences a nil pointer, as `Redis_set` does when `util.RedisData` is nil. -/
def panickingEngine : Goja where
  Compile := fun _ _ => Except.ok { id := 0 }
  RunProgram := fun _ _ =>
    RunOutcome.panic
      (PanicValue.other "runtime error: invalid memory address or nil pointer dereference")

/-- A pool with the capability `redis.set` and one compiled script calling it. -/
def redisPool : ScriptPool :=
  { scripts := [("s", { code := "redis.set(1, 2)", program := some { id := 0 }, updated := 0 })],
    injects := [("redis.set", { id := 1 })] }

/-- A store on a reachable server with no hash yet. -/
def healthyStore : ScriptRedisStore :=
  { Group := "scripts", Redis := some { hashes := [], fault := none } }

/-- A store whose client was never set. -/
def unsetStore : ScriptRedisStore := { Group := "scripts", Redis := none }

/-- A store holding the script `s` on a server that refuses connections. -/
def unreachableStore : ScriptRedisStore :=
  { Group := "scripts"
    Redis := some { hashes := [("scripts", [("s", "1")])],
                    fault := some (Err.msg "dial tcp: connection refused") } }

/-- A store with the empty group name, on a server where the hash with the
empty key has a field `s` and the hash `gotask` does not exist. -/
def defaultGroupStore : ScriptRedisStore :=
  { Group := "", Redis := some { hashes := [("", [("s", "1")])], fault := none } }

/-! ## What a script observes of the bound globals -/

/-- What a script sees of one bound value: a container with the values under
its keys, or any other value as it is. -/
inductive Obs where
  | leaf (v : GoValue)
  | container (content : String → Option GoValue)

/-- The observation of a value on a heap: a map reference is seen through its
content, not its address. -/
def obsOf (heap : List (GoMap GoValue)) (v : GoValue) : Obs :=
  match v with
  | GoValue.mapRef a => Obs.container fun key => (heap.getD a []).get key
  | other => Obs.leaf other

/-- The observation of the global `name` of a runtime, nested container
included; `none` when the global is not bound. -/
def observe (rt : Runtime) (name : String) : Option Obs :=
  (rt.globals.get name).map (obsOf rt.heap)

/-- Where the capability binding installs the function registered under `k`:
the global name, and the key inside the container of that name when the key
has 2 or 3 segments (the test of line 156). -/
def bindTarget (k : String) : String × Option String :=
  if 1 < (Split k '.').length ∧ (Split k '.').length ≤ 3 then
    ((Split k '.').getD 0 "", some ((Split k '.').getD 1 ""))
  else (k, none)

/-- The content of the container observed under `g`, empty when `g` is not
bound to a container. -/
def containerContent (z : String → Option Obs) (g : String) : String → Option GoValue :=
  match z g with
  | some (Obs.container content) => content
  | _ => fun _ => none

/-- The effect on the observation of installing the wrapped function `fn` at
a target: without a key, the wrapped function becomes the global; with a key,
it is added to the container of that name, which replaces whatever else the
global held. -/
def specBindAt (z : String → Option Obs) (target : String × Option String) (fn : FuncId) :
    String → Option Obs :=
  match target with
  | (g, none) => fun name => if name = g then some (Obs.leaf (GoValue.wrapped fn)) else z name
  | (g, some m) => fun name =>
    if name = g then
      some (Obs.container fun key =>
        if key = m then some (GoValue.wrapped fn) else containerContent z g key)
    else z name

/-- The effect of binding one registered pair on the observation. -/
def specBind (z : String → Option Obs) (kv : String × FuncId) : String → Option Obs :=
  specBindAt z (bindTarget kv.1) kv.2

/-- The invariant of the binding loop relative to the set `C` of container
names: `objMap` holds exactly the globals bound to a map, under distinct
addresses inside the heap, and only names of `C`. -/
def bindInv (C : String → Prop) (st : BindState) : Prop :=
  (∀ g a, st.objMap.get g = some a ↔ st.rt.globals.get g = some (GoValue.mapRef a)) ∧
    (∀ g1 g2 a, st.objMap.get g1 = some a → st.objMap.get g2 = some a → g1 = g2) ∧
    (∀ g a, st.objMap.get g = some a → a < st.rt.heap.length) ∧
    (∀ g a, st.objMap.get g = some a → C g)

/-- The inverse of `splitChars`: the pieces joined by the separator. -/
def joinChars (sep : Char) : List (List Char) → List Char
  | [] => []
  | [p] => p
  | p :: q :: rest => p ++ sep :: joinChars sep (q :: rest)


/-- An engine on which every run ends in the panic of a host function whose
type assertion fails, as `Redis_keys` does at `Export().(string)` when its
argument is a number. -/
def assertingEngine : Goja where
  Compile := fun _ _ => Except.ok { id := 0 }
  RunProgram := fun _ _ =>
    RunOutcome.panic (PanicValue.other "interface conversion: interface {} is int64, not string")

/-- A pool with the capability `redis.keys` and one compiled script calling it
with a number. -/
def keysPool : ScriptPool :=
  { scripts := [("s", { code := "redis.keys(1)", program := some { id := 0 }, updated := 0 })],
    injects := [("redis.keys", { id := 1 })] }
end Script

/-!
The package `util/config`: the Modbus CSV parser, the device, device-type,
protocol and dictionary stores, and the Nacos subscriber.

The libraries `encoding/csv`, `encoding/json`, the Unicode case tables and the
Nacos SDK are outside the repository; what the code calls on them is a
parameter. `strings.TrimSpace`, `strings.HasPrefix`, `strconv.Atoi` and
`strconv.Itoa` are modelled from their documentation.
-/

namespace Config

open Script

/-! ## Library functions -/

/-- The code points `unicode.IsSpace` accepts (the property White_Space). -/
def isSpace (c : Char) : Bool :=
  let n := c.toNat
  (9 ≤ n && n ≤ 13) || n == 32 || n == 0x85 || n == 0xA0 || n == 0x1680 ||
    (0x2000 ≤ n && n ≤ 0x200A) || n == 0x2028 || n == 0x2029 || n == 0x202F ||
    n == 0x205F || n == 0x3000

/-- The call `strings.TrimSpace(s)`. -/
def TrimSpace (s : String) : String :=
  String.mk ((s.toList.dropWhile isSpace).reverse.dropWhile isSpace).reverse

/-- The call `strings.HasPrefix(s, pre)`. -/
def HasPrefix (s pre : String) : Bool :=
  pre.toList.isPrefixOf s.toList

/-- The largest value of a Go `int` (64-bit platforms). -/
def maxInt : Int := 9223372036854775807

/-- The smallest value of a Go `int` (64-bit platforms). -/
def minInt : Int := -9223372036854775808

/-- The value of a decimal digit. -/
def digitVal (c : Char) : Option Nat :=
  if 48 ≤ c.toNat ∧ c.toNat ≤ 57 then some (c.toNat - 48) else none

/-- The number written by a list of decimal digits read after the prefix
worth `acc`; `none` when a character is not a digit. -/
def digitsFrom (acc : Nat) : List Char → Option Nat
  | [] => some acc
  | c :: cs =>
    match digitVal c with
    | none => none
    | some d => digitsFrom (acc * 10 + d) cs

/-- The integer a string writes in decimal: an optional sign and at least one
digit; `none` for every other string. -/
def decimalValue (s : String) : Option Int :=
  match s.toList with
  | [] => none
  | '-' :: c :: cs => (digitsFrom 0 (c :: cs)).map fun n => -(n : Int)
  | '+' :: c :: cs => (digitsFrom 0 (c :: cs)).map fun n => (n : Int)
  | '-' :: [] => none
  | '+' :: [] => none
  | c :: cs => (digitsFrom 0 (c :: cs)).map fun n => (n : Int)

/-- The call `strconv.Atoi(s)`: the value and whether an error is returned.
A string that is not a decimal integer gives 0 and a syntax error; a decimal
integer outside the range of `int` gives the nearest bound and a range error. -/
def Atoi (s : String) : Int × Bool :=
  match decimalValue s with
  | none => (0, true)
  | some v =>
    if v > maxInt then (maxInt, true)
    else if v < minInt then (minInt, true)
    else (v, false)

/-- The call `strconv.Itoa(i)` for a slice index. -/
def Itoa (i : Nat) : String := toString i

/-- The conversion `uint16(x)` of an `int`: the low 16 bits. -/
def toUint16 (x : Int) : Nat := (x % 65536).toNat

/-- A `float64`, by its IEEE 754 bit pattern. -/
structure Float64 where
  bits : Nat
  deriving DecidableEq, Repr

/-- The comparison `x == 0`: true of both zeros. -/
def Float64.isZero (x : Float64) : Bool := x.bits % 9223372036854775808 == 0

/-- The constant `1.0`. -/
def Float64.one : Float64 := { bits := 0x3FF0000000000000 }

/-! ## `util/config/modbus_config_parser.go` -/

/-- The struct `ModbusRegisterBitConfig`. -/
structure ModbusRegisterBitConfig where
  Bit : Int
  Key : String
  Name : String
  deriving DecidableEq, Repr

/-- The struct `ModbusRegister`; the field `Type` is written `Type_`. -/
structure ModbusRegister where
  Name : String
  Key : String
  Address : Nat
  Length : Nat
  Type_ : Nat
  Function : Nat
  Scale : Float64
  Unit : String
  Bits : List ModbusRegisterBitConfig
  deriving DecidableEq, Repr

/-- The constant `MF_NONE`. -/
def MF_NONE : Nat := 0
/-- The constant `MF_HOLD`. -/
def MF_HOLD : Nat := 1
/-- The constant `MF_INPUT`. -/
def MF_INPUT : Nat := 2
/-- The constant `MF_COIL`. -/
def MF_COIL : Nat := 3
/-- The constant `MT_NONE`. -/
def MT_NONE : Nat := 0
/-- The constant `MT_INT`. -/
def MT_INT : Nat := 1
/-- The constant `MT_FLOAT`. -/
def MT_FLOAT : Nat := 2

/-- What `ParseModbusProtocol` calls outside the repository. -/
structure CsvEnv where
  /-- The results of the successive `reader.Read()` calls on a
  `csv.Reader` (with `TrimLeadingSpace`) over the content, up to and not
  including the final `io.EOF`. -/
  Read : String → List (Except Err (List String))
  /-- The call `strings.ToLower(s)`. -/
  ToLower : String → String
  /-- The value returned by `strconv.ParseFloat(s, 64)`, its error ignored. -/
  ParseFloat : String → Float64

/-- The body of the loop of `parseBits` for one entry: the bit config to
append, or `none` when the entry is skipped. -/
def parseBit (entry : String) : Option ModbusRegisterBitConfig :=
  let parts := Split (TrimSpace entry) ':'
  if parts.length ≠ 3 then none
  else
    let (pos, err) := Atoi (TrimSpace (parts.getD 0 ""))
    if err then none
    else some { Bit := pos, Key := TrimSpace (parts.getD 1 ""), Name := TrimSpace (parts.getD 2 "") }

/-- The function `parseBits`. -/
def parseBits (bitsStr : String) : List ModbusRegisterBitConfig :=
  (Split bitsStr ';').filterMap parseBit

/-- The body of the loop of `applyDefaults` for the register at index `i`. -/
def applyDefault (i : Nat) (r : ModbusRegister) : ModbusRegister :=
  let r1 := if r.Function = MF_NONE then { r with Function := MF_INPUT } else r
  let r2 := if r1.Type_ = MT_NONE then { r1 with Type_ := MT_INT } else r1
  let r3 := if r2.Scale.isZero then { r2 with Scale := Float64.one } else r2
  if r3.Key = "" then { r3 with Key := "Key" ++ Itoa i } else r3

/-- The loop of `applyDefaults` from index `i` on. -/
def applyDefaultsFrom (i : Nat) : List ModbusRegister → List ModbusRegister
  | [] => []
  | r :: rs => applyDefault i r :: applyDefaultsFrom (i + 1) rs

/-- The function `applyDefaults`. -/
def applyDefaults (regs : List ModbusRegister) : List ModbusRegister :=
  applyDefaultsFrom 0 regs

/-- The header loop of `ParseModbusProtocol`: the map `idx` from the lowered,
trimmed header names to their column, a later column winning. -/
def buildIdx (env : CsvEnv) (headers : List String) : GoMap Nat :=
  headers.enum.foldl (fun idx ih => idx.set (env.ToLower (TrimSpace ih.2)) ih.1) []

/-- The closure `get` of `ParseModbusProtocol`. -/
def getField (idx : GoMap Nat) (record : List String) (field : String) : String :=
  match idx.get field with
  | none => ""
  | some i => if i ≥ record.length then "" else TrimSpace (record.getD i "")

/-- The closure `getType` of `ParseModbusProtocol`. -/
def getType (idx : GoMap Nat) (record : List String) (field : String) : Nat :=
  match idx.get field with
  | none => MT_NONE
  | some i =>
    if i ≥ record.length then MT_NONE
    else
      let str := TrimSpace (record.getD i "")
      if str = "" then MT_INT
      else if str = "int" then MT_INT
      else if str = "float" then MT_FLOAT
      else MT_NONE

/-- The closure `getFunction` of `ParseModbusProtocol`; its `default` branch
returns `MT_NONE`, which is 0 like `MF_NONE`. -/
def getFunction (idx : GoMap Nat) (record : List String) (field : String) : Nat :=
  match idx.get field with
  | none => MF_NONE
  | some i =>
    if i ≥ record.length then MF_NONE
    else
      let str := TrimSpace (record.getD i "")
      if str = "" then MF_HOLD
      else if str = "coil" then MF_COIL
      else if str = "input" then MF_INPUT
      else if str = "hold" then MF_HOLD
      else MT_NONE

/-- The register built from a record whose fields have been trimmed (lines
136-158 of `ParseModbusProtocol`). -/
def buildRegister (env : CsvEnv) (idx : GoMap Nat) (record : List String) : ModbusRegister :=
  let address := (Atoi (getField idx record "address")).1
  let length := (Atoi (getField idx record "length")).1
  let scale :=
    if getField idx record "scale" ≠ "" then env.ParseFloat (getField idx record "scale")
    else Float64.one
  { Name := getField idx record "name"
    Key := getField idx record "key"
    Address := toUint16 address
    Length := toUint16 length
    Type_ := getType idx record "type"
    Function := getFunction idx record "function"
    Scale := scale
    Unit := getField idx record "unit"
    Bits := if getField idx record "bits" ≠ "" then parseBits (getField idx record "bits") else [] }

/-- The body of the record loop of `ParseModbusProtocol` for one result of
`reader.Read()`: the register appended to `result`, or `none` when the loop
continues without appending. -/
def rowRegister (env : CsvEnv) (idx : GoMap Nat) (read : Except Err (List String)) :
    Option ModbusRegister :=
  match read with
  | Except.error _ => none
  | Except.ok raw =>
    if raw.length < 4 then none
    else
      let record := raw.map TrimSpace
      if HasPrefix (record.getD 0 "") "//" || HasPrefix (record.getD 0 "") "#" then none
      else some (buildRegister env idx record)

/-- The start of `ParseModbusProtocol`: a UTF-8 byte order mark (the three
bytes EF BB BF, the code point FEFF) at the start of the content is skipped. -/
def skipBOM (content : String) : String :=
  match content.toList with
  | c :: rest => if c.toNat = 0xFEFF then String.mk rest else content
  | [] => content

/-- The error `io.EOF`. -/
def EOF : Err := Err.msg "EOF"

/-- The function `ParseModbusProtocol`. -/
def ParseModbusProtocol (env : CsvEnv) (content : String) : Except Err (List ModbusRegister) :=
  match env.Read (skipBOM content) with
  | [] => Except.error EOF
  | Except.error err :: _ => Except.error err
  | Except.ok headers :: rest =>
    Except.ok (applyDefaults (rest.filterMap (rowRegister env (buildIdx env headers))))

/-! ## `util/config/callback.go`, `config_device.go`, `config_device_type.go`,
`config_protocol.go`, `config_dict.go` -/

/-- The struct `DeviceConfig`; the field `Type` is written `Type_`. -/
structure DeviceConfig where
  Name : String
  IP : String
  Port : Int
  Type_ : String
  SlaveID : Int
  Tags : String
  Interval : Int
  Config : String
  deriving DecidableEq, Repr

/-- The struct `DeviceTypeConfig`. -/
structure DeviceTypeConfig where
  TypeName : String
  Interval : Int
  Timeout : Int
  Retries : Int
  Description : String
  Bucket : String
  Config : String
  Tags : String
  Params : String
  deriving DecidableEq, Repr

/-- The variable `CONFIG_CHANGE_HANDLERS`: for each handler, whether it is
installed (non-nil). -/
structure ConfigChangeHandlers where
  DeviceRemoveHandler : Bool
  DeviceUpdateHandler : Bool
  DeviceTypeUpdateHandler : Bool
  ProtocolUpdateHandler : Bool
  DictionaryUpdateHandler : Bool
  deriving DecidableEq, Repr

/-- A call of an installed handler, with its arguments. -/
inductive HandlerCall where
  | DeviceUpdate (cfg : DeviceConfig)
  | DeviceRemove (name : String)
  | DeviceTypeUpdate (cfg : DeviceTypeConfig)
  | ProtocolUpdate (csvName data : String)
  | DictionaryUpdate (csvName data : String)
  deriving DecidableEq, Repr

/-- The calls of `json.Unmarshal` the package makes, by target type. A JSON
`null` where a pointer is expected decodes to a nil pointer (`none`). -/
structure Json where
  /-- Decoding into `[]*DeviceConfig`. -/
  Devices : String → Except Err (List (Option DeviceConfig))
  /-- Decoding into `DeviceTypesConfig`: the entries of the map `DeviceTypes`,
  in the order a `range` visits them. -/
  DeviceTypes : String → Except Err (GoMap (Option DeviceTypeConfig))
  /-- Decoding into `[]string`. -/
  Strings : String → Except Err (List String)

/-- How an update operation ends: it returns an error (nil is `none`) with the
new state and the handler calls it made, or it panics on a nil pointer
dereference. -/
inductive Outcome (σ : Type) where
  | returned (err : Option Err) (st : σ) (calls : List HandlerCall)
  | panicked

/-- The struct `DeviceConfiguration`. -/
structure DeviceConfiguration where
  DataIdConfigMap : GoMap String
  DataIdDeviceMap : GoMap DeviceConfig
  deriving DecidableEq, Repr

/-- The method `parseDeviceConfigs`; the returned slice pointer is non-nil
exactly when the error is nil. -/
def parseDeviceConfigs (json : Json) (dataId data : String) :
    Except Err (List (Option DeviceConfig)) :=
  if TrimSpace data = "" then Except.ok []
  else
    match json.Devices data with
    | Except.error _ => Except.error (Err.msg ("error unmarshaling JSON from " ++ dataId))
    | Except.ok configs => Except.ok configs

/-- The first loop of `UpdateDeviceConfig` (lines 67-73): store each config
under its name and call the update handler; `none` when `config.Name`
dereferences a nil pointer. -/
def storeDevices (h : ConfigChangeHandlers) :
    List (Option DeviceConfig) → GoMap DeviceConfig →
      Option (GoMap DeviceConfig × List HandlerCall)
  | [], m => some (m, [])
  | none :: _, _ => none
  | some config :: rest, m =>
    match storeDevices h rest (m.set config.Name config) with
    | none => none
    | some (m1, calls) =>
      some (m1, (if h.DeviceUpdateHandler then [HandlerCall.DeviceUpdate config] else []) ++ calls)

/-- The loop of `buildDeviceConfigMap`, continuing from the map `m`. -/
def buildDeviceConfigMapFrom (m : GoMap DeviceConfig) :
    List (Option DeviceConfig) → Option (GoMap DeviceConfig)
  | [] => some m
  | none :: _ => none
  | some cfg :: rest => buildDeviceConfigMapFrom (m.set cfg.Name cfg) rest

/-- The function `buildDeviceConfigMap` on a non-nil slice pointer. -/
def buildDeviceConfigMap (deviceConfigs : List (Option DeviceConfig)) :
    Option (GoMap DeviceConfig) :=
  buildDeviceConfigMapFrom [] deviceConfigs

/-- The loop over the previous payload in `UpdateDeviceConfig` (lines 79-87):
delete and report each config whose name is not a key of `deviceConfigMap`. -/
def removeStale (h : ConfigChangeHandlers) (deviceConfigMap : GoMap DeviceConfig) :
    List (Option DeviceConfig) → GoMap DeviceConfig →
      Option (GoMap DeviceConfig × List HandlerCall)
  | [], m => some (m, [])
  | none :: _, _ => none
  | some cfg :: rest, m =>
    if (deviceConfigMap.get cfg.Name).isSome then removeStale h deviceConfigMap rest m
    else
      match removeStale h deviceConfigMap rest (m.del cfg.Name) with
      | none => none
      | some (m1, calls) =>
        some (m1,
          (if h.DeviceRemoveHandler then [HandlerCall.DeviceRemove cfg.Name] else []) ++ calls)

/-- The configs the second loop of `UpdateDeviceConfig` ranges over (lines
77-79): the decoded previous payload of `dataId`, and nothing when no payload
is stored or the stored one does not decode. -/
def previousDevices (json : Json) (d : DeviceConfiguration) (dataId : String) :
    List (Option DeviceConfig) :=
  match d.DataIdConfigMap.get dataId with
  | none => []
  | some previousConfig =>
    match parseDeviceConfigs json dataId previousConfig with
    | Except.error _ => []
    | Except.ok previousDeviceConfig => previousDeviceConfig

/-- The method `DeviceConfiguration.UpdateDeviceConfig`. -/
def UpdateDeviceConfig (json : Json) (h : ConfigChangeHandlers) (d : DeviceConfiguration)
    (dataId configData : String) : Outcome DeviceConfiguration :=
  match (if configData = "" then Except.ok [] else parseDeviceConfigs json dataId configData) with
  | Except.error err => Outcome.returned (some err) d []
  | Except.ok deviceConfigs =>
    match storeDevices h deviceConfigs d.DataIdDeviceMap with
    | none => Outcome.panicked
    | some (m1, updates) =>
      match buildDeviceConfigMap deviceConfigs with
      | none => Outcome.panicked
      | some deviceConfigMap =>
        match removeStale h deviceConfigMap (previousDevices json d dataId) m1 with
        | none => Outcome.panicked
        | some (m2, removes) =>
          Outcome.returned none
            { DataIdConfigMap := d.DataIdConfigMap.set dataId configData, DataIdDeviceMap := m2 }
            (updates ++ removes)

/-- The struct `DeviceTypeConfiguration`: the atomic value `DeviceTypes`,
`none` until the first `Store`, then the map of the stored snapshot. -/
structure DeviceTypeConfiguration where
  DeviceTypes : Option (GoMap DeviceTypeConfig)
  deriving DecidableEq, Repr

/-- The loop of `parseDeviceTypeConfig` (lines 50-53): set `TypeName` of each
value to its key; `none` when a value is a nil pointer. -/
def backfillTypeNames : GoMap (Option DeviceTypeConfig) → Option (GoMap DeviceTypeConfig)
  | [] => some []
  | (_, none) :: _ => none
  | (k, some v) :: rest =>
    match backfillTypeNames rest with
    | none => none
    | some m => some ((k, { v with TypeName := k }) :: m)

/-- The method `parseDeviceTypeConfig`; the outer `none` is a panic. -/
def parseDeviceTypeConfig (json : Json) (dataId configData : String) :
    Option (Except Err (GoMap DeviceTypeConfig)) :=
  match json.DeviceTypes configData with
  | Except.error _ =>
    some (Except.error (Err.msg ("error unmarshaling device type config from " ++ dataId)))
  | Except.ok types =>
    match backfillTypeNames types with
    | none => none
    | some m => some (Except.ok m)

/-- The function `UpdateDeviceTypeConfig`. -/
def UpdateDeviceTypeConfig (json : Json) (h : ConfigChangeHandlers)
    (d : DeviceTypeConfiguration) (dataId configData : String) :
    Outcome DeviceTypeConfiguration :=
  match parseDeviceTypeConfig json dataId configData with
  | none => Outcome.panicked
  | some (Except.error err) => Outcome.returned (some err) d []
  | some (Except.ok cfg) =>
    Outcome.returned none { DeviceTypes := some cfg }
      (if h.DeviceTypeUpdateHandler then cfg.map fun kv => HandlerCall.DeviceTypeUpdate kv.2
       else [])

/-- The struct `ProtocolConfiguration`. -/
structure ProtocolConfiguration where
  ProtocolMap : GoMap String
  ModbusRegisterMap : GoMap (List ModbusRegister)
  deriving DecidableEq, Repr

/-- The function `UpdateProtocolConfig`. -/
def UpdateProtocolConfig (env : CsvEnv) (h : ConfigChangeHandlers) (p : ProtocolConfiguration)
    (csvName data : String) : Outcome ProtocolConfiguration :=
  match ParseModbusProtocol env data with
  | Except.error err => Outcome.returned (some err) p []
  | Except.ok modbusRegisters =>
    Outcome.returned none
      { ProtocolMap := p.ProtocolMap.set csvName data,
        ModbusRegisterMap := p.ModbusRegisterMap.set csvName modbusRegisters }
      (if h.ProtocolUpdateHandler then [HandlerCall.ProtocolUpdate csvName data] else [])

/-- The struct `DictionaryConfiguration`. -/
structure DictionaryConfiguration where
  DictionaryMap : GoMap String
  deriving DecidableEq, Repr

/-- The function `UpdateDictionaryConfig`. -/
def UpdateDictionaryConfig (h : ConfigChangeHandlers) (p : DictionaryConfiguration)
    (csvName data : String) : Outcome DictionaryConfiguration :=
  Outcome.returned none { DictionaryMap := p.DictionaryMap.set csvName data }
    (if h.DictionaryUpdateHandler then [HandlerCall.DictionaryUpdate csvName data] else [])

/-- The handler calls of an outcome; none when it panicked. -/
def Outcome.calls {σ : Type} : Outcome σ → List HandlerCall
  | Outcome.returned _ _ calls => calls
  | Outcome.panicked => []

/-- The state an outcome leaves, `st` when it panicked. -/
def Outcome.state {σ : Type} (st : σ) : Outcome σ → σ
  | Outcome.returned _ st1 _ => st1
  | Outcome.panicked => st

/-- Whether the operation panicked. -/
def Outcome.isPanic {σ : Type} : Outcome σ → Bool
  | Outcome.returned _ _ _ => false
  | Outcome.panicked => true

/-- The names of a list of configs, in order. -/
def deviceNames (cfgs : List DeviceConfig) : List String := cfgs.map fun c => c.Name

/-- The entries of the previous payload whose name is not in the new one. -/
def staleEntries (previous new : List DeviceConfig) : List DeviceConfig :=
  previous.filter fun c => decide (c.Name ∉ deviceNames new)

/-! ## Sample payloads -/

/-- A device config with the given name and zero values elsewhere. -/
def device (name : String) : DeviceConfig :=
  { Name := name, IP := "", Port := 0, Type_ := "", SlaveID := 0, Tags := "", Interval := 0,
    Config := "" }

/-- The payload listing the devices A and B. -/
def payloadAB : String := "[\x7b\"name\":\"A\"\x7d,\x7b\"name\":\"B\"\x7d]"

/-- The payload listing the devices B and C. -/
def payloadBC : String := "[\x7b\"name\":\"B\"\x7d,\x7b\"name\":\"C\"\x7d]"

/-- The payload listing the device A twice. -/
def payloadAA : String := "[\x7b\"name\":\"A\"\x7d,\x7b\"name\":\"A\"\x7d]"

/-- The device-types payload whose only entry `x` is null. -/
def payloadNullType : String := "\x7b\"device_types\":\x7b\"x\":null\x7d\x7d"

/-- A decoder that knows the payloads used below and rejects the rest. -/
def sampleJson : Json where
  Devices := fun data =>
    if data = "[null]" then Except.ok [none]
    else if data = "[]" then Except.ok []
    else if data = payloadAB then Except.ok [some (device "A"), some (device "B")]
    else if data = payloadBC then Except.ok [some (device "B"), some (device "C")]
    else if data = payloadAA then Except.ok [some (device "A"), some (device "A")]
    else Except.error (Err.msg "invalid character")
  DeviceTypes := fun data =>
    if data = payloadNullType then Except.ok [("x", none)]
    else Except.error (Err.msg "invalid character")
  Strings := fun data =>
    if data = "[\"l1\",\"l2\"]" then Except.ok ["l1", "l2"]
    else if data = "[\"l2\",\"l3\"]" then Except.ok ["l2", "l3"]
    else Except.error (Err.msg "invalid character")

/-- All five handlers installed. -/
def allHandlers : ConfigChangeHandlers :=
  { DeviceRemoveHandler := true, DeviceUpdateHandler := true, DeviceTypeUpdateHandler := true,
    ProtocolUpdateHandler := true, DictionaryUpdateHandler := true }

/-- The value of `NewDeviceConfiguration()`. -/
def NewDeviceConfiguration : DeviceConfiguration :=
  { DataIdConfigMap := [], DataIdDeviceMap := [] }

/-- The device store after `payload` has been published on the data id `d`
of a new store. -/
def afterFirst (payload : String) : DeviceConfiguration :=
  (UpdateDeviceConfig sampleJson allHandlers NewDeviceConfiguration "d" payload).state
    NewDeviceConfiguration

/-! ## `util/config/nacos.go` -/

/-- The Nacos config client (`config_client.IConfigClient`), for the group of
the subscriber: each call is given by the data id it is made for. -/
structure ConfigClient where
  /-- The call `GetConfig`: the content or the error. -/
  GetConfig : String → Except Err String
  /-- The call `ListenConfig`: the error, nil being `none`. -/
  ListenConfig : String → Option Err
  /-- The call `CancelListenConfig`: the error, nil being `none`. -/
  CancelListenConfig : String → Option Err

/-- A call the subscriber makes on the client or on the user callback. A
listener registered for `dataId` under `parentId` calls the user callback with
`(dataId, data, parentId)` on each change. -/
inductive ClientCall where
  | GetConfig (dataId : String)
  | Callback (dataId data parentId : String)
  | ListenConfig (dataId parentId : String)
  | CancelListenConfig (dataId : String)
  deriving DecidableEq, Repr

/-- The data id a call is about. -/
def ClientCall.dataId : ClientCall → String
  | ClientCall.GetConfig d => d
  | ClientCall.Callback d _ _ => d
  | ClientCall.ListenConfig d _ => d
  | ClientCall.CancelListenConfig d => d

/-- The struct `NacosClient`, reduced to the field the reconciliation reads and
writes: for each root data id, the set of its subscribed leaf data ids. -/
structure NacosClient where
  SubscribedSubDataIds : GoMap (GoMap Unit)
  deriving DecidableEq, Repr

/-- The set stored for `parentId`, empty when there is none:
what `Load(parentId)` returns, or the new map stored when the load fails. -/
def NacosClient.subscribed (nc : NacosClient) (parentId : String) : GoMap Unit :=
  (nc.SubscribedSubDataIds.get parentId).getD []

/-- The body of the loop of `SubscribeToDataIds` for one `subId`. -/
def subscribeOne (api : ConfigClient) (parentId : String)
    (st : NacosClient × List ClientCall) (subId : String) : NacosClient × List ClientCall :=
  match api.GetConfig subId with
  | Except.error _ => (st.1, st.2 ++ [ClientCall.GetConfig subId])
  | Except.ok content =>
    let calls := st.2 ++ [ClientCall.GetConfig subId, ClientCall.Callback subId content parentId,
      ClientCall.ListenConfig subId parentId]
    match api.ListenConfig subId with
    | some _ => (st.1, calls)
    | none =>
      ({ SubscribedSubDataIds :=
          st.1.SubscribedSubDataIds.set parentId ((st.1.subscribed parentId).set subId ()) },
        calls)

/-- The method `SubscribeToDataIds`: the client afterwards and the calls made. -/
def SubscribeToDataIds (api : ConfigClient) (nc : NacosClient) (dataIds : List String)
    (parentId : String) : NacosClient × List ClientCall :=
  dataIds.foldl (subscribeOne api parentId) (nc, [])

/-- The body of the loop of `UnsubscribeFromDataIds` for one `subId`. -/
def unsubscribeOne (api : ConfigClient) (parentId : String)
    (st : NacosClient × List ClientCall) (subId : String) : NacosClient × List ClientCall :=
  match api.CancelListenConfig subId with
  | some _ => (st.1, st.2 ++ [ClientCall.CancelListenConfig subId])
  | none =>
    ({ SubscribedSubDataIds :=
        st.1.SubscribedSubDataIds.set parentId ((st.1.subscribed parentId).del subId) },
      st.2 ++ [ClientCall.CancelListenConfig subId])

/-- The method `UnsubscribeFromDataIds`. -/
def UnsubscribeFromDataIds (api : ConfigClient) (nc : NacosClient) (parentId : String)
    (dataIds : List String) : NacosClient × List ClientCall :=
  dataIds.foldl (unsubscribeOne api parentId) (nc, [])

/-- The set `newSubDataIdsSet` of `ProcessSubConfig`. -/
def newSubDataIdsSet (subDataIds : List String) : GoMap Unit :=
  subDataIds.foldl (fun m subId => m.set subId ()) []

/-- The method `ProcessSubConfig`; a `range` over a map visits its keys in the
order of the list. -/
def ProcessSubConfig (json : Json) (api : ConfigClient) (nc : NacosClient)
    (dataId data : String) : NacosClient × List ClientCall :=
  match (if data ≠ "" then json.Strings data else Except.ok []) with
  | Except.error _ => (nc, [])
  | Except.ok subDataIds =>
    let newSet := newSubDataIdsSet subDataIds
    let nc1 : NacosClient :=
      match nc.SubscribedSubDataIds.get dataId with
      | some _ => nc
      | none => { SubscribedSubDataIds := nc.SubscribedSubDataIds.set dataId [] }
    let subscribedSubDataIds := nc1.subscribed dataId
    let toUnsubscribe := subscribedSubDataIds.keys.filter fun oldSubId =>
      (newSet.get oldSubId).isNone
    let toSubscribe := newSet.keys.filter fun subId => (subscribedSubDataIds.get subId).isNone
    let r1 :=
      if toUnsubscribe.length > 0 then UnsubscribeFromDataIds api nc1 dataId toUnsubscribe
      else (nc1, [])
    let r2 :=
      if toSubscribe.length > 0 then SubscribeToDataIds api r1.1 toSubscribe dataId
      else (r1.1, [])
    (r2.1, r1.2 ++ r2.2)

/-- A client on which every call succeeds and every data id has the content
`content of` followed by its name. -/
def reliableClient : ConfigClient where
  GetConfig := fun dataId => Except.ok ("content of " ++ dataId)
  ListenConfig := fun _ => none
  CancelListenConfig := fun _ => none

/-- A subscriber whose root `device-root.json` has the leaves l1 and l2. -/
def subscribedL1L2 : NacosClient :=
  { SubscribedSubDataIds := [("device-root.json", [("l1", ()), ("l2", ())])] }

/-- The entry the claim about `parseBits` describes for one tuple: three
tokens separated by colons, the first a decimal integer within the range of
`int` once trimmed, the other two trimmed. -/
def bitOfTuple (entry : String) : Option ModbusRegisterBitConfig :=
  match Split (TrimSpace entry) ':' with
  | [pos, key, name] =>
    match decimalValue (TrimSpace pos) with
    | some v =>
      if minInt ≤ v ∧ v ≤ maxInt then
        some { Bit := v, Key := TrimSpace key, Name := TrimSpace name }
      else none
    | none => none
  | _ => none

/-! ## Sample CSV reader -/

/-- The fields of one line of quote-free CSV, leading spaces trimmed. -/
def lineFields (line : String) : List String :=
  (Split line ',').map fun f => String.mk (f.toList.dropWhile isSpace)

/-- A reader for content without quotes and carriage returns: one record
per non-empty line, and a field-count error for a line whose number of fields
differs from that of the first record. -/
def simpleRead (content : String) : List (Except Err (List String)) :=
  match (Split content '\n').filter (fun l => l ≠ "") with
  | [] => []
  | h :: rest =>
    Except.ok (lineFields h) ::
      rest.map fun l =>
        if (lineFields l).length = (lineFields h).length then Except.ok (lineFields l)
        else Except.error (Err.msg "record on line: wrong number of fields")

/-- A sample environment: the simple reader, ASCII lower-casing, and a float
parser that knows `0`, `1` and `0.1` and answers 0 for everything else. -/
def sampleCsv : CsvEnv where
  Read := simpleRead
  ToLower := fun s => String.mk (s.toList.map Char.toLower)
  ParseFloat := fun s =>
    if s = "1" then Float64.one
    else if s = "0.1" then { bits := 0x3FB999999999999A }
    else { bits := 0 }

/-- The register of the sample row `r1,k1,1,2,` with a blank function field. -/
def holdRegister : ModbusRegister :=
  { Name := "r1", Key := "k1", Address := 1, Length := 2, Type_ := MT_INT, Function := MF_HOLD,
    Scale := Float64.one, Unit := "", Bits := [] }

/-- The register of the sample row `r1,k1,-1,65537`. -/
def wrappedRegister : ModbusRegister :=
  { Name := "r1", Key := "k1", Address := 65535, Length := 1, Type_ := MT_INT,
    Function := MF_INPUT, Scale := Float64.one, Unit := "", Bits := [] }

/-- The register of the sample row `r1,,7,2` with an empty key. -/
def keylessRegister : ModbusRegister :=
  { Name := "r1", Key := "Key0", Address := 7, Length := 2, Type_ := MT_INT,
    Function := MF_INPUT, Scale := Float64.one, Unit := "", Bits := [] }

/-! ## Reading the device-type snapshot (`config_device_type.go`, `config_device.go`) -/

/-- The function `GetDeviceTypeConfig`; the outer `none` is a panic. The type
assertion `Load().(*DeviceTypesConfig)` has the one-result form, so it panics
on the nil interface `Load` returns before the first `Store`. Every `Store`
is given a non-nil pointer, so after one the test `cfg == nil` is false and
the result is the map lookup (`none` is the nil pointer). -/
def GetDeviceTypeConfig (d : DeviceTypeConfiguration) (deviceType : String) :
    Option (Option DeviceTypeConfig) :=
  match d.DeviceTypes with
  | none => none
  | some cfg => some (cfg.get deviceType)

/-- The function `ApplyDeviceTypeConfig` on a non-nil device config: the
config with its interval replaced; `none` is a panic, from
`GetDeviceTypeConfig` or from reading `typeConfig.Interval` through a nil
pointer. -/
def ApplyDeviceTypeConfig (d : DeviceTypeConfiguration) (deviceConfig : DeviceConfig) :
    Option DeviceConfig :=
  match GetDeviceTypeConfig d deviceConfig.Type_ with
  | none => none
  | some none => none
  | some (some typeConfig) => some { deviceConfig with Interval := typeConfig.Interval }

/-- The first loop of `FilterDeviceConfigs` (lines 111-117): look every type
up, log and `continue` when it is missing; `none` is a panic of the lookup. -/
def lookupTypes (d : DeviceTypeConfiguration) : List DeviceConfig → Option Unit
  | [] => some ()
  | cfg :: rest =>
    match GetDeviceTypeConfig d cfg.Type_ with
    | none => none
    | some _ => lookupTypes d rest

/-- The second loop of `FilterDeviceConfigs` (lines 119-121). -/
def applyTypes (d : DeviceTypeConfiguration) : List DeviceConfig → Option (List DeviceConfig)
  | [] => some []
  | cfg :: rest =>
    match ApplyDeviceTypeConfig d cfg with
    | none => none
    | some cfg1 =>
      match applyTypes d rest with
      | none => none
      | some rest1 => some (cfg1 :: rest1)

/-- The function `FilterDeviceConfigs` on a slice of non-nil configs, as
`GetAllDeviceConfig` builds it; `none` is a panic. -/
def FilterDeviceConfigs (d : DeviceTypeConfiguration) (configs : List DeviceConfig) :
    Option (List DeviceConfig) :=
  match lookupTypes d configs with
  | none => none
  | some _ => applyTypes d configs

/-- The value of `NewDeviceTypeConfiguration()`: nothing stored yet. -/
def NewDeviceTypeConfiguration : DeviceTypeConfiguration := { DeviceTypes := none }

/-- A device-type config with the given name and interval, zero elsewhere. -/
def deviceType (name : String) (interval : Int) : DeviceTypeConfig :=
  { TypeName := name, Interval := interval, Timeout := 0, Retries := 0, Description := "",
    Bucket := "", Config := "", Tags := "", Params := "" }

/-- A device with the given name and type, zero elsewhere. -/
def deviceOfType (name typeName : String) : DeviceConfig :=
  { device name with Type_ := typeName }

/-- A published snapshot with the single type `meter`. -/
def meterSnapshot : DeviceTypeConfiguration :=
  { DeviceTypes := some [("meter", deviceType "meter" 5)] }

/-! ## Property strings (`util/config/util.go`) -/

/-- The library function `strings.SplitN` for a one-byte separator and a
count `n ≥ 0`, on characters: nothing for `n = 0`, otherwise at most `n`
pieces, the last one holding the unsplit rest. -/
def splitNChars (sep : Char) : Nat → List Char → List (List Char)
  | 0, _ => []
  | 1, cs => [cs]
  | n + 2, cs =>
    match cs.dropWhile (fun c => c != sep) with
    | [] => [cs]
    | _ :: rest => cs.takeWhile (fun c => c != sep) :: splitNChars sep (n + 1) rest

/-- The call `strings.SplitN(s, sep, n)`; every call site passes a one-byte
`sep` and `n = 2`. -/
def SplitN (s : String) (sep : Char) (n : Nat) : List String :=
  (splitNChars sep n s.toList).map String.mk

/-- The function `ConstructPropertyMap`. -/
def ConstructPropertyMap (propertyString : String) : GoMap String :=
  if propertyString = "" then []
  else
    (Split propertyString ',').foldl
      (fun propertyMap pair =>
        let parts := SplitN pair '=' 2
        if parts.length = 2 then
          propertyMap.set (TrimSpace (parts.getD 0 "")) (TrimSpace (parts.getD 1 ""))
        else propertyMap)
      []

/-- The body of the `range` loop of `GetPropertyValue` and of
`ParsePropertyMap` (the three loops are the same text). -/
def storePair (propertyMap : GoMap String) (pair : String) : GoMap String :=
  let parts := SplitN pair '=' 2
  if parts.length = 2 then
    propertyMap.set (TrimSpace (parts.getD 0 "")) (TrimSpace (parts.getD 1 ""))
  else if parts.length = 1 then propertyMap.set (TrimSpace (parts.getD 0 "")) "true"
  else propertyMap

/-- The function `GetPropertyValue` of the package `config`. -/
def GetPropertyValue (propertyString key defaultValue : String) : String :=
  if propertyString = "" then defaultValue
  else
    let propertyMap := (Split propertyString ',').foldl storePair []
    match propertyMap.get key with
    | some val => val
    | none => defaultValue

/-- The name of a property token: the text before its first `=` (all of it
when there is none), trimmed. -/
def tokenName (tok : String) : String :=
  TrimSpace (String.mk (tok.toList.takeWhile (fun c => c != '=')))

/-- The value of a property token: the trimmed text after its first `=`, or
`true` when it has none. -/
def tokenValue (tok : String) : String :=
  match tok.toList.dropWhile (fun c => c != '=') with
  | [] => "true"
  | _ :: rest => TrimSpace (String.mk rest)

/-- The property-string lookup as the format describes it: the value of the
last comma-separated token named `key`, and the default when the string is
empty or has no such token. -/
def propertyValue (s key defaultValue : String) : String :=
  if s = "" then defaultValue
  else
    match (Split s ',').reverse.find? (fun tok => decide (tokenName tok = key)) with
    | some tok => tokenValue tok
    | none => defaultValue

/-! ## Sequences of device updates -/

/-- A sequence of `UpdateDeviceConfig(dataId, configData)` calls that all
return nil, from the state `d`: the state after the last one, and `none` when
a call returns an error or panics. -/
def applyUpdates (json : Json) (h : ConfigChangeHandlers) :
    DeviceConfiguration → List (String × String) → Option DeviceConfiguration
  | d, [] => some d
  | d, call :: rest =>
    match UpdateDeviceConfig json h d call.1 call.2 with
    | Outcome.returned none d1 _ => applyUpdates json h d1 rest
    | _ => none

/-- The payload of the latest call for `dataId` in a sequence of calls. -/
def latestPayload (calls : List (String × String)) (dataId : String) : Option String :=
  (calls.reverse.find? (fun call => decide (call.1 = dataId))).map Prod.snd

/-- The device configs a payload of `dataId` decodes to, nothing when it does
not decode. -/
def payloadDevices (json : Json) (dataId payload : String) : List DeviceConfig :=
  match parseDeviceConfigs json dataId payload with
  | Except.ok configs => configs.filterMap id
  | Except.error _ => []

/-- The last config named `name` in a list of configs. -/
def lastNamed (configs : List DeviceConfig) (name : String) : Option DeviceConfig :=
  configs.reverse.find? (fun c => decide (c.Name = name))

/-- A decoder for three sample payloads: `[A1, B]`, `[A2, A3]` (the name A
twice, with different ports) and `[C]`. -/
def portsJson : Json where
  Devices := fun data =>
    if data = "ab" then Except.ok [some { device "A" with Port := 1 }, some (device "B")]
    else if data = "aa" then
      Except.ok [some { device "A" with Port := 2 }, some { device "A" with Port := 3 }]
    else if data = "c" then Except.ok [some (device "C")]
    else Except.error (Err.msg "invalid character")
  DeviceTypes := fun _ => Except.error (Err.msg "invalid character")
  Strings := fun _ => Except.error (Err.msg "invalid character")

/-- Three calls: data id `x` gets `[A1, B]`, data id `y` gets `[C]`, then
`x` gets `[A2, A3]`. -/
def sampleCalls : List (String × String) := [("x", "ab"), ("y", "c"), ("x", "aa")]

/-- The store after the three sample calls on a new store. -/
def afterSampleCalls : DeviceConfiguration :=
  (applyUpdates portsJson allHandlers NewDeviceConfiguration sampleCalls).getD
    NewDeviceConfiguration

/-- The second config named A of the payload `[A2, A3]`. -/
def deviceA3 : DeviceConfig := { device "A" with Port := 3 }

end Config

/-! # Package `util/strings` (`string.go`) -/

namespace Strings

open Script Config

/-- The function `ParsePropertyMap`. -/
def ParsePropertyMap (propertyString : String) : GoMap String :=
  if propertyString = "" then []
  else (Split propertyString ',').foldl storePair []

/-- The function `GetPropertyValue` of the package `strings`. -/
def GetPropertyValue (propertyString key defaultValue : String) : String :=
  if propertyString = "" then defaultValue
  else
    let propertyMap := (Split propertyString ',').foldl storePair []
    match propertyMap.get key with
    | some val => val
    | none => defaultValue

/-- The library function `strings.Index` for a one-byte substring: the
position of its first occurrence, `none` for `-1`. Positions count
characters; the substring is one byte, so slicing at them cuts the same
strings as slicing at byte offsets. -/
def Index : List Char → Char → Option Nat
  | [], _ => none
  | x :: xs, c => if x = c then some 0 else (Index xs c).map (fun i => i + 1)

/-- The function `Extract`; both call arguments `start` and `end` are one
byte long at the only call site. `none` is the run-time panic of the slice
expression `str[startIdx+len(start) : endIdx]` when its bounds are out of
order. -/
def Extract (str : String) (start end_ : Char) : Option (String × String) :=
  match Index str.toList start with
  | none => some ("", str)
  | some startIdx =>
    match Index str.toList end_ with
    | none => some ("", str)
    | some endIdx =>
      if startIdx + 1 ≤ endIdx then
        some (String.mk ((str.toList.take endIdx).drop (startIdx + 1)),
          String.mk (str.toList.drop (endIdx + 1)))
      else none

end Strings

/-! # Package `util/mysql` (`config.go`) -/

namespace Mysql

open Script

/-- The rows `QueryToMap` returns: one map from column to text per row. -/
abbrev Rows := List (GoMap String)

/-- A `*MySQLClient`, by what its method `QueryToMap(query, args...)`
returns: the rows or the text of the error. -/
structure MySQLClient where
  QueryToMap : String → List String → Except String Rows

/-- The package variables `MYSQL_CLIENT` (nil is `none`) and `MYSQL_CLIENTS`;
`Initialize` stores only non-nil clients in the map. -/
structure Clients where
  MYSQL_CLIENT : Option MySQLClient
  MYSQL_CLIENTS : GoMap MySQLClient

/-- The function `GetClient`. -/
def GetClient (st : Clients) (name : String) : Option MySQLClient :=
  if name = "" ∨ name = "default" then st.MYSQL_CLIENT
  else st.MYSQL_CLIENTS.get name

end Mysql

/-! # Host functions of the package `util/script` (`api_mysql.go`, `api_redis.go`) -/

namespace Script

/-- A `goja.Value` as a host function reads its arguments: undefined, null, a
string, or an array (its elements as text). -/
inductive Value where
  | undefined
  | null
  | string (s : String)
  | array (items : List String)
  deriving DecidableEq, Repr

/-- The method `Value.String()`: the script's string conversion. -/
def Value.Text : Value → String
  | Value.undefined => "undefined"
  | Value.null => "null"
  | Value.string s => s
  | Value.array items => ",".intercalate items

/-- The query parameters `MySQL_query` takes from the arguments after the
first (lines 34-43): none when there is no second argument or it is undefined
or null, the elements of an array, and `none` (the error return) for any
other value. -/
def queryArgs : List Value → Option (List String)
  | [] => some []
  | Value.undefined :: _ => some []
  | Value.null :: _ => some []
  | Value.array items :: _ => some items
  | Value.string _ :: _ => none

/-- The error both nil-client checks of `MySQL_query` return. -/
def clientNotInitialized : Err := Err.msg "MySQL client is not initialized"

/-- The function `MySQL_query`: the rows handed to `rt.ToValue` or the
returned error; the outer `none` is a panic (of `Extract`). -/
def MySQL_query (st : Mysql.Clients) (arguments : List Value) :
    Option (Except Err Mysql.Rows) :=
  match arguments with
  | [] => some (Except.error (Err.msg "mysql.query requires at least a query string"))
  | first :: more =>
    match Strings.Extract first.Text '[' ']' with
    | none => none
    | some (db, query) =>
      if st.MYSQL_CLIENT.isNone then some (Except.error clientNotInitialized)
      else
        match queryArgs more with
        | none =>
          some (Except.error (Err.msg "second argument must be an array of query parameters"))
        | some args =>
          match Mysql.GetClient st db with
          | none => some (Except.error clientNotInitialized)
          | some client =>
            match client.QueryToMap query args with
            | Except.error err =>
              some (Except.error (Err.msg ("query execution failed: " ++ err)))
            | Except.ok results => some (Except.ok results)

/-- The client `util.RedisData`: the hashes of its server together with the
server's string keys. A key holds one kind of value. -/
structure RedisData where
  server : RedisServer
  strings : GoMap String
  deriving DecidableEq, Repr

/-- The error of a command on a key that holds the other kind of value. -/
def wrongType : Err :=
  Err.msg "WRONGTYPE Operation against a key holding the wrong kind of value"

/-- The method `RedisClient.Set` (`SET key value`, no expiry): the key then
holds the string, whatever it held before. -/
def RedisData.Set (d : RedisData) (key value : String) : Option Err × RedisData :=
  match d.server.fault with
  | some e => (some e, d)
  | none =>
    (none,
      { server := { d.server with hashes := d.server.hashes.del key },
        strings := d.strings.set key value })

/-- The method `RedisClient.Get` (`GET key`): a missing key is the error
`redis.Nil`. -/
def RedisData.Get (d : RedisData) (key : String) : Except Err String :=
  match d.server.fault with
  | some e => Except.error e
  | none =>
    match d.strings.get key with
    | some v => Except.ok v
    | none => if d.server.hash key = [] then Except.error Err.redisNil else Except.error wrongType

/-- Whether the hash command on `group` is refused because the key of the
group holds a string on a server that answers. -/
def RedisData.refused (d : RedisData) (group : String) : Bool :=
  d.server.fault.isNone && (d.strings.get (getGroupName group)).isSome

/-- The method `RedisClient.SetHValue` on a server that also has string keys. -/
def RedisData.SetHValue (d : RedisData) (group key value : String) : Option Err × RedisData :=
  if d.refused group then (some wrongType, d)
  else ((Script.SetHValue d.server group key value).1,
    { d with server := (Script.SetHValue d.server group key value).2 })

/-- The method `RedisClient.GetHValue` on a server that also has string keys. -/
def RedisData.GetHValue (d : RedisData) (group key : String) : Except Err String :=
  if d.refused group then Except.error wrongType
  else Script.GetHValue d.server group key

/-- The function `Redis_set`: the returned value and the client afterwards. -/
def Redis_set (d : RedisData) (arguments : List Value) : Value × RedisData :=
  if arguments.length < 2 then (Value.undefined, d)
  else if arguments.length = 2 then
    let key := (arguments.getD 0 Value.undefined).Text
    let value := (arguments.getD 1 Value.undefined).Text
    (Value.undefined, (d.Set key value).2)
  else
    let group := (arguments.getD 0 Value.undefined).Text
    let key := (arguments.getD 1 Value.undefined).Text
    let value := (arguments.getD 2 Value.undefined).Text
    (Value.undefined, (d.SetHValue group key value).2)

/-- The function `Redis_get`. -/
def Redis_get (d : RedisData) (arguments : List Value) : Value :=
  if arguments.length < 2 then Value.undefined
  else if arguments.length = 2 then
    let group := (arguments.getD 0 Value.undefined).Text
    let key := (arguments.getD 1 Value.undefined).Text
    match d.GetHValue group key with
    | Except.error _ => Value.undefined
    | Except.ok value => Value.string value
  else
    let key := (arguments.getD 0 Value.undefined).Text
    match d.Get key with
    | Except.error _ => Value.undefined
    | Except.ok value => Value.string value

/-- An empty Redis server that answers. -/
def emptyRedis : RedisData :=
  { server := { hashes := [], fault := none }, strings := [] }

/-- One named client that answers every query with a single row naming the
client and the query it was given. -/
def echoClient (name : String) : Mysql.MySQLClient :=
  { QueryToMap := fun query _ => Except.ok [[("client", name), ("query", query)]] }

/-- A default client and one client registered as `reports`. -/
def twoClients : Mysql.Clients :=
  { MYSQL_CLIENT := some (echoClient "default"),
    MYSQL_CLIENTS := [("default", echoClient "default"), ("reports", echoClient "reports")] }

end Script

/-! # Package `main`: export and import of scripts (`script_export.go`) -/

namespace Main

open Script

/-- The library function `filepath.Base` (separator `/`): the last element of
the path after trailing separators are removed; `.` for the empty path and
`/` for a path of separators only. -/
def Base (path : String) : String :=
  if path = "" then "."
  else
    let stripped := path.toList.reverse.dropWhile (fun c => c == '/')
    let last := (stripped.takeWhile (fun c => c != '/')).reverse
    if last = [] then "/" else String.mk last

/-- The library function `filepath.Ext`: the suffix of the last element of the
path that starts at its last dot, empty when it has no dot. -/
def Ext (path : String) : String :=
  let tail := path.toList.reverse.takeWhile (fun c => c != '/')
  match tail.dropWhile (fun c => c != '.') with
  | [] => ""
  | _ :: _ => String.mk ('.' :: (tail.takeWhile (fun c => c != '.')).reverse)

/-- The library function `strings.TrimSuffix`. -/
def TrimSuffix (s suffix : String) : String :=
  if suffix.toList.isSuffixOf s.toList then
    String.mk (s.toList.take (s.toList.length - suffix.toList.length))
  else s

/-- An entry of a zip archive (`*zip.File`): its name, whether the mode bits
of its header mark a directory, and its content. -/
structure ZipFile where
  Name : String
  dirMode : Bool
  Content : String
  deriving DecidableEq, Repr

/-- The call `zipFile.FileInfo().IsDir()`: the mode bits, or a name that ends
in a slash. -/
def ZipFile.IsDir (f : ZipFile) : Bool :=
  f.dirMode || f.Name.toList.getLast? == some '/'

/-- The longest entry name `zipWriter.Create` accepts, in bytes. -/
def uint16max : Nat := 65535

/-- The loop of `ExportScripts` (lines 37-65) from the cache `sc` over the
remaining names: the entries written, or the error of the first failing
step, and the cache afterwards. Writing to the buffer does not fail. -/
def exportFiles {σ : Type} (S : ScriptStore σ) (now : Time) :
    ScriptCache σ → List String → Except Err (List ZipFile) × ScriptCache σ
  | sc, [] => (Except.ok [], sc)
  | sc, taskName :: rest =>
    match GetScript S sc taskName now with
    | (Except.error _, sc1) =>
      (Except.error (Err.msg ("Failed to read task script " ++ taskName)), sc1)
    | (Except.ok content, sc1) =>
      if uint16max < (taskName ++ ".js").utf8ByteSize then
        (Except.error (Err.msg "Failed to create zip file entry"), sc1)
      else
        match exportFiles S now sc1 rest with
        | (Except.error err, sc2) => (Except.error err, sc2)
        | (Except.ok files, sc2) =>
          (Except.ok ({ Name := taskName ++ ".js", dirMode := false, Content := content } :: files),
            sc2)

/-- The method `ExportScripts`: the entries of the archive it sends, or the
error it answers with. -/
def ExportScripts {σ : Type} (S : ScriptStore σ) (sc : ScriptCache σ) (now : Time) :
    Except Err (List ZipFile) × ScriptCache σ :=
  match ListScripts S sc with
  | Except.error _ => (Except.error (Err.msg "Failed to list task scripts"), sc)
  | Except.ok tasks => exportFiles S now sc tasks

/-- The name rule of `ImportScripts` (lines 146-155) for an entry name: the
base name without its extension, and `none` (the entry is skipped) when the
extension is not `.js`. -/
def importName (entryName : String) : Option String :=
  let fileName := Base entryName
  let ext := Ext fileName
  let taskName := TrimSuffix fileName ext
  if ext ≠ ".js" then none else some taskName

/-- The loop of `ImportScripts` (lines 140-187) over the remaining entries:
the counts `(importedCount, skippedCount)` or the error of the first failing
`StoreScript`, and the cache afterwards. Reading an entry does not fail. -/
def importFiles {σ : Type} (S : ScriptStore σ) (now : Time) :
    ScriptCache σ → List ZipFile → Except Err (Nat × Nat) × ScriptCache σ
  | sc, [] => (Except.ok (0, 0), sc)
  | sc, zipFile :: rest =>
    if zipFile.IsDir then importFiles S now sc rest
    else
      match importName zipFile.Name with
      | none =>
        match importFiles S now sc rest with
        | (Except.error err, sc1) => (Except.error err, sc1)
        | (Except.ok counts, sc1) => (Except.ok (counts.1, counts.2 + 1), sc1)
      | some taskName =>
        match StoreScript S sc taskName zipFile.Content now with
        | (some _, sc1) => (Except.error (Err.msg ("Failed to store script " ++ taskName)), sc1)
        | (none, sc1) =>
          match importFiles S now sc1 rest with
          | (Except.error err, sc2) => (Except.error err, sc2)
          | (Except.ok counts, sc2) => (Except.ok (counts.1 + 1, counts.2), sc2)

/-- The method `ImportScripts` on the entries of the uploaded archive. -/
def ImportScripts {σ : Type} (S : ScriptStore σ) (sc : ScriptCache σ) (files : List ZipFile)
    (now : Time) : Except Err (Nat × Nat) × ScriptCache σ :=
  importFiles S now sc files

/-- The cache of a process whose Redis store answers and holds nothing. -/
def freshCache (group : String) (initialized : Bool) : ScriptCache ScriptRedisStore :=
  { scripts := [], initialized := initialized,
    Store := { Group := group, Redis := some { hashes := [], fault := none } } }

/-- A cache over a store that holds the scripts `job` and `lib/util`. -/
def nestedNameCache : ScriptCache ScriptRedisStore :=
  { scripts := [], initialized := false,
    Store := { Group := "scripts",
               Redis := some { hashes := [("scripts", [("job", "1"), ("lib/util", "2")])],
                               fault := none } } }

/-- A cache over a store that holds the scripts `job` and `report.v2`. -/
def flatNameCache : ScriptCache ScriptRedisStore :=
  { scripts := [], initialized := false,
    Store := { Group := "scripts",
               Redis := some { hashes := [("scripts", [("job", "1"), ("report.v2", "2")])],
                               fault := none } } }

/-- The entries a successful export wrote, nothing when it failed. -/
def exported (sc : ScriptCache ScriptRedisStore) : List ZipFile :=
  match (ExportScripts redisStore sc 0).1 with
  | Except.ok files => files
  | Except.error _ => []

end Main

namespace Script

/-! ## Map lemmas -/

namespace GoMap

variable {V : Type}

theorem get_del_self (m : GoMap V) (k : String) : (m.del k).get k = none := by
  induction m with
  | nil => rfl
  | cons kv m ih =>
    obtain ⟨k1, v1⟩ := kv
    by_cases h : k1 = k
    · simp [del, h, ih]
    · simp [del, get, h, ih]

theorem get_del_of_ne (m : GoMap V) {k k1 : String} (h : k1 ≠ k) :
    (m.del k).get k1 = m.get k1 := by
  induction m with
  | nil => rfl
  | cons kv m ih =>
    obtain ⟨k2, v2⟩ := kv
    by_cases h2 : k2 = k
    · subst h2
      have h3 : ¬ k2 = k1 := fun e => h e.symm
      simp [del, get, h3, ih]
    · by_cases h3 : k2 = k1
      · subst h3
        simp [del, get, h2]
      · simp [del, get, h2, h3, ih]

theorem get_set_self (m : GoMap V) (k : String) (v : V) : (m.set k v).get k = some v := by
  simp [set, get]

theorem get_set_of_ne (m : GoMap V) {k k1 : String} (v : V) (h : k1 ≠ k) :
    (m.set k v).get k1 = m.get k1 := by
  have h1 : ¬ k = k1 := fun e => h e.symm
  simp [set, get, h1, get_del_of_ne m h]

end GoMap


/-! ## Heap lemmas and the binding invariant -/

theorem getD_snoc_nil (heap : List (GoMap GoValue)) (a : Nat) :
    (heap ++ [[]]).getD a [] = heap.getD a [] := by
  by_cases h : a < heap.length
  · exact List.getD_append _ _ _ _ h
  · rw [List.getD_append_right _ _ _ _ (Nat.le_of_not_lt h), List.getD_eq_default _ _ (Nat.le_of_not_lt h)]
    cases a - heap.length <;> rfl

theorem getD_set_self_or (heap : List (GoMap GoValue)) (i a : Nat) (c : GoMap GoValue) :
    ((heap.set i c).getD a [] = c ∧ a = i) ∨ (heap.set i c).getD a [] = heap.getD a [] := by
  simp only [List.getD_eq_getElem?_getD, List.getElem?_set]
  by_cases h : i = a
  · by_cases h2 : a < heap.length
    · simp [h, h2]
    · right
      subst h
      simp [h2, List.getElem?_eq_none (Nat.le_of_not_lt h2)]
  · simp [h]

theorem get_set_cases {V : Type} (m : GoMap V) (k k1 : String) (v w : V)
    (h : (m.set k v).get k1 = some w) : w = v ∨ m.get k1 = some w := by
  by_cases hk : k1 = k
  · subst hk
    rw [GoMap.get_set_self] at h
    exact Or.inl (Option.some.inj h).symm
  · rw [GoMap.get_set_of_ne m v hk] at h
    exact Or.inr h

theorem boundFunctionsOnly_rtSet (rt : Runtime) (k : String) (f : FuncId)
    (h : boundFunctionsOnly rt) : boundFunctionsOnly (rtSet rt k (GoValue.wrapped f)) := by
  intro a v b w hg hp
  rcases get_set_cases _ _ _ _ _ hg with hv | hv
  · subst hv
    simp [getProp] at hp
  · exact h a v b w hv hp

theorem boundFunctionsOnly_mapStore (rt : Runtime) (obj : Nat) (key : String) (f : FuncId)
    (h : boundFunctionsOnly rt) : boundFunctionsOnly (mapStore rt obj key (GoValue.wrapped f)) := by
  intro a v b w hg hp
  cases v with
  | mapRef addr =>
    have hg1 : rt.globals.get a = some (GoValue.mapRef addr) := hg
    simp only [getProp, mapStore] at hp
    rcases getD_set_self_or rt.heap obj addr ((rt.heap.getD obj []).set key (GoValue.wrapped f))
      with ⟨h1, h2⟩ | h1
    · rw [h1] at hp
      rcases get_set_cases _ _ _ _ _ hp with hw | hw
      · exact ⟨f, hw⟩
      · subst h2
        exact h a _ b w hg1 hw
    · rw [h1] at hp
      exact h a _ b w hg1 hp
  | _ => simp [getProp] at hp

theorem boundFunctionsOnly_newMap (rt : Runtime) (objName : String)
    (h : boundFunctionsOnly rt) :
    boundFunctionsOnly (rtSet (newMap rt).2 objName (GoValue.mapRef (newMap rt).1)) := by
  intro a v b w hg hp
  rcases get_set_cases _ _ _ _ _ hg with hv | hv
  · subst hv
    simp only [getProp, rtSet, newMap, getD_snoc_nil] at hp
    rw [List.getD_eq_default _ _ (Nat.le_refl _)] at hp
    simp [GoMap.get] at hp
  · cases v with
    | mapRef addr =>
      simp only [getProp, rtSet, newMap, getD_snoc_nil] at hp
      exact h a _ b w hv hp
    | _ => simp [getProp] at hp

theorem boundFunctionsOnly_bindCapability (st : BindState) (k : String) (fn : FuncId)
    (h : boundFunctionsOnly st.rt) : boundFunctionsOnly (bindCapability st k fn).rt := by
  unfold bindCapability
  simp only
  split
  · split
    · exact boundFunctionsOnly_mapStore _ _ _ _ h
    · exact boundFunctionsOnly_mapStore _ _ _ _ (boundFunctionsOnly_newMap _ _ h)
  · exact boundFunctionsOnly_rtSet _ _ _ h

theorem boundFunctionsOnly_foldl (injects : GoMap FuncId) (st : BindState)
    (h : boundFunctionsOnly st.rt) :
    boundFunctionsOnly (injects.foldl (fun st kv => bindCapability st kv.1 kv.2) st).rt := by
  induction injects generalizing st with
  | nil => exact h
  | cons kv rest ih => exact ih _ (boundFunctionsOnly_bindCapability st kv.1 kv.2 h)

/-! ## The compile cache -/

/-- C1. `SetScript` returns an error exactly when the name is empty or the
code does not compile, and then the pool is the pool it was called on: the
compile cache is unchanged and `runScriptWithContext` loads what it loaded
before, under every name. -/
theorem SetScript_error_iff_pool_unchanged (g : Goja) (p : ScriptPool) (name code : String)
    (now : Time) :
    ((SetScript g p name code now).1 ≠ none ↔
        (name = "" ∨ ∃ err, g.Compile name code = Except.error err)) ∧
      ((SetScript g p name code now).1 ≠ none →
        (SetScript g p name code now).2 = p ∧
          ∀ other, loadProgram (SetScript g p name code now).2 other = loadProgram p other) := by
  unfold SetScript
  by_cases hn : name = ""
  · simp [hn]
  · cases hc : g.Compile name code with
    | error err => simp [hn]
    | ok prog => simp [hn]

/-- Witness for C1: on the pool holding the program of `1` under `s`, the
source `syntax !!` is rejected and the program of `1` is still loaded. -/
theorem SetScript_error_witness :
    (SetScript twoProgramEngine (SetScript twoProgramEngine emptyPool "s" "1" 0).2
        "s" "syntax !!" 1).1 ≠ none ∧
      loadProgram (SetScript twoProgramEngine (SetScript twoProgramEngine emptyPool "s" "1" 0).2
        "s" "syntax !!" 1).2 "s" = some { id := 1 } := by
  have h := SetScript_error_iff_pool_unchanged twoProgramEngine
    (SetScript twoProgramEngine emptyPool "s" "1" 0).2 "s" "syntax !!" 1
  have herr : (SetScript twoProgramEngine (SetScript twoProgramEngine emptyPool "s" "1" 0).2
      "s" "syntax !!" 1).1 ≠ none := h.1.mpr (Or.inr ⟨_, rfl⟩)
  refine ⟨herr, ?_⟩
  rw [(h.2 herr).2 "s"]
  decide

/-- C2. For a non-empty name and a code that compiles to `prog`, `SetScript`
succeeds; afterwards the entry of `name` holds `code` and `prog`, the entry of
every other name and the registry are as before, `runScriptWithContext` (and
`RunScript`) on `name` executes `prog`, and a second successful `SetScript` on
the same name leaves the program of the second code. -/
theorem SetScript_success_entry (g : Goja) (p : ScriptPool) (name code : String) (now : Time)
    (prog : Program) (hname : name ≠ "") (hc : g.Compile name code = Except.ok prog) :
    (SetScript g p name code now).1 = none ∧
      (SetScript g p name code now).2.scripts.get name =
        some { code := code, program := some prog, updated := now } ∧
      (∀ other, other ≠ name →
        (SetScript g p name code now).2.scripts.get other = p.scripts.get other) ∧
      (SetScript g p name code now).2.injects = p.injects ∧
      loadProgram (SetScript g p name code now).2 name = some prog ∧
      (∀ heap opts start finish,
        RunScript g (SetScript g p name code now).2 heap name opts start finish =
          ((execute g prog (prepareRuntime p heap opts) start finish).result,
            (execute g prog (prepareRuntime p heap opts) start finish).err)) ∧
      (∀ code2 prog2 now2, g.Compile name code2 = Except.ok prog2 →
        loadProgram (SetScript g (SetScript g p name code now).2 name code2 now2).2 name =
          some prog2) := by
  have key : ∀ (q : ScriptPool) (c : String) (pr : Program) (t : Time),
      g.Compile name c = Except.ok pr →
      (SetScript g q name c t).1 = none ∧
        (SetScript g q name c t).2.scripts.get name =
          some { code := c, program := some pr, updated := t } ∧
        (∀ other, other ≠ name →
          (SetScript g q name c t).2.scripts.get other = q.scripts.get other) ∧
        (SetScript g q name c t).2.injects = q.injects ∧
        loadProgram (SetScript g q name c t).2 name = some pr := by
    intro q c pr t hq
    have hentry : (match q.scripts.get name with
        | none => ({ code := c, program := some pr, updated := t } : programEntry)
        | some cur => { cur with code := c, program := some pr, updated := t }) =
        { code := c, program := some pr, updated := t } := by
      cases q.scripts.get name <;> rfl
    have hS : SetScript g q name c t =
        (none, ScriptPool.mk (q.scripts.set name ⟨c, some pr, t⟩) q.injects) := by
      unfold SetScript
      rw [if_neg hname, hq]
      simp only [hentry]
    rw [hS]
    refine ⟨rfl, GoMap.get_set_self _ _ _, ?_, rfl, ?_⟩
    · intro other ho
      exact GoMap.get_set_of_ne _ _ ho
    · simp only [loadProgram, GoMap.get_set_self]
  obtain ⟨h1, h2, h3, h4, h5⟩ := key p code prog now hc
  refine ⟨h1, h2, h3, h4, h5, ?_, ?_⟩
  · intro heap opts start finish
    simp only [RunScript, runScriptWithContext, h5, prepareRuntime, h4]
  · intro code2 prog2 now2 h
    exact (key _ code2 prog2 now2 h).2.2.2.2

/-- Witness for C2: `SetScript(s, 1)` and then `SetScript(s, 2)` on the empty
pool; the run that follows returns 2. -/
theorem SetScript_success_witness :
    loadProgram (SetScript twoProgramEngine (SetScript twoProgramEngine emptyPool "s" "1" 0).2
        "s" "2" 1).2 "s" = some { id := 2 } ∧
      (RunScript twoProgramEngine (SetScript twoProgramEngine emptyPool "s" "1" 0).2
        [] "s" [] 0 0).1 =
        some { Success := true, Value := GoValue.num 1, Err := none, Duration := 0 } := by
  have h := SetScript_success_entry twoProgramEngine emptyPool "s" "1" 0 { id := 1 }
    (by decide) rfl
  refine ⟨h.2.2.2.2.2.2 "2" { id := 2 } 1 rfl, ?_⟩
  rw [h.2.2.2.2.2.1 [] [] 0 0]
  rfl

/-! ## Capability binding and execution -/

/-- C3 (the code departs from the claim). Whatever the registry and the order
it is traversed in, no path of three segments `a.b.c` is bound after the
capability binding: the expression evaluates to nothing. The function
registered under the key `a.b.c` is installed at `a.b`, the third segment being
dropped. -/
theorem bindCapabilities_third_level_unbound (heap : List (GoMap GoValue))
    (injects : GoMap FuncId) (a b c : String) (fn : FuncId) :
    evalPath (bindCapabilities { globals := [], heap := heap } injects).rt [a, b, c] = none ∧
      evalPath (bindCapabilities { globals := [], heap := heap } [("a.b.c", fn)]).rt ["a", "b"] =
        some (GoValue.wrapped fn) := by
  constructor
  · have hinv : boundFunctionsOnly (bindCapabilities { globals := [], heap := heap } injects).rt := by
      apply boundFunctionsOnly_foldl
      intro a v b w hg _
      simp [GoMap.get] at hg
    simp only [evalPath, List.foldl]
    cases hg : (bindCapabilities { globals := [], heap := heap } injects).rt.globals.get a with
    | none => rfl
    | some v =>
      simp only [Option.bind]
      cases hp : getProp (bindCapabilities { globals := [], heap := heap } injects).rt v b with
      | none => rfl
      | some w =>
        obtain ⟨f, hf⟩ := hinv a v b w hg hp
        subst hf
        rfl
  · have hs : Split "a.b.c" '.' = ["a", "b", "c"] := by decide
    simp [bindCapabilities, bindCapability, hs, evalPath, getProp, rtSet, newMap, mapStore,
      GoMap.get, GoMap.set, GoMap.del]

/-- C4 (the code departs from the claim). When the loaded program ends in a
panic whose value is not a script exception, `RunScript` and
`RunScriptWithContext` return `(nil, nil)`: the deferred function has written
`Success = false` and the panic error into the object `res` points to, but no
`return` statement ran and the result parameters are unnamed. The goroutine of
`RunScriptAsync` then sends nil, and `Result()` on that future dereferences
nil. -/
theorem runScriptWithContext_host_panic (g : Goja) (p : ScriptPool) (heap : List (GoMap GoValue))
    (name : String) (opts : GoMap GoValue) (start finish : Time) (prog : Program) (text : String)
    (hload : loadProgram p name = some prog)
    (hpanic : g.RunProgram prog (prepareRuntime p heap opts) =
      RunOutcome.panic (PanicValue.other text)) :
    RunScript g p heap name opts start finish = (none, none) ∧
      RunScriptWithContext g p heap name opts start finish = (none, none) ∧
      (execute g prog (prepareRuntime p heap opts) start finish).resObj =
        { Success := false, Value := GoValue.null, Err := some (Err.panicked text),
          Duration := finish - start } ∧
      (RunScriptAsync g p heap name opts start finish).ch = [none] ∧
      (RunScriptAsync g p heap name opts start finish).Result = Call.nilDeref := by
  have h : runScriptWithContext g p heap name opts start finish = (none, none) := by
    simp only [runScriptWithContext, hload, execute, hpanic]
  refine ⟨h, h, ?_, ?_, ?_⟩
  · simp only [execute, hpanic, deferredRecover]
  · simp only [RunScriptAsync, h, asyncDeliver]
  · simp only [RunScriptAsync, h, asyncDeliver]
    rfl

/-- Witness for C4: the script `s` of `redisPool` on the panicking engine. -/
theorem runScriptWithContext_host_panic_witness :
    RunScript panickingEngine redisPool [] "s" [] 0 3 = (none, none) :=
  (runScriptWithContext_host_panic panickingEngine redisPool [] "s" [] 0 3 { id := 0 } _
    rfl rfl).1

/-! ## The script cache -/

/-- C5. On the Redis store: once `StoreScript(name, code)` has returned nil,
`GetScript(name)` on the cache and `Get(name)` on the store both return
`code`; once `DeleteScript(name)` has returned nil, the cache has no entry for
`name`, `Get(name)` on the store and `GetScript(name)` fail with `redis.Nil`,
and `Exists(name)` answers false when the group name is not empty. -/
theorem StoreScript_DeleteScript_coherent (sc : ScriptCache ScriptRedisStore) (name code : String)
    (now later : Time) :
    ((StoreScript redisStore sc name code now).1 = none →
        (GetScript redisStore (StoreScript redisStore sc name code now).2 name later).1 =
            Except.ok code ∧
          redisStore.Get (StoreScript redisStore sc name code now).2.Store name =
            Except.ok code) ∧
      ((DeleteScript redisStore sc name).1 = none →
        (DeleteScript redisStore sc name).2.scripts.get name = none ∧
          redisStore.Get (DeleteScript redisStore sc name).2.Store name =
            Except.error Err.redisNil ∧
          (GetScript redisStore (DeleteScript redisStore sc name).2 name later).1 =
            Except.error Err.redisNil ∧
          (sc.Store.Group ≠ "" →
            redisStore.Exists (DeleteScript redisStore sc name).2.Store name =
              Except.ok false)) := by
  obtain ⟨scripts, init, ⟨group, redis⟩⟩ := sc
  cases redis with
  | none =>
    simp [StoreScript, DeleteScript, redisStore, ScriptRedisStore.Save, ScriptRedisStore.Delete]
  | some rc =>
    cases hf : rc.fault with
    | some e =>
      simp [StoreScript, DeleteScript, redisStore, ScriptRedisStore.Save,
        ScriptRedisStore.Delete, SetHValue, HDel, RedisServer.HSet, RedisServer.HDelete, hf]
    | none =>
      constructor
      · intro _
        simp [StoreScript, GetScript, redisStore, ScriptRedisStore.Save, ScriptRedisStore.Get,
          SetHValue, GetHValue, RedisServer.HSet, RedisServer.HGet, RedisServer.hash, hf,
          GoMap.get_set_self]
      · intro _
        refine ⟨?_, ?_, ?_, ?_⟩
        · simp [DeleteScript, redisStore, ScriptRedisStore.Delete, HDel, RedisServer.HDelete, hf,
            GoMap.get_del_self]
        · simp [DeleteScript, redisStore, ScriptRedisStore.Delete, ScriptRedisStore.Get,
            HDel, GetHValue, RedisServer.HDelete, RedisServer.HGet, RedisServer.hash, hf,
            GoMap.get_set_self, GoMap.get_del_self]
        · simp [DeleteScript, GetScript, redisStore, ScriptRedisStore.Delete,
            ScriptRedisStore.Get, HDel, GetHValue, RedisServer.HDelete, RedisServer.HGet,
            RedisServer.hash, hf, GoMap.get_set_self, GoMap.get_del_self]
        · intro hg
          have hg1 : getGroupName group = group := by
            simp only [getGroupName]
            exact if_neg hg
          simp [DeleteScript, redisStore, ScriptRedisStore.Delete, ScriptRedisStore.Exists,
            HDel, RedisServer.HDelete, RedisServer.HExists, RedisServer.hash, hf, hg1,
            GoMap.get_set_self, GoMap.get_del_self]

/-- Witness for C5: store and then delete `s` on a reachable server. -/
theorem StoreScript_DeleteScript_coherent_witness :
    (GetScript redisStore (StoreScript redisStore (NewScriptCache healthyStore) "s" "1" 0).2
        "s" 1).1 = Except.ok "1" ∧
      (DeleteScript redisStore
        (StoreScript redisStore (NewScriptCache healthyStore) "s" "1" 0).2 "s").2.scripts.get
          "s" = none := by
  have h1 := StoreScript_DeleteScript_coherent (NewScriptCache healthyStore) "s" "1" 0 1
  have h2 := StoreScript_DeleteScript_coherent
    (StoreScript redisStore (NewScriptCache healthyStore) "s" "1" 0).2 "s" "1" 0 1
  exact ⟨(h1.1 (by decide)).1, (h2.2 (by decide)).1⟩

/-- C6. For every store: when `Save` fails, `StoreScript` returns that error
and the cache mapping is unchanged; when `Delete` fails, `DeleteScript` returns
that error and the cache mapping is unchanged. -/
theorem failed_persist_keeps_cache {σ : Type} (S : ScriptStore σ) (sc : ScriptCache σ)
    (name code : String) (now : Time) :
    (∀ err st, S.Save sc.Store name code = (some err, st) →
        (StoreScript S sc name code now).1 = some err ∧
          (StoreScript S sc name code now).2.scripts = sc.scripts) ∧
      (∀ err st, S.Delete sc.Store name = (some err, st) →
        (DeleteScript S sc name).1 = some err ∧
          (DeleteScript S sc name).2.scripts = sc.scripts) := by
  constructor
  · intro err st h
    simp [StoreScript, h]
  · intro err st h
    simp [DeleteScript, h]

/-- Witness for C6: a store whose client is nil. -/
theorem failed_persist_keeps_cache_witness :
    (StoreScript redisStore (NewScriptCache unsetStore) "s" "1" 0).1 = some notInitialized ∧
      (StoreScript redisStore (NewScriptCache unsetStore) "s" "1" 0).2.scripts = [] ∧
      (DeleteScript redisStore (NewScriptCache unsetStore) "s").1 = some notInitialized ∧
      (DeleteScript redisStore (NewScriptCache unsetStore) "s").2.scripts = [] := by
  have h := failed_persist_keeps_cache redisStore (NewScriptCache unsetStore) "s" "1" 0
  have h1 := h.1 notInitialized unsetStore rfl
  have h2 := h.2 notInitialized unsetStore rfl
  exact ⟨h1.1, h1.2, h2.1, h2.2⟩

/-- Counterexample for C7: the script `s` is not cached and the store holds
it, but the server refuses the connection, so `GetScript` fails although `s`
is in the store. -/
theorem GetScript_fails_though_stored :
    ¬ ((∃ err, (GetScript redisStore (NewScriptCache unreachableStore) "s" 0).1 =
          Except.error err) ↔
        ((NewScriptCache unreachableStore).scripts.get "s" = none ∧
          unreachableStore.holds "s" = false)) := by
  intro h
  have h1 := h.mp ⟨Err.msg "dial tcp: connection refused", rfl⟩
  exact absurd h1.2 (by decide)

/-- C7, amended. `GetScript(name)` returns the cached code and leaves the
cache as it is when `name` is cached, whatever the store; on a miss for which
the `Get` of the store returns `code` it returns `code` and inserts
`(name, code)`; it fails exactly when `name` is not cached and the `Get` of the
store fails, and then the cache is unchanged. On a Redis store whose server
answers, that is exactly when `name` is in neither the cache nor the store. -/
theorem GetScript_cache_then_store {σ : Type} (S : ScriptStore σ) (sc : ScriptCache σ)
    (name : String) (now : Time) :
    (∀ entry, sc.scripts.get name = some entry →
        GetScript S sc name now = (Except.ok entry.Code, sc)) ∧
      (∀ code, sc.scripts.get name = none → S.Get sc.Store name = Except.ok code →
        (GetScript S sc name now).1 = Except.ok code ∧
          (GetScript S sc name now).2.scripts =
            sc.scripts.set name { Name := name, Code := code, UpdatedAt := now } ∧
          (GetScript S sc name now).2.Store = sc.Store) ∧
      ((∃ err, (GetScript S sc name now).1 = Except.error err) ↔
        (sc.scripts.get name = none ∧ ∃ err, S.Get sc.Store name = Except.error err)) ∧
      ((∃ err, (GetScript S sc name now).1 = Except.error err) →
        (GetScript S sc name now).2 = sc) ∧
      (∀ (rs : ScriptCache ScriptRedisStore) (rc : RedisServer),
        rs.Store.Redis = some rc → rc.fault = none →
        ((∃ err, (GetScript redisStore rs name now).1 = Except.error err) ↔
          (rs.scripts.get name = none ∧ rs.Store.holds name = false))) := by
  refine ⟨?_, ?_, ?_, ?_, ?_⟩
  · intro entry h
    simp [GetScript, h]
  · intro code h hg
    simp [GetScript, h, hg]
  · cases h : sc.scripts.get name with
    | some entry => simp [GetScript, h]
    | none =>
      cases hg : S.Get sc.Store name with
      | error e => simp [GetScript, h, hg]
      | ok code => simp [GetScript, h, hg]
  · cases h : sc.scripts.get name with
    | some entry => simp [GetScript, h]
    | none =>
      cases hg : S.Get sc.Store name with
      | error e => simp [GetScript, h, hg]
      | ok code => simp [GetScript, h, hg]
  · intro rs rc hr hf
    cases h : rs.scripts.get name with
    | some entry => simp [GetScript, h]
    | none =>
      cases hv : (rc.hash (getGroupName rs.Store.Group)).get name with
      | none =>
        simp [GetScript, h, redisStore, ScriptRedisStore.Get, ScriptRedisStore.holds, hr,
          GetHValue, RedisServer.HGet, hf, hv]
      | some v =>
        simp [GetScript, h, redisStore, ScriptRedisStore.Get, ScriptRedisStore.holds, hr,
          GetHValue, RedisServer.HGet, hf, hv]

/-- Witness for C7: a miss on an empty reachable store. -/
theorem GetScript_cache_then_store_witness :
    (GetScript redisStore (NewScriptCache healthyStore) "s" 0).2 = NewScriptCache healthyStore ∧
      (NewScriptCache healthyStore).scripts.get "s" = none ∧
      healthyStore.holds "s" = false := by
  have h := GetScript_cache_then_store redisStore (NewScriptCache healthyStore) "s" 0
  have h5 := (h.2.2.2.2 (NewScriptCache healthyStore) _ rfl rfl).mpr ⟨rfl, by decide⟩
  exact ⟨h.2.2.2.1 h5, rfl, by decide⟩

/-- C8. `ScriptExists(name)` returns `(true, nil)` without touching the cache
when `name` is cached; on a miss where `Exists` of the store reports true it
returns true, with the cache unchanged when the following `Get` fails and with
`(name, code)` inserted when it succeeds; and it returns an error exactly when
`name` is not cached and `Exists` of the store fails, the error being that of
the store. -/
theorem ScriptExists_positive_signal {σ : Type} (S : ScriptStore σ) (sc : ScriptCache σ)
    (name : String) (now : Time) :
    (∀ entry, sc.scripts.get name = some entry →
        ScriptExists S sc name now = (Except.ok true, sc)) ∧
      (sc.scripts.get name = none → S.Exists sc.Store name = Except.ok true →
        (ScriptExists S sc name now).1 = Except.ok true ∧
          (∀ err, S.Get sc.Store name = Except.error err →
            ScriptExists S sc name now = (Except.ok true, sc)) ∧
          (∀ code, S.Get sc.Store name = Except.ok code →
            (ScriptExists S sc name now).2.scripts =
              sc.scripts.set name { Name := name, Code := code, UpdatedAt := now })) ∧
      (∀ err, (ScriptExists S sc name now).1 = Except.error err ↔
        (sc.scripts.get name = none ∧ S.Exists sc.Store name = Except.error err)) := by
  refine ⟨?_, ?_, ?_⟩
  · intro entry h
    simp [ScriptExists, h]
  · intro h he
    cases hg : S.Get sc.Store name with
    | error e => simp [ScriptExists, h, he, hg]
    | ok code => simp [ScriptExists, h, he, hg]
  · intro err
    cases h : sc.scripts.get name with
    | some entry => simp [ScriptExists, h]
    | none =>
      cases he : S.Exists sc.Store name with
      | error e => simp [ScriptExists, h, he]
      | ok ex =>
        cases ex with
        | false => simp [ScriptExists, h, he]
        | true =>
          cases hg : S.Get sc.Store name with
          | error e => simp [ScriptExists, h, he, hg]
          | ok code => simp [ScriptExists, h, he, hg]

/-- Witness for C8: the store with the empty group name, where `Exists` looks
at the hash with the empty key and `Get` at the hash `gotask`. -/
theorem ScriptExists_positive_signal_witness :
    redisStore.Get defaultGroupStore "s" = Except.error Err.redisNil ∧
      (ScriptExists redisStore (NewScriptCache defaultGroupStore) "s" 0).1 = Except.ok true ∧
      (ScriptExists redisStore (NewScriptCache defaultGroupStore) "s" 0).2.scripts = [] := by
  have h := (ScriptExists_positive_signal redisStore (NewScriptCache defaultGroupStore) "s" 0).2.1
    rfl rfl
  have hg : redisStore.Get (NewScriptCache defaultGroupStore).Store "s" =
      Except.error Err.redisNil := rfl
  refine ⟨hg, h.1, ?_⟩
  rw [h.2.1 _ hg]
  rfl

/-! ## Futures -/

theorem waitTimes_succ (p : Option Result) (n : Nat) (f : Future) (h : f.ch = [p]) :
    waitTimes (n + 1) f = some (List.replicate (n + 1) p, { ch := [p], done := true }) := by
  induction n generalizing f with
  | zero =>
    obtain ⟨ch, done⟩ := f
    simp only at h
    subst h
    cases done <;> rfl
  | succ n ih =>
    have hw : f.Wait = Call.ret p { ch := [p], done := true } := by
      obtain ⟨ch, done⟩ := f
      simp only at h
      subst h
      cases done <;> rfl
    rw [waitTimes, hw]
    simp only
    rw [ih _ rfl]
    rfl

/-- C9 (the code departs from the claim). When the run behind a future ends in
a host panic whose value is not a script exception, the finished goroutine
has sent a nil pointer: every `Wait` returns that nil (the `default` branch
with `future already consumed` is never taken), and `Result()` and `Err()`
dereference it and panic instead of returning a `Value` and an `Err`. For a
future whose goroutine sent a `Result`, any number of `Wait` calls in a row
return that `Result` and leave it in the channel, and `Result()` and `Err()`
return its `Value` and `Err`. -/
theorem Result_nil_deref_after_host_panic (g : Goja) (p : ScriptPool)
    (heap : List (GoMap GoValue)) (name : String) (opts : GoMap GoValue) (start finish : Time)
    (prog : Program) (text : String)
    (hload : loadProgram p name = some prog)
    (hpanic : g.RunProgram prog (prepareRuntime p heap opts) =
      RunOutcome.panic (PanicValue.other text)) :
    (RunScriptAsync g p heap name opts start finish).Result = Call.nilDeref ∧
      (RunScriptAsync g p heap name opts start finish).Err = Call.nilDeref ∧
      (∀ n, ∃ f1, waitTimes n (RunScriptAsync g p heap name opts start finish) =
        some (List.replicate n none, f1) ∧ f1.ch = [none]) ∧
      (∀ (f : Future) (r : Result), f.ch = [some r] →
        (∀ n, ∃ f1, waitTimes n f = some (List.replicate n (some r), f1) ∧ f1.ch = [some r]) ∧
          f.Result = Call.ret (r.Value, r.Err) { ch := [some r], done := true } ∧
          f.Err = Call.ret r.Err { ch := [some r], done := true }) := by
  have hret : runScriptWithContext g p heap name opts start finish = (none, none) := by
    simp only [runScriptWithContext, hload, execute, hpanic]
  have hch : (RunScriptAsync g p heap name opts start finish).ch = [none] := by
    simp only [RunScriptAsync, hret, asyncDeliver]
  have hwait : ∀ (f : Future) (q : Option Result), f.ch = [q] →
      f.Wait = Call.ret q { ch := [q], done := true } := by
    intro f q h
    obtain ⟨ch, done⟩ := f
    simp only at h
    subst h
    cases done <;> rfl
  have hmany : ∀ (f : Future) (q : Option Result), f.ch = [q] →
      ∀ n, ∃ f1, waitTimes n f = some (List.replicate n q, f1) ∧ f1.ch = [q] := by
    intro f q h n
    cases n with
    | zero => exact ⟨f, rfl, h⟩
    | succ n => exact ⟨_, waitTimes_succ q n f h, rfl⟩
  refine ⟨?_, ?_, hmany _ none hch, ?_⟩
  · simp only [Future.Result, hwait _ none hch]
  · simp only [Future.Err, hwait _ none hch]
  · intro f r h
    refine ⟨hmany f (some r) h, ?_, ?_⟩
    · simp only [Future.Result, hwait f (some r) h]
    · simp only [Future.Err, hwait f (some r) h]

/-- Witness for C9: the future of an asynchronous run of the script
`redis.keys(1)`, whose host function panics on its type assertion. -/
theorem Result_nil_deref_after_host_panic_witness :
    (RunScriptAsync assertingEngine keysPool [] "s" [] 0 3).Result = Call.nilDeref ∧
      (RunScriptAsync assertingEngine keysPool [] "s" [] 0 3).Err = Call.nilDeref ∧
      ∃ f1, waitTimes 3 (RunScriptAsync assertingEngine keysPool [] "s" [] 0 3) =
        some ([none, none, none], f1) ∧ f1.ch = [none] :=
  have h := Result_nil_deref_after_host_panic assertingEngine keysPool [] "s" [] 0 3 { id := 0 }
    _ rfl rfl
  ⟨h.1, h.2.1, h.2.2.1 3⟩

/-! ## Caller options -/

/-- C10 (the code departs from the claim). For the options `data.a` and
`data.b`, in either visiting order, `injectsExtra` leaves only the entry
visited last: each dotted key binds a new map to the global `data`, which
replaces the map holding the entry visited first. -/
theorem injectsExtra_shared_prefix (heap : List (GoMap GoValue)) (v1 v2 : GoValue) :
    evalPath (injectsExtra { globals := [], heap := heap } [("data.a", v1), ("data.b", v2)])
        ["data", "a"] = none ∧
      evalPath (injectsExtra { globals := [], heap := heap } [("data.a", v1), ("data.b", v2)])
        ["data", "b"] = some v2 ∧
      evalPath (injectsExtra { globals := [], heap := heap } [("data.b", v2), ("data.a", v1)])
        ["data", "b"] = none ∧
      evalPath (injectsExtra { globals := [], heap := heap } [("data.b", v2), ("data.a", v1)])
        ["data", "a"] = some v1 := by
  have ha : Split "data.a" '.' = ["data", "a"] := by decide
  have hb : Split "data.b" '.' = ["data", "b"] := by decide
  simp [injectsExtra, injectExtra, ha, hb, evalPath, getProp, rtSet, newMap, mapStore, descend,
    GoMap.get, GoMap.set, GoMap.del, List.getElem_append_right]


/-! ## Keys of a map -/

namespace GoMap

variable {V : Type}

theorem mem_keys_iff (m : GoMap V) (k : String) : k ∈ m.keys ↔ (m.get k).isSome = true := by
  induction m with
  | nil => simp [keys, get]
  | cons kv m ih =>
    obtain ⟨k1, v1⟩ := kv
    have hk : keys ((k1, v1) :: m) = k1 :: keys m := rfl
    rw [hk, List.mem_cons]
    by_cases h : k1 = k
    · subst h
      simp [get]
    · have h1 : ¬ k = k1 := fun e => h e.symm
      simp [get, h, h1, ih]

theorem isSome_get_del (m : GoMap V) (k x : String) :
    ((m.del k).get x).isSome = true ↔ ((m.get x).isSome = true ∧ x ≠ k) := by
  by_cases h : x = k
  · subst h
    simp [get_del_self]
  · rw [get_del_of_ne m h]
    simp [h]

theorem isSome_get_set (m : GoMap V) (k x : String) (v : V) :
    ((m.set k v).get x).isSome = true ↔ ((m.get x).isSome = true ∨ x = k) := by
  by_cases h : x = k
  · subst h
    simp [get_set_self]
  · rw [get_set_of_ne m v h]
    simp [h]

theorem nodup_keys_del (m : GoMap V) (k : String) (h : m.keys.Nodup) : (m.del k).keys.Nodup := by
  induction m with
  | nil => exact List.nodup_nil
  | cons kv m ih =>
    obtain ⟨k1, v1⟩ := kv
    have hk : keys ((k1, v1) :: m) = k1 :: keys m := rfl
    rw [hk, List.nodup_cons] at h
    by_cases h1 : k1 = k
    · simpa [del, h1] using ih h.2
    · have hk2 : keys ((k1, v1) :: del m k) = k1 :: keys (del m k) := rfl
      simp only [del, h1, if_false, hk2, List.nodup_cons]
      refine ⟨?_, ih h.2⟩
      intro hmem
      have h2 := (isSome_get_del m k k1).mp ((mem_keys_iff _ _).mp hmem)
      exact h.1 ((mem_keys_iff _ _).mpr h2.1)

theorem nodup_keys_set (m : GoMap V) (k : String) (v : V) (h : m.keys.Nodup) :
    (m.set k v).keys.Nodup := by
  have hk : keys (set m k v) = k :: keys (del m k) := rfl
  rw [hk, List.nodup_cons]
  refine ⟨?_, nodup_keys_del m k h⟩
  intro hmem
  have h2 := (mem_keys_iff _ _).mp hmem
  simp [get_del_self] at h2

theorem isSome_get_foldl_set (l : List String) (m : GoMap Unit) (x : String) :
    ((l.foldl (fun m k => m.set k ()) m).get x).isSome = true ↔
      ((m.get x).isSome = true ∨ x ∈ l) := by
  induction l generalizing m with
  | nil => simp
  | cons a l ih =>
    rw [List.foldl_cons, ih, isSome_get_set]
    simp only [List.mem_cons]
    tauto

theorem isSome_get_foldl_del (l : List String) (m : GoMap Unit) (x : String) :
    ((l.foldl (fun m k => m.del k) m).get x).isSome = true ↔
      ((m.get x).isSome = true ∧ x ∉ l) := by
  induction l generalizing m with
  | nil => simp
  | cons a l ih =>
    rw [List.foldl_cons, ih, isSome_get_del]
    simp only [List.mem_cons]
    tauto

theorem nodup_keys_foldl_set (l : List String) (m : GoMap Unit) (h : m.keys.Nodup) :
    (l.foldl (fun m k => m.set k ()) m).keys.Nodup := by
  induction l generalizing m with
  | nil => exact h
  | cons a l ih => exact ih _ (nodup_keys_set m a () h)

end GoMap


/-! ## Order independence of the capability binding -/

theorem splitChars_ne_nil (sep : Char) (cs : List Char) : splitChars sep cs ≠ [] := by
  cases cs with
  | nil => simp [splitChars]
  | cons c cs =>
    unfold splitChars
    split
    · simp
    · split <;> simp

theorem joinChars_splitChars (sep : Char) (cs : List Char) :
    joinChars sep (splitChars sep cs) = cs := by
  induction cs with
  | nil => rfl
  | cons c cs ih =>
    unfold splitChars
    by_cases hc : c = sep
    · simp only [hc, if_true]
      cases hs : splitChars sep cs with
      | nil => exact absurd hs (splitChars_ne_nil sep cs)
      | cons p ps =>
        rw [hs] at ih
        simp [joinChars, ih]
    · simp only [hc, if_false]
      cases hs : splitChars sep cs with
      | nil => exact absurd hs (splitChars_ne_nil sep cs)
      | cons p ps =>
        rw [hs] at ih
        simp only
        cases ps with
        | nil =>
          simp only [joinChars] at ih ⊢
          rw [ih]
        | cons q rest =>
          simp only [joinChars] at ih ⊢
          rw [← ih]
          rfl

theorem Split_injective (sep : Char) (s t : String) (h : Split s sep = Split t sep) : s = t := by
  unfold Split at h
  have hinj : Function.Injective String.mk := by
    intro a b hab
    injection hab
  have h1 := List.map_injective_iff.mpr hinj h
  have h2 := congrArg (joinChars sep) h1
  rw [joinChars_splitChars, joinChars_splitChars] at h2
  cases s
  cases t
  simp only [String.toList] at h2
  rw [h2]

theorem bindTarget_injective (k1 k2 : String) (h1 : (Split k1 '.').length ≤ 2)
    (h2 : (Split k2 '.').length ≤ 2) (h : bindTarget k1 = bindTarget k2) : k1 = k2 := by
  unfold bindTarget at h
  by_cases c1 : 1 < (Split k1 '.').length ∧ (Split k1 '.').length ≤ 3
  · by_cases c2 : 1 < (Split k2 '.').length ∧ (Split k2 '.').length ≤ 3
    · rw [if_pos c1, if_pos c2] at h
      apply Split_injective '.'
      have e1 : (Split k1 '.').length = 2 := by omega
      have e2 : (Split k2 '.').length = 2 := by omega
      rcases hs1 : Split k1 '.' with _ | ⟨a1, _ | ⟨b1, _ | ⟨c, t⟩⟩⟩ <;> rw [hs1] at e1 <;>
        simp at e1
      rcases hs2 : Split k2 '.' with _ | ⟨a2, _ | ⟨b2, _ | ⟨c, t⟩⟩⟩ <;> rw [hs2] at e2 <;>
        simp at e2
      rw [hs1, hs2] at h
      simp at h
      rw [h.1, h.2]
    · rw [if_pos c1, if_neg c2] at h
      simp at h
  · by_cases c2 : 1 < (Split k2 '.').length ∧ (Split k2 '.').length ≤ 3
    · rw [if_neg c1, if_pos c2] at h
      simp at h
    · rw [if_neg c1, if_neg c2] at h
      exact (Prod.mk.inj h).1

theorem obsOf_congr (heap1 heap2 : List (GoMap GoValue)) (v : GoValue)
    (h : ∀ a, v = GoValue.mapRef a → heap1.getD a [] = heap2.getD a []) :
    obsOf heap1 v = obsOf heap2 v := by
  cases v with
  | mapRef a => simp only [obsOf, h a rfl]
  | _ => rfl

theorem getD_set_same (heap : List (GoMap GoValue)) (i : Nat) (c : GoMap GoValue)
    (h : i < heap.length) : (heap.set i c).getD i [] = c := by
  simp [List.getD_eq_getElem?_getD, List.getElem?_set, h]

theorem getD_set_other (heap : List (GoMap GoValue)) (i a : Nat) (c : GoMap GoValue)
    (h : a ≠ i) : (heap.set i c).getD a [] = heap.getD a [] := by
  have h1 : ¬ i = a := fun e => h e.symm
  simp [List.getD_eq_getElem?_getD, List.getElem?_set, h1]

theorem bindCapability_top (st : BindState) (k : String) (fn : FuncId)
    (hcond : ¬ (1 < (Split k '.').length ∧ (Split k '.').length ≤ 3)) :
    bindCapability st k fn = { st with rt := rtSet st.rt k (GoValue.wrapped fn) } := by
  unfold bindCapability
  simp only [hcond, if_false]

theorem bindCapability_existing (st : BindState) (k : String) (fn : FuncId) (a : Nat)
    (hcond : 1 < (Split k '.').length ∧ (Split k '.').length ≤ 3)
    (hobj : st.objMap.get ((Split k '.').getD 0 "") = some a) :
    bindCapability st k fn =
      { st with rt := mapStore st.rt a ((Split k '.').getD 1 "") (GoValue.wrapped fn) } := by
  unfold bindCapability
  simp only [hcond, and_self, if_true, hobj]

theorem bindCapability_new (st : BindState) (k : String) (fn : FuncId)
    (hcond : 1 < (Split k '.').length ∧ (Split k '.').length ≤ 3)
    (hobj : st.objMap.get ((Split k '.').getD 0 "") = none) :
    bindCapability st k fn =
      { rt := mapStore
          (rtSet (newMap st.rt).2 ((Split k '.').getD 0 "") (GoValue.mapRef st.rt.heap.length))
          st.rt.heap.length ((Split k '.').getD 1 "") (GoValue.wrapped fn),
        objMap := st.objMap.set ((Split k '.').getD 0 "") st.rt.heap.length } := by
  unfold bindCapability
  simp only [hcond, and_self, if_true, hobj, newMap]

theorem bind_step_top (C : String → Prop) (st : BindState) (k : String) (fn : FuncId)
    (hJ : bindInv C st)
    (hcond : ¬ (1 < (Split k '.').length ∧ (Split k '.').length ≤ 3)) (hC : ¬ C k) :
    observe (bindCapability st k fn).rt = specBind (observe st.rt) (k, fn) ∧
      bindInv C (bindCapability st k fn) := by
  obtain ⟨J2, J3, J4, J5⟩ := hJ
  have ht : bindTarget k = (k, none) := by
    unfold bindTarget
    rw [if_neg hcond]
  rw [bindCapability_top st k fn hcond]
  constructor
  · funext name
    simp only [observe, rtSet, specBind, ht, specBindAt]
    by_cases hn : name = k
    · subst hn
      rw [GoMap.get_set_self, if_pos rfl]
      rfl
    · rw [GoMap.get_set_of_ne _ _ hn, if_neg hn]
  · refine ⟨?_, J3, J4, J5⟩
    intro g a
    by_cases hg : g = k
    · subst hg
      constructor
      · intro h
        exact absurd (J5 _ _ h) hC
      · intro h
        simp only [rtSet, GoMap.get_set_self] at h
        cases h
    · simp only [rtSet]
      rw [GoMap.get_set_of_ne _ _ hg]
      exact J2 g a

theorem bind_step_existing (C : String → Prop) (st : BindState) (k : String) (fn : FuncId)
    (a : Nat) (hJ : bindInv C st)
    (hcond : 1 < (Split k '.').length ∧ (Split k '.').length ≤ 3)
    (hobj : st.objMap.get ((Split k '.').getD 0 "") = some a) :
    observe (bindCapability st k fn).rt = specBind (observe st.rt) (k, fn) ∧
      bindInv C (bindCapability st k fn) := by
  obtain ⟨J2, J3, J4, J5⟩ := hJ
  have ht : bindTarget k = ((Split k '.').getD 0 "", some ((Split k '.').getD 1 "")) := by
    unfold bindTarget
    rw [if_pos hcond]
  rw [bindCapability_existing st k fn a hcond hobj]
  generalize (Split k '.').getD 0 "" = g at hobj ht ⊢
  generalize (Split k '.').getD 1 "" = m at ht ⊢
  have hglob : st.rt.globals.get g = some (GoValue.mapRef a) := (J2 g a).mp hobj
  have hlt : a < st.rt.heap.length := J4 g a hobj
  constructor
  · funext name
    simp only [observe, mapStore, specBind, ht, specBindAt]
    by_cases hn : name = g
    · subst hn
      rw [hglob, if_pos rfl]
      simp only [Option.map_some', obsOf, getD_set_same _ _ _ hlt, containerContent, observe,
        hglob]
      congr 2
      funext key
      by_cases hk : key = m
      · subst hk
        rw [GoMap.get_set_self, if_pos rfl]
      · rw [GoMap.get_set_of_ne _ _ hk, if_neg hk]
    · rw [if_neg hn]
      cases hv : st.rt.globals.get name with
      | none => rfl
      | some v =>
        simp only [Option.map_some']
        congr 1
        apply obsOf_congr
        intro a1 ha1
        subst ha1
        have hne : a1 ≠ a := by
          intro e
          subst e
          exact hn (J3 _ _ _ ((J2 name a1).mpr hv) hobj)
        exact getD_set_other _ _ _ _ hne
  · refine ⟨J2, J3, ?_, J5⟩
    intro g1 a1 h1
    simp only [mapStore, List.length_set]
    exact J4 g1 a1 h1

theorem bind_step_new (C : String → Prop) (st : BindState) (k : String) (fn : FuncId)
    (hJ : bindInv C st)
    (hcond : 1 < (Split k '.').length ∧ (Split k '.').length ≤ 3)
    (hobj : st.objMap.get ((Split k '.').getD 0 "") = none)
    (hC : C ((Split k '.').getD 0 "")) :
    observe (bindCapability st k fn).rt = specBind (observe st.rt) (k, fn) ∧
      bindInv C (bindCapability st k fn) := by
  obtain ⟨J2, J3, J4, J5⟩ := hJ
  have ht : bindTarget k = ((Split k '.').getD 0 "", some ((Split k '.').getD 1 "")) := by
    unfold bindTarget
    rw [if_pos hcond]
  rw [bindCapability_new st k fn hcond hobj]
  generalize (Split k '.').getD 0 "" = g at hobj ht hC ⊢
  generalize (Split k '.').getD 1 "" = m at ht ⊢
  have hlen : st.rt.heap.length < (st.rt.heap ++ [[]]).length := by simp
  have hcell : (st.rt.heap ++ [([] : GoMap GoValue)]).getD st.rt.heap.length [] = [] := by
    rw [getD_snoc_nil]
    exact List.getD_eq_default _ _ (Nat.le_refl _)
  have hnotmap : ∀ a, st.rt.globals.get g ≠ some (GoValue.mapRef a) := by
    intro a h
    rw [(J2 g a).mpr h] at hobj
    cases hobj
  constructor
  · funext name
    simp only [observe, mapStore, rtSet, newMap, specBind, ht, specBindAt]
    by_cases hn : name = g
    · subst hn
      rw [GoMap.get_set_self, if_pos rfl]
      simp only [Option.map_some', obsOf, getD_set_same _ _ _ hlen, hcell]
      congr 2
      funext key
      have hold : containerContent (observe st.rt) name key = none := by
        simp only [containerContent, observe]
        cases hv : st.rt.globals.get name with
        | none => rfl
        | some v =>
          cases v with
          | mapRef a => exact absurd hv (hnotmap a)
          | _ => rfl
      rw [hold]
      by_cases hk : key = m
      · subst hk
        rw [GoMap.get_set_self, if_pos rfl]
      · rw [GoMap.get_set_of_ne _ _ hk, if_neg hk]
        rfl
    · rw [GoMap.get_set_of_ne _ _ hn, if_neg hn]
      cases hv : st.rt.globals.get name with
      | none => rfl
      | some v =>
        simp only [Option.map_some']
        congr 1
        apply obsOf_congr
        intro a1 ha1
        subst ha1
        have hlt : a1 < st.rt.heap.length := J4 name a1 ((J2 name a1).mpr hv)
        rw [getD_set_other _ _ _ _ (Nat.ne_of_lt hlt), getD_snoc_nil]
  · refine ⟨?_, ?_, ?_, ?_⟩
    · intro g1 a1
      simp only [mapStore, rtSet, newMap]
      by_cases hg : g1 = g
      · subst hg
        rw [GoMap.get_set_self, GoMap.get_set_self]
        constructor
        · intro h
          injection h with h
          rw [h]
        · intro h
          injection h with h
          injection h with h
          rw [h]
      · rw [GoMap.get_set_of_ne _ _ hg, GoMap.get_set_of_ne _ _ hg]
        exact J2 g1 a1
    · intro g1 g2 a1 h1 h2
      simp only at h1 h2
      by_cases hg1 : g1 = g
      · by_cases hg2 : g2 = g
        · rw [hg1, hg2]
        · subst hg1
          rw [GoMap.get_set_self] at h1
          rw [GoMap.get_set_of_ne _ _ hg2] at h2
          injection h1 with h1
          have := J4 g2 a1 h2
          omega
      · by_cases hg2 : g2 = g
        · subst hg2
          rw [GoMap.get_set_self] at h2
          rw [GoMap.get_set_of_ne _ _ hg1] at h1
          injection h2 with h2
          have := J4 g1 a1 h1
          omega
        · rw [GoMap.get_set_of_ne _ _ hg1] at h1
          rw [GoMap.get_set_of_ne _ _ hg2] at h2
          exact J3 g1 g2 a1 h1 h2
    · intro g1 a1 h1
      simp only [mapStore, rtSet, newMap, List.length_set, List.length_append, List.length_cons,
        List.length_nil]
      simp only at h1
      by_cases hg : g1 = g
      · subst hg
        rw [GoMap.get_set_self] at h1
        injection h1 with h1
        omega
      · rw [GoMap.get_set_of_ne _ _ hg] at h1
        have := J4 g1 a1 h1
        omega
    · intro g1 a1 h1
      simp only at h1
      by_cases hg : g1 = g
      · rw [hg]
        exact hC
      · rw [GoMap.get_set_of_ne _ _ hg] at h1
        exact J5 g1 a1 h1

theorem bind_step (C : String → Prop) (st : BindState) (kv : String × FuncId)
    (hJ : bindInv C st)
    (hC1 : (1 < (Split kv.1 '.').length ∧ (Split kv.1 '.').length ≤ 3) →
      C ((Split kv.1 '.').getD 0 ""))
    (hC2 : ¬ (1 < (Split kv.1 '.').length ∧ (Split kv.1 '.').length ≤ 3) → ¬ C kv.1) :
    observe (bindCapability st kv.1 kv.2).rt = specBind (observe st.rt) kv ∧
      bindInv C (bindCapability st kv.1 kv.2) := by
  by_cases hcond : 1 < (Split kv.1 '.').length ∧ (Split kv.1 '.').length ≤ 3
  · cases hobj : st.objMap.get ((Split kv.1 '.').getD 0 "") with
    | none => exact bind_step_new C st kv.1 kv.2 hJ hcond hobj (hC1 hcond)
    | some a => exact bind_step_existing C st kv.1 kv.2 a hJ hcond hobj
  · exact bind_step_top C st kv.1 kv.2 hJ hcond (hC2 hcond)

theorem bind_foldl (C : String → Prop) (l : GoMap FuncId) (st : BindState) (hJ : bindInv C st)
    (hl : ∀ kv ∈ l,
      ((1 < (Split kv.1 '.').length ∧ (Split kv.1 '.').length ≤ 3) →
        C ((Split kv.1 '.').getD 0 "")) ∧
      (¬ (1 < (Split kv.1 '.').length ∧ (Split kv.1 '.').length ≤ 3) → ¬ C kv.1)) :
    observe (l.foldl (fun st kv => bindCapability st kv.1 kv.2) st).rt =
      l.foldl specBind (observe st.rt) := by
  induction l generalizing st with
  | nil => rfl
  | cons kv l ih =>
    obtain ⟨h1, h2⟩ := hl kv (List.mem_cons_self _ _)
    obtain ⟨hobs, hinv⟩ := bind_step C st kv hJ h1 h2
    rw [List.foldl_cons, List.foldl_cons, ih _ hinv (fun x hx => hl x (List.mem_cons_of_mem _ hx)),
      hobs]

theorem specBindAt_comm (z : String → Option Obs) (t1 t2 : String × Option String)
    (f1 f2 : FuncId) (hne : t1 ≠ t2)
    (hd1 : ∀ m, t1.2 = none → t2 ≠ (t1.1, some m))
    (hd2 : ∀ m, t2.2 = none → t1 ≠ (t2.1, some m)) :
    specBindAt (specBindAt z t1 f1) t2 f2 = specBindAt (specBindAt z t2 f2) t1 f1 := by
  obtain ⟨g1, o1⟩ := t1
  obtain ⟨g2, o2⟩ := t2
  cases o1 with
  | none =>
    cases o2 with
    | none =>
      have hg : g1 ≠ g2 := fun e => hne (by rw [e])
      funext name
      simp only [specBindAt]
      by_cases h1 : name = g1
      · have h2 : ¬ name = g2 := fun e => hg (h1.symm.trans e)
        simp [h1, hg]
      · simp [h1]
    | some m2 =>
      have hg : g1 ≠ g2 := fun e => hd1 m2 rfl (by rw [e])
      have hg' : ¬ g2 = g1 := fun e => hg e.symm
      funext name
      simp only [specBindAt, containerContent, hg', if_false]
      by_cases h1 : name = g1
      · have h2 : ¬ name = g2 := fun e => hg (h1.symm.trans e)
        simp [h1, hg]
      · simp [h1]
  | some m1 =>
    cases o2 with
    | none =>
      have hg : g2 ≠ g1 := fun e => hd2 m1 rfl (by rw [e])
      have hg' : ¬ g1 = g2 := fun e => hg e.symm
      funext name
      simp only [specBindAt, containerContent, hg', if_false]
      by_cases h1 : name = g1
      · have h2 : ¬ name = g2 := fun e => hg' (h1.symm.trans e)
        simp [h1, hg']
      · simp [h1]
    | some m2 =>
      funext name
      by_cases hg : g1 = g2
      · subst hg
        have hm : m1 ≠ m2 := fun e => hne (by rw [e])
        simp only [specBindAt, containerContent, if_true]
        by_cases h1 : name = g1
        · simp only [h1, if_true]
          congr 2
          funext key
          by_cases k1 : key = m1
          · have k2 : ¬ key = m2 := fun e => hm (k1.symm.trans e)
            simp [k1, hm]
          · simp [k1]
        · simp [h1]
      · have hg' : ¬ g2 = g1 := fun e => hg e.symm
        simp only [specBindAt, containerContent, hg, hg', if_false]
        by_cases h1 : name = g1
        · have h2 : ¬ name = g2 := fun e => hg (h1.symm.trans e)
          simp [h1, hg]
        · simp [h1]

theorem evalPath_two (rt : Runtime) (g m : String) :
    evalPath rt [g, m] =
      match observe rt g with
      | some (Obs.container content) => content m
      | _ => none := by
  simp only [evalPath, List.foldl, observe]
  cases hv : rt.globals.get g with
  | none => rfl
  | some v => cases v <;> rfl

/-- Counterexample for C11: the registry with the keys `a` and `a.b`. When `a`
is visited first the global `a` ends as the container holding `b`; when `a.b`
is visited first it ends as the function registered under `a`, and `a.b` is
not bound. -/
theorem conflicting_keys_depend_on_order :
    List.Perm [("a", FuncId.mk 1), ("a.b", FuncId.mk 2)]
        [("a.b", FuncId.mk 2), ("a", FuncId.mk 1)] ∧
      evalPath (bindCapabilities { globals := [], heap := [] }
        [("a", FuncId.mk 1), ("a.b", FuncId.mk 2)]).rt ["a", "b"] =
          some (GoValue.wrapped (FuncId.mk 2)) ∧
      evalPath (bindCapabilities { globals := [], heap := [] }
        [("a.b", FuncId.mk 2), ("a", FuncId.mk 1)]).rt ["a", "b"] = none := by
  refine ⟨List.Perm.swap _ _ _, ?_, ?_⟩ <;> decide

/-- C11, amended. For a registry with distinct keys of one or two segments in
which no key is the first segment of a two-segment key, and any two orders of
traversing it, the capability binding yields the same observation of every
global, nested containers included; in particular every path `g.m` evaluates
to the same value. -/
theorem bindCapabilities_order_independent (heap : List (GoMap GoValue))
    (l1 l2 : GoMap FuncId) (hperm : l1.Perm l2) (hkeys : (l1.map Prod.fst).Nodup)
    (hseg : ∀ kv ∈ l1, (Split kv.1 '.').length ≤ 2)
    (hconf : ∀ x ∈ l1, ∀ y ∈ l1, (Split y.1 '.').length = 2 →
      x.1 ≠ (Split y.1 '.').getD 0 "") :
    observe (bindCapabilities { globals := [], heap := heap } l1).rt =
        observe (bindCapabilities { globals := [], heap := heap } l2).rt ∧
      ∀ g m, evalPath (bindCapabilities { globals := [], heap := heap } l1).rt [g, m] =
        evalPath (bindCapabilities { globals := [], heap := heap } l2).rt [g, m] := by
  -- the container names of the registry
  let C : String → Prop := fun g => ∃ y ∈ l1, ∃ m, bindTarget y.1 = (g, some m)
  have hcond2 : ∀ y ∈ l1, ∀ g m, bindTarget y.1 = (g, some m) →
      (Split y.1 '.').length = 2 ∧ g = (Split y.1 '.').getD 0 "" := by
    intro y hy g m ht
    unfold bindTarget at ht
    by_cases hc : 1 < (Split y.1 '.').length ∧ (Split y.1 '.').length ≤ 3
    · rw [if_pos hc] at ht
      have := hseg y hy
      exact ⟨by omega, (Prod.mk.inj ht).1.symm⟩
    · rw [if_neg hc] at ht
      cases (Prod.mk.inj ht).2
  have hok : ∀ kv ∈ l1,
      ((1 < (Split kv.1 '.').length ∧ (Split kv.1 '.').length ≤ 3) →
        C ((Split kv.1 '.').getD 0 "")) ∧
      (¬ (1 < (Split kv.1 '.').length ∧ (Split kv.1 '.').length ≤ 3) → ¬ C kv.1) := by
    intro kv hkv
    constructor
    · intro hc
      refine ⟨kv, hkv, (Split kv.1 '.').getD 1 "", ?_⟩
      unfold bindTarget
      rw [if_pos hc]
    · intro _ hC
      obtain ⟨y, hy, m, ht⟩ := hC
      obtain ⟨hlen, hg⟩ := hcond2 y hy _ m ht
      exact hconf kv hkv y hy hlen hg
  have hinit : bindInv C { rt := { globals := [], heap := heap }, objMap := [] } := by
    refine ⟨?_, ?_, ?_, ?_⟩ <;> intros <;> simp_all [GoMap.get]
  have hcomm : ∀ x ∈ l1, ∀ y ∈ l1, ∀ z, specBind (specBind z x) y = specBind (specBind z y) x := by
    intro x hx y hy z
    by_cases hxy : x = y
    · rw [hxy]
    · have hk : x.1 ≠ y.1 := fun e => hxy (List.inj_on_of_nodup_map hkeys hx hy e)
      have hne : bindTarget x.1 ≠ bindTarget y.1 := fun e =>
        hk (bindTarget_injective _ _ (hseg x hx) (hseg y hy) e)
      have hnone : ∀ kv ∈ l1, (bindTarget kv.1).2 = none → (bindTarget kv.1).1 = kv.1 := by
        intro kv _ h
        unfold bindTarget at h ⊢
        by_cases hc : 1 < (Split kv.1 '.').length ∧ (Split kv.1 '.').length ≤ 3
        · rw [if_pos hc] at h
          cases h
        · rw [if_neg hc]
      apply specBindAt_comm z _ _ _ _ hne
      · intro m h1 h2
        rw [hnone x hx h1] at h2
        obtain ⟨hlen, hg⟩ := hcond2 y hy _ m h2
        exact hconf x hx y hy hlen hg
      · intro m h1 h2
        rw [hnone y hy h1] at h2
        obtain ⟨hlen, hg⟩ := hcond2 x hx _ m h2
        exact hconf y hy x hx hlen hg
  have hobs : observe (bindCapabilities { globals := [], heap := heap } l1).rt =
      observe (bindCapabilities { globals := [], heap := heap } l2).rt := by
    unfold bindCapabilities
    rw [bind_foldl C l1 _ hinit hok,
      bind_foldl C l2 _ hinit (fun kv hkv => hok kv (hperm.mem_iff.mpr hkv))]
    exact List.Perm.foldl_eq' hperm hcomm _
  refine ⟨hobs, ?_⟩
  intro g m
  rw [evalPath_two, evalPath_two, hobs]

/-- Witness for C11: the registry of `console.log`, `print` and
`console.error`, forwards and backwards. -/
theorem bindCapabilities_order_independent_witness :
    evalPath (bindCapabilities { globals := [], heap := [] }
        [("console.log", FuncId.mk 1), ("print", FuncId.mk 2),
          ("console.error", FuncId.mk 3)]).rt ["console", "log"] =
      evalPath (bindCapabilities { globals := [], heap := [] }
        [("console.error", FuncId.mk 3), ("print", FuncId.mk 2),
          ("console.log", FuncId.mk 1)]).rt ["console", "log"] :=
  (bindCapabilities_order_independent []
    [("console.log", FuncId.mk 1), ("print", FuncId.mk 2), ("console.error", FuncId.mk 3)]
    [("console.error", FuncId.mk 3), ("print", FuncId.mk 2), ("console.log", FuncId.mk 1)]
    (by decide) (by decide) (by decide) (by decide)).2 "console" "log"

end Script

namespace Config

open Script

/-! ## The Modbus parser -/

theorem applyDefaultsFrom_getElem? (raws : List ModbusRegister) (i j : Nat) :
    (applyDefaultsFrom i raws)[j]? = (raws[j]?).map (applyDefault (i + j)) := by
  induction raws generalizing i j with
  | nil => simp [applyDefaultsFrom]
  | cons r rs ih =>
    cases j with
    | zero => simp [applyDefaultsFrom]
    | succ j =>
      simp only [applyDefaultsFrom, List.getElem?_cons_succ, ih]
      have e : i + 1 + j = i + (j + 1) := by omega
      rw [e]

theorem applyDefaults_getElem? (raws : List ModbusRegister) (j : Nat) :
    (applyDefaults raws)[j]? = (raws[j]?).map (applyDefault j) := by
  simpa using applyDefaultsFrom_getElem? raws 0 j

theorem ParseModbusProtocol_ok (env : CsvEnv) (content : String) (regs : List ModbusRegister)
    (h : ParseModbusProtocol env content = Except.ok regs) :
    ∃ headers rest, env.Read (skipBOM content) = Except.ok headers :: rest ∧
      regs = applyDefaults (rest.filterMap (rowRegister env (buildIdx env headers))) := by
  unfold ParseModbusProtocol at h
  split at h
  · cases h
  · cases h
  · next headers rest hread =>
    injection h with h
    exact ⟨headers, rest, hread, h.symm⟩

theorem rowRegister_some (env : CsvEnv) (idx : GoMap Nat) (read : Except Err (List String))
    (r0 : ModbusRegister) (h : rowRegister env idx read = some r0) :
    ∃ raw, read = Except.ok raw ∧ 4 ≤ raw.length ∧
      r0 = buildRegister env idx (raw.map TrimSpace) := by
  unfold rowRegister at h
  split at h
  · cases h
  · next raw =>
    split at h
    · cases h
    · next hlen =>
      simp only at h
      split at h
      · cases h
      · injection h with h
        exact ⟨raw, rfl, by omega, h.symm⟩

/-- Every register of a successful parse is the defaulted register of a data
row: the register at index `j` comes from a record `raw` that the reader
returned after the header and that has at least 4 fields. -/
theorem register_of_row (env : CsvEnv) (content : String) (regs : List ModbusRegister)
    (h : ParseModbusProtocol env content = Except.ok regs) (j : Nat) (r : ModbusRegister)
    (hr : regs[j]? = some r) :
    ∃ headers rest raw, env.Read (skipBOM content) = Except.ok headers :: rest ∧
      Except.ok raw ∈ rest ∧ 4 ≤ raw.length ∧
      r = applyDefault j (buildRegister env (buildIdx env headers) (raw.map TrimSpace)) := by
  obtain ⟨headers, rest, hread, hregs⟩ := ParseModbusProtocol_ok env content regs h
  subst hregs
  rw [applyDefaults_getElem?] at hr
  cases hraw : (rest.filterMap (rowRegister env (buildIdx env headers)))[j]? with
  | none => simp [hraw] at hr
  | some r0 =>
    simp only [hraw, Option.map_some', Option.some.injEq] at hr
    have hmem := List.getElem?_mem hraw
    obtain ⟨read, hin, hrow⟩ := List.mem_filterMap.mp hmem
    obtain ⟨raw, hreadeq, hlen, hbuild⟩ := rowRegister_some env _ read r0 hrow
    subst hreadeq
    exact ⟨headers, rest, raw, hread, hin, hlen, by rw [← hr, hbuild]⟩

theorem key_prefix_ne_empty (i : Nat) : "Key" ++ Itoa i ≠ "" := by
  intro h
  have h1 := congrArg String.length h
  rw [String.length_append] at h1
  have h2 : "Key".length = 3 := by decide
  have h3 : "".length = 0 := by decide
  omega

theorem applyDefault_invariant (i : Nat) (r : ModbusRegister) :
    (applyDefault i r).Function ≠ MF_NONE ∧ (applyDefault i r).Type_ ≠ MT_NONE ∧
      (applyDefault i r).Scale.isZero = false ∧ (applyDefault i r).Key ≠ "" := by
  have hone : Float64.one.isZero = false := by decide
  have hk := key_prefix_ne_empty i
  unfold applyDefault
  simp only [MF_NONE, MF_INPUT, MT_NONE, MT_INT]
  refine ⟨?_, ?_, ?_, ?_⟩ <;> split_ifs <;> simp_all

/-- C16. For every content on which `ParseModbusProtocol` succeeds, every
register of the result has `Function ≠ MF_NONE`, `Type ≠ MT_NONE`, a `Scale`
that does not compare equal to 0, and a non-empty `Key`. -/
theorem ParseModbusProtocol_defaults_applied (env : CsvEnv) (content : String)
    (regs : List ModbusRegister) (h : ParseModbusProtocol env content = Except.ok regs) :
    ∀ r ∈ regs, r.Function ≠ MF_NONE ∧ r.Type_ ≠ MT_NONE ∧ r.Scale.isZero = false ∧
      r.Key ≠ "" := by
  intro r hr
  obtain ⟨j, hj⟩ := List.getElem?_of_mem hr
  obtain ⟨headers, rest, raw, _, _, _, hreq⟩ := register_of_row env content regs h j r hj
  rw [hreq]
  exact applyDefault_invariant j _

/-- Witness for C16: a row with an unknown function, a zero scale and no key. -/
theorem ParseModbusProtocol_defaults_applied_witness :
    (applyDefault 0 (buildRegister sampleCsv
        (buildIdx sampleCsv ["name", "key", "address", "length", "function", "scale"])
        ["r1", "", "1", "2", "bogus", "0"])).Function ≠ MF_NONE ∧
      (applyDefault 0 (buildRegister sampleCsv
        (buildIdx sampleCsv ["name", "key", "address", "length", "function", "scale"])
        ["r1", "", "1", "2", "bogus", "0"])).Key ≠ "" := by
  have h := ParseModbusProtocol_defaults_applied sampleCsv
    "name,key,address,length,function,scale\nr1,,1,2,bogus,0\n" _ rfl _
    (List.mem_singleton.mpr rfl)
  exact ⟨h.1, h.2.2.2⟩

theorem getD_map_TrimSpace (raw : List String) (k : Nat) :
    (raw.map TrimSpace).getD k "" = TrimSpace (raw.getD k "") := by
  induction raw generalizing k with
  | nil =>
    have h : TrimSpace "" = "" := by decide
    simp [h]
  | cons x xs ih =>
    cases k with
    | zero => simp
    | succ k => simpa using ih k

theorem applyDefault_Function (i : Nat) (r : ModbusRegister) :
    (applyDefault i r).Function = if r.Function = MF_NONE then MF_INPUT else r.Function := by
  unfold applyDefault
  simp only
  split_ifs <;> rfl

theorem applyDefault_Address (i : Nat) (r : ModbusRegister) :
    (applyDefault i r).Address = r.Address ∧ (applyDefault i r).Length = r.Length := by
  unfold applyDefault
  simp only
  split_ifs <;> exact ⟨rfl, rfl⟩

theorem applyDefault_Key (i : Nat) (r : ModbusRegister) :
    (applyDefault i r).Key = if r.Key = "" then "Key" ++ Itoa i else r.Key := by
  unfold applyDefault
  simp only
  split_ifs <;> rfl

/-- Counterexample for C17: a row whose function field is blank gives a
register whose function is hold, not input. -/
theorem blank_function_field_gives_hold :
    (ParseModbusProtocol sampleCsv "name,key,address,length,function\nr1,k1,1,2,\n").toOption =
        some [holdRegister] ∧
      holdRegister.Function = MF_HOLD ∧ MF_HOLD ≠ MF_INPUT := by
  decide

/-- C17, amended. On a successful parse the result is the defaulted list of
the registers of the data rows, and for the register at index `j`, built from
the record `raw`: its function is hold when the header has a function column
and the field of the row is blank, and input when the header has no function
column or the row ends before that column. -/
theorem blank_function_hold_missing_input (env : CsvEnv) (content : String)
    (regs : List ModbusRegister) (h : ParseModbusProtocol env content = Except.ok regs)
    (j : Nat) (r : ModbusRegister) (hr : regs[j]? = some r) :
    ∃ headers rest raw, env.Read (skipBOM content) = Except.ok headers :: rest ∧
      regs = applyDefaults (rest.filterMap (rowRegister env (buildIdx env headers))) ∧
      Except.ok raw ∈ rest ∧
      r = applyDefault j (buildRegister env (buildIdx env headers) (raw.map TrimSpace)) ∧
      (∀ k, (buildIdx env headers).get "function" = some k → k < raw.length →
        TrimSpace (raw.getD k "") = "" → r.Function = MF_HOLD) ∧
      ((buildIdx env headers).get "function" = none → r.Function = MF_INPUT) ∧
      (∀ k, (buildIdx env headers).get "function" = some k → raw.length ≤ k →
        r.Function = MF_INPUT) := by
  obtain ⟨headers, rest, raw, hread, hin, _, hreq⟩ := register_of_row env content regs h j r hr
  obtain ⟨headers1, rest1, hread1, hregs⟩ := ParseModbusProtocol_ok env content regs h
  rw [hread] at hread1
  injection hread1 with e1 e2
  injection e1 with e1
  subst e1 e2
  refine ⟨headers, rest, raw, hread, hregs, hin, hreq, ?_, ?_, ?_⟩
  · intro k hk hlt hblank
    have hempty : TrimSpace "" = "" := by decide
    have hf : (buildRegister env (buildIdx env headers) (raw.map TrimSpace)).Function =
        MF_HOLD := by
      have hlt1 : ¬ k ≥ (raw.map TrimSpace).length := by simpa using hlt
      simp only [buildRegister, getFunction, hk, hlt1, if_false, getD_map_TrimSpace, hblank,
        hempty, if_true]
    rw [hreq, applyDefault_Function, hf]
    decide
  · intro hk
    have hf : (buildRegister env (buildIdx env headers) (raw.map TrimSpace)).Function =
        MF_NONE := by
      simp only [buildRegister, getFunction, hk]
    rw [hreq, applyDefault_Function, hf]
    decide
  · intro k hk hle
    have hf : (buildRegister env (buildIdx env headers) (raw.map TrimSpace)).Function =
        MF_NONE := by
      have hle1 : k ≥ (raw.map TrimSpace).length := by simpa using hle
      simp only [buildRegister, getFunction, hk, hle1, if_true]
    rw [hreq, applyDefault_Function, hf]
    decide

/-- Witness for C17: the blank function field of the row `r1,k1,1,2,`. -/
theorem blank_function_hold_missing_input_witness :
    ParseModbusProtocol sampleCsv "name,key,address,length,function\nr1,k1,1,2,\n" =
        Except.ok [holdRegister] ∧
      holdRegister.Function = MF_HOLD := by
  have hp : ParseModbusProtocol sampleCsv "name,key,address,length,function\nr1,k1,1,2,\n" =
      Except.ok [holdRegister] := by rfl
  obtain ⟨headers, rest, raw, hread, _, hin, _, hhold, _, _⟩ :=
    blank_function_hold_missing_input sampleCsv
      "name,key,address,length,function\nr1,k1,1,2,\n" [holdRegister] hp 0 holdRegister rfl
  have hc : sampleCsv.Read (skipBOM "name,key,address,length,function\nr1,k1,1,2,\n") =
      [Except.ok ["name", "key", "address", "length", "function"],
       Except.ok ["r1", "k1", "1", "2", ""]] := by rfl
  rw [hc] at hread
  injection hread with e1 e2
  injection e1 with e1
  subst e1 e2
  have hraw : raw = ["r1", "k1", "1", "2", ""] := by
    simpa using hin
  subst hraw
  exact ⟨hp, hhold 4 (by decide) (by decide) (by decide)⟩

theorem toUint16_Atoi (s : String) :
    (∀ v, decimalValue s = some v → 0 ≤ v → v ≤ 65535 → ((toUint16 (Atoi s).1 : Nat) : Int) = v) ∧
      (decimalValue s = none → toUint16 (Atoi s).1 = 0) ∧
      (∀ v, decimalValue s = some v → minInt ≤ v → v ≤ maxInt →
        ((toUint16 (Atoi s).1 : Nat) : Int) = v % 65536) ∧
      (∀ v, decimalValue s = some v → maxInt < v → toUint16 (Atoi s).1 = 65535) ∧
      (∀ v, decimalValue s = some v → v < minInt → toUint16 (Atoi s).1 = 0) := by
  refine ⟨?_, ?_, ?_, ?_, ?_⟩
  · intro v hv h0 h1
    have h2 : ¬ v > maxInt := by unfold maxInt; omega
    have h3 : ¬ v < minInt := by unfold minInt; omega
    simp only [Atoi, hv, h2, h3, if_false, toUint16]
    omega
  · intro hv
    simp only [Atoi, hv, toUint16]
    decide
  · intro v hv h0 h1
    have h2 : ¬ v > maxInt := by omega
    have h3 : ¬ v < minInt := by omega
    simp only [Atoi, hv, h2, h3, if_false, toUint16]
    omega
  · intro v hv h0
    have h2 : v > maxInt := h0
    simp only [Atoi, hv, h2, if_true]
    decide
  · intro v hv h0
    have h2 : ¬ v > maxInt := by
      unfold maxInt
      unfold minInt at h0
      omega
    simp only [Atoi, hv, h2, h0, if_false, if_true]
    decide

/-- Counterexample for C18: the address field `-1` gives 65535 and the length
field `65537` gives 1, where the claim says 0 for both. -/
theorem negative_address_wraps :
    (ParseModbusProtocol sampleCsv "name,key,address,length\nr1,k1,-1,65537\n").toOption =
        some [wrappedRegister] ∧
      wrappedRegister.Address = 65535 ∧ wrappedRegister.Length = 1 := by
  decide

/-- C18, amended. For the register at index `j` of a successful parse, built
from the record `raw`, with `s` the trimmed address field (empty when the
column is missing): `Address` is the value of `s` when `s` is a decimal integer
in 0..65535; it is 0 when `s` is not a decimal integer; for every decimal
integer within the range of `int` it is the value modulo 65536; above that
range it is 65535 and below it 0. The same holds of `Length` and the length
field. -/
theorem address_is_value_mod_65536 (env : CsvEnv) (content : String)
    (regs : List ModbusRegister) (h : ParseModbusProtocol env content = Except.ok regs)
    (j : Nat) (r : ModbusRegister) (hr : regs[j]? = some r) :
    ∃ headers rest raw, env.Read (skipBOM content) = Except.ok headers :: rest ∧
      Except.ok raw ∈ rest ∧
      r = applyDefault j (buildRegister env (buildIdx env headers) (raw.map TrimSpace)) ∧
      (∀ field, (field = "address" ∨ field = "length") →
        ∀ s, s = getField (buildIdx env headers) (raw.map TrimSpace) field →
        ∀ x, x = (if field = "address" then r.Address else r.Length) →
          (∀ v, decimalValue s = some v → 0 ≤ v → v ≤ 65535 → (x : Int) = v) ∧
          (decimalValue s = none → x = 0) ∧
          (∀ v, decimalValue s = some v → minInt ≤ v → v ≤ maxInt → (x : Int) = v % 65536) ∧
          (∀ v, decimalValue s = some v → maxInt < v → x = 65535) ∧
          (∀ v, decimalValue s = some v → v < minInt → x = 0)) := by
  obtain ⟨headers, rest, raw, hread, hin, _, hreq⟩ := register_of_row env content regs h j r hr
  refine ⟨headers, rest, raw, hread, hin, hreq, ?_⟩
  intro field hfield s hs x hx
  have hx1 : x = toUint16 (Atoi s).1 := by
    rcases hfield with hf | hf
    · subst hf
      rw [hx, if_pos rfl, hreq, (applyDefault_Address j _).1, hs]
      rfl
    · subst hf
      rw [hx, if_neg (by decide), hreq, (applyDefault_Address j _).2, hs]
      rfl
  rw [hx1]
  exact toUint16_Atoi s

/-- Witness for C18: the row `r1,k1,-1,65537`. -/
theorem address_is_value_mod_65536_witness :
    ParseModbusProtocol sampleCsv "name,key,address,length\nr1,k1,-1,65537\n" =
        Except.ok [wrappedRegister] ∧
      ∃ headers rest raw,
        sampleCsv.Read (skipBOM "name,key,address,length\nr1,k1,-1,65537\n") =
          Except.ok headers :: rest ∧
        Except.ok raw ∈ rest ∧
        wrappedRegister =
          applyDefault 0 (buildRegister sampleCsv (buildIdx sampleCsv headers)
            (raw.map TrimSpace)) := by
  have hp : ParseModbusProtocol sampleCsv "name,key,address,length\nr1,k1,-1,65537\n" =
      Except.ok [wrappedRegister] := by rfl
  obtain ⟨headers, rest, raw, hread, hin, hreq, _⟩ :=
    address_is_value_mod_65536 sampleCsv "name,key,address,length\nr1,k1,-1,65537\n"
      [wrappedRegister] hp 0 wrappedRegister rfl
  exact ⟨hp, headers, rest, raw, hread, hin, hreq⟩

/-- Counterexample for C19: the tuple has three tokens and its first token is
a decimal integer, yet it is skipped, because the integer is outside the range
of `int`. -/
theorem huge_bit_position_skipped :
    Split "99999999999999999999:k:n" ':' = ["99999999999999999999", "k", "n"] ∧
      decimalValue (TrimSpace "99999999999999999999") = some 99999999999999999999 ∧
      parseBits "99999999999999999999:k:n" = [] := by
  decide

theorem parseBit_eq_bitOfTuple (entry : String) : parseBit entry = bitOfTuple entry := by
  unfold parseBit bitOfTuple
  rcases hparts : Split (TrimSpace entry) ':' with _ | ⟨a, _ | ⟨b, _ | ⟨c, _ | ⟨d, t⟩⟩⟩⟩
  · simp
  · simp
  · simp
  · simp only [List.length_cons, List.length_nil, ne_eq, not_true_eq_false, if_false,
      List.getD_cons_zero, List.getD_cons_succ, Atoi]
    cases hv : decimalValue (TrimSpace a) with
    | none => simp
    | some v =>
      simp only
      by_cases h1 : v > maxInt
      · have h2 : ¬ (minInt ≤ v ∧ v ≤ maxInt) := by omega
        simp [h1, h2]
      · by_cases h3 : v < minInt
        · have h2 : ¬ (minInt ≤ v ∧ v ≤ maxInt) := by omega
          simp [h1, h3, h2]
        · have h2 : minInt ≤ v ∧ v ≤ maxInt := by omega
          simp [h1, h3, h2]
  · simp

/-- C19, amended. `parseBits` returns, in input order, the entry of each
tuple separated by semicolons that has exactly three tokens separated by
colons and whose first token, trimmed, is a decimal integer within the range
of `int`, with `Key` and `Name` trimmed; every other tuple contributes
nothing. -/
theorem parseBits_eq_tuples (bitsStr : String) :
    parseBits bitsStr = (Split bitsStr ';').filterMap bitOfTuple := by
  unfold parseBits
  congr 1
  funext entry
  exact parseBit_eq_bitOfTuple entry

/-- C20. For the register at index `j` of a successful parse, built from the
record `raw`: when the trimmed key field is empty (or the column is missing)
its `Key` is `Key` followed by the decimal `j`, and otherwise its `Key` is the
key field. -/
theorem empty_key_backfilled (env : CsvEnv) (content : String)
    (regs : List ModbusRegister) (h : ParseModbusProtocol env content = Except.ok regs)
    (j : Nat) (r : ModbusRegister) (hr : regs[j]? = some r) :
    ∃ headers rest raw, env.Read (skipBOM content) = Except.ok headers :: rest ∧
      Except.ok raw ∈ rest ∧
      r = applyDefault j (buildRegister env (buildIdx env headers) (raw.map TrimSpace)) ∧
      (getField (buildIdx env headers) (raw.map TrimSpace) "key" = "" →
        r.Key = "Key" ++ Itoa j) ∧
      (getField (buildIdx env headers) (raw.map TrimSpace) "key" ≠ "" →
        r.Key = getField (buildIdx env headers) (raw.map TrimSpace) "key") := by
  obtain ⟨headers, rest, raw, hread, hin, _, hreq⟩ := register_of_row env content regs h j r hr
  refine ⟨headers, rest, raw, hread, hin, hreq, ?_, ?_⟩
  · intro hk
    have hk1 : (buildRegister env (buildIdx env headers) (raw.map TrimSpace)).Key = "" := hk
    rw [hreq, applyDefault_Key, if_pos hk1]
  · intro hk
    have hk1 : ¬ (buildRegister env (buildIdx env headers) (raw.map TrimSpace)).Key = "" := hk
    rw [hreq, applyDefault_Key, if_neg hk1]
    rfl

/-- Witness for C20: the row `r1,,7,2` is the first register and gets `Key0`. -/
theorem empty_key_backfilled_witness :
    ParseModbusProtocol sampleCsv "name,key,address,length\nr1,,7,2\n" =
        Except.ok [keylessRegister] ∧
      keylessRegister.Key = "Key" ++ Itoa 0 := by
  have hp : ParseModbusProtocol sampleCsv "name,key,address,length\nr1,,7,2\n" =
      Except.ok [keylessRegister] := by rfl
  obtain ⟨headers, rest, raw, hread, hin, _, hempty, _⟩ :=
    empty_key_backfilled sampleCsv "name,key,address,length\nr1,,7,2\n" [keylessRegister] hp 0
      keylessRegister rfl
  have hc : sampleCsv.Read (skipBOM "name,key,address,length\nr1,,7,2\n") =
      [Except.ok ["name", "key", "address", "length"], Except.ok ["r1", "", "7", "2"]] := by rfl
  rw [hc] at hread
  injection hread with e1 e2
  injection e1 with e1
  subst e1 e2
  have hraw : raw = ["r1", "", "7", "2"] := by
    simpa using hin
  subst hraw
  exact ⟨hp, hempty (by decide)⟩

/-! ## The device store -/

theorem storeDevices_some (h : ConfigChangeHandlers) (cfgs : List DeviceConfig)
    (m : GoMap DeviceConfig) :
    ∃ m1, storeDevices h (cfgs.map some) m =
      some (m1, if h.DeviceUpdateHandler then cfgs.map HandlerCall.DeviceUpdate else []) := by
  induction cfgs generalizing m with
  | nil => exact ⟨m, by cases h.DeviceUpdateHandler <;> rfl⟩
  | cons c cs ih =>
    obtain ⟨m1, hm1⟩ := ih (m.set c.Name c)
    refine ⟨m1, ?_⟩
    simp only [List.map_cons, storeDevices, hm1]
    cases h.DeviceUpdateHandler <;> simp

theorem storeDevices_nil_element (h : ConfigChangeHandlers) (cfgs : List (Option DeviceConfig))
    (m : GoMap DeviceConfig) (hnil : none ∈ cfgs) : storeDevices h cfgs m = none := by
  induction cfgs generalizing m with
  | nil => cases hnil
  | cons c cs ih =>
    cases c with
    | none => rfl
    | some c =>
      have hcs : none ∈ cs := by simpa using hnil
      simp only [storeDevices, ih _ hcs]

theorem buildDeviceConfigMapFrom_some (cfgs : List DeviceConfig) (m : GoMap DeviceConfig) :
    ∃ m1, buildDeviceConfigMapFrom m (cfgs.map some) = some m1 ∧
      ∀ n, (m1.get n).isSome = true ↔ ((m.get n).isSome = true ∨ n ∈ deviceNames cfgs) := by
  induction cfgs generalizing m with
  | nil => exact ⟨m, rfl, by simp [deviceNames]⟩
  | cons c cs ih =>
    obtain ⟨m1, hm1, hmem⟩ := ih (m.set c.Name c)
    refine ⟨m1, by simpa [buildDeviceConfigMapFrom] using hm1, ?_⟩
    intro n
    rw [hmem n]
    by_cases hn : n = c.Name
    · subst hn
      simp [GoMap.get_set_self, deviceNames]
    · rw [GoMap.get_set_of_ne _ _ hn]
      have hn1 : ¬ c.Name = n := fun e => hn e.symm
      simp [deviceNames, hn, hn1]

theorem removeStale_some (h : ConfigChangeHandlers) (dcm : GoMap DeviceConfig)
    (new previous : List DeviceConfig) (m : GoMap DeviceConfig)
    (hdcm : ∀ n, (dcm.get n).isSome = true ↔ n ∈ deviceNames new) :
    ∃ m1, removeStale h dcm (previous.map some) m =
      some (m1, if h.DeviceRemoveHandler then
        (staleEntries previous new).map fun c => HandlerCall.DeviceRemove c.Name else []) := by
  induction previous generalizing m with
  | nil => exact ⟨m, by cases h.DeviceRemoveHandler <;> rfl⟩
  | cons c cs ih =>
    by_cases hc : c.Name ∈ deviceNames new
    · obtain ⟨m1, hm1⟩ := ih m
      refine ⟨m1, ?_⟩
      have hs : (dcm.get c.Name).isSome = true := (hdcm _).mpr hc
      simp only [List.map_cons, removeStale, hs, if_true, hm1, staleEntries, List.filter_cons, hc,
        not_true_eq_false, decide_False, Bool.false_eq_true, if_false]
    · obtain ⟨m1, hm1⟩ := ih (m.del c.Name)
      refine ⟨m1, ?_⟩
      have hs : ¬ (dcm.get c.Name).isSome = true := fun e => hc ((hdcm _).mp e)
      simp only [staleEntries] at hm1
      simp only [List.map_cons, removeStale, hs, if_false, hm1, staleEntries, List.filter_cons, hc,
        not_false_eq_true, decide_True, if_true]
      cases h.DeviceRemoveHandler <;> simp

theorem parse_on_empty (json : Json) (dataId configData : String) :
    (if configData = "" then Except.ok [] else parseDeviceConfigs json dataId configData) =
      parseDeviceConfigs json dataId configData := by
  by_cases hc : configData = ""
  · subst hc
    have h : TrimSpace "" = "" := by decide
    simp [parseDeviceConfigs, h]
  · simp [hc]

/-- The handler calls of one `UpdateDeviceConfig`: the new payload decodes to
`new`, the previous payload of the data id to `previous`, all without nil
entries. -/
theorem UpdateDeviceConfig_calls (json : Json) (h : ConfigChangeHandlers)
    (d : DeviceConfiguration) (dataId configData : String) (previous new : List DeviceConfig)
    (hnew : parseDeviceConfigs json dataId configData = Except.ok (new.map some))
    (hprev : previousDevices json d dataId = previous.map some) :
    ∃ m2, UpdateDeviceConfig json h d dataId configData =
      Outcome.returned none (DeviceConfiguration.mk (d.DataIdConfigMap.set dataId configData) m2)
        ((if h.DeviceUpdateHandler then new.map HandlerCall.DeviceUpdate else []) ++
          (if h.DeviceRemoveHandler then
            (staleEntries previous new).map fun c => HandlerCall.DeviceRemove c.Name else [])) := by
  obtain ⟨m1, hm1⟩ := storeDevices_some h new d.DataIdDeviceMap
  obtain ⟨dcm, hdcm, hmem⟩ := buildDeviceConfigMapFrom_some new []
  have hmem1 : ∀ n, (dcm.get n).isSome = true ↔ n ∈ deviceNames new := by
    intro n
    rw [hmem n]
    simp [GoMap.get]
  obtain ⟨m2, hm2⟩ := removeStale_some h dcm new previous m1 hmem1
  refine ⟨m2, ?_⟩
  unfold UpdateDeviceConfig
  rw [parse_on_empty, hnew]
  simp only [hm1, buildDeviceConfigMap, hdcm, hprev, hm2]

theorem count_remove_in_updates (n : String) (new : List DeviceConfig) :
    (new.map HandlerCall.DeviceUpdate).count (HandlerCall.DeviceRemove n) = 0 := by
  rw [List.count_eq_zero]
  intro hmem
  obtain ⟨c, _, hc⟩ := List.mem_map.mp hmem
  cases hc

theorem staleEntries_cons (c : DeviceConfig) (cs new : List DeviceConfig) :
    staleEntries (c :: cs) new =
      if c.Name ∈ deviceNames new then staleEntries cs new else c :: staleEntries cs new := by
  unfold staleEntries
  rw [List.filter_cons]
  by_cases hc : c.Name ∈ deviceNames new
  · simp only [hc, not_true_eq_false, decide_False, Bool.false_eq_true, if_false, if_true]
  · simp only [hc, not_false_eq_true, decide_True, if_true, if_false]

theorem count_remove_in_stale (n : String) (previous new : List DeviceConfig) :
    ((staleEntries previous new).map fun c => HandlerCall.DeviceRemove c.Name).count
        (HandlerCall.DeviceRemove n) =
      if n ∈ deviceNames new then 0 else (deviceNames previous).count n := by
  induction previous with
  | nil => simp [staleEntries, deviceNames]
  | cons c cs ih =>
    have hd : deviceNames (c :: cs) = c.Name :: deviceNames cs := rfl
    rw [staleEntries_cons, hd]
    by_cases hc : c.Name ∈ deviceNames new
    · rw [if_pos hc, ih]
      by_cases hn : n ∈ deviceNames new
      · rw [if_pos hn, if_pos hn]
      · have h2 : ¬ c.Name = n := fun e => hn (e ▸ hc)
        rw [if_neg hn, if_neg hn, List.count_cons]
        simp [h2]
    · rw [if_neg hc, List.map_cons, List.count_cons, ih]
      by_cases hn : n ∈ deviceNames new
      · have h2 : ¬ c.Name = n := fun e => hc (e ▸ hn)
        rw [if_pos hn, if_pos hn]
        simp [h2]
      · rw [if_neg hn, if_neg hn, List.count_cons]
        by_cases h2 : c.Name = n
        · simp [h2]
        · simp [h2]

/-- Counterexample for C13: the previous payload lists the device A twice and
the new payload is empty; `DeviceRemove(A)` is called twice. -/
theorem duplicate_name_removed_twice :
    previousDevices sampleJson (afterFirst payloadAA) "d" =
        [some (device "A"), some (device "A")] ∧
      (UpdateDeviceConfig sampleJson allHandlers (afterFirst payloadAA) "d" "[]").calls =
        [HandlerCall.DeviceRemove "A", HandlerCall.DeviceRemove "A"] ∧
      (UpdateDeviceConfig sampleJson allHandlers (afterFirst payloadAA) "d" "[]").calls.count
        (HandlerCall.DeviceRemove "A") = 2 := by
  decide

/-- C13, amended. With the remove handler installed, a new payload decoding
to `new` and a previous payload of the same data id decoding to `previous`:
`UpdateDeviceConfig` calls `DeviceRemove(n)` never when `n` is a name of the new
payload, and otherwise once for each entry of the previous payload named `n`;
so exactly once for a name that the previous payload lists once and the new
payload does not list. -/
theorem DeviceRemove_per_stale_entry (json : Json) (h : ConfigChangeHandlers)
    (d : DeviceConfiguration) (dataId configData : String) (previous new : List DeviceConfig)
    (hR : h.DeviceRemoveHandler = true)
    (hnew : parseDeviceConfigs json dataId configData = Except.ok (new.map some))
    (hprev : previousDevices json d dataId = previous.map some) :
    (∀ n, (UpdateDeviceConfig json h d dataId configData).calls.count
        (HandlerCall.DeviceRemove n) =
          if n ∈ deviceNames new then 0 else (deviceNames previous).count n) ∧
      ((deviceNames previous).Nodup → ∀ n, n ∈ deviceNames previous → n ∉ deviceNames new →
        (UpdateDeviceConfig json h d dataId configData).calls.count
          (HandlerCall.DeviceRemove n) = 1) := by
  obtain ⟨m2, hcalls⟩ := UpdateDeviceConfig_calls json h d dataId configData previous new hnew hprev
  have hcount : ∀ n, (UpdateDeviceConfig json h d dataId configData).calls.count
      (HandlerCall.DeviceRemove n) =
        if n ∈ deviceNames new then 0 else (deviceNames previous).count n := by
    intro n
    rw [hcalls]
    simp only [Outcome.calls, hR, if_true, List.count_append, count_remove_in_stale]
    cases h.DeviceUpdateHandler
    · simp
    · simp [count_remove_in_updates]
  refine ⟨hcount, ?_⟩
  intro hnodup n hn hnn
  rw [hcount n, if_neg hnn]
  exact List.count_eq_one_of_mem hnodup hn

/-- Witness for C13: the payload `[A,B]` followed by `[B,C]` on one data id
removes A once and B never. -/
theorem DeviceRemove_per_stale_entry_witness :
    (UpdateDeviceConfig sampleJson allHandlers (afterFirst payloadAB) "d" payloadBC).calls.count
        (HandlerCall.DeviceRemove "A") = 1 ∧
      (UpdateDeviceConfig sampleJson allHandlers (afterFirst payloadAB) "d" payloadBC).calls.count
        (HandlerCall.DeviceRemove "B") = 0 := by
  have h := DeviceRemove_per_stale_entry sampleJson allHandlers (afterFirst payloadAB) "d"
    payloadBC [device "A", device "B"] [device "B", device "C"] rfl rfl rfl
  refine ⟨h.2 (by decide) "A" (by decide) (by decide), ?_⟩
  rw [h.1 "B"]
  decide

/-- C14. With the update and remove handlers installed, `UpdateDeviceConfig`
calls `DeviceUpdate` once per config of the new payload, in payload order, and
after them `DeviceRemove` for the entries of the previous payload whose name
the new payload does not list, in their order. -/
theorem updates_before_removes (json : Json) (h : ConfigChangeHandlers)
    (d : DeviceConfiguration) (dataId configData : String) (previous new : List DeviceConfig)
    (hU : h.DeviceUpdateHandler = true) (hR : h.DeviceRemoveHandler = true)
    (hnew : parseDeviceConfigs json dataId configData = Except.ok (new.map some))
    (hprev : previousDevices json d dataId = previous.map some) :
    (UpdateDeviceConfig json h d dataId configData).calls =
      new.map HandlerCall.DeviceUpdate ++
        (staleEntries previous new).map fun c => HandlerCall.DeviceRemove c.Name := by
  obtain ⟨m2, hcalls⟩ := UpdateDeviceConfig_calls json h d dataId configData previous new hnew hprev
  rw [hcalls]
  simp only [Outcome.calls, hU, hR, if_true]

/-- Witness for C14: publishing `[A,B]` and then `[B,C]` on the data id `d`
gives `DeviceUpdate(A), DeviceUpdate(B)` and then
`DeviceUpdate(B), DeviceUpdate(C), DeviceRemove(A)`. -/
theorem updates_before_removes_witness :
    (UpdateDeviceConfig sampleJson allHandlers NewDeviceConfiguration "d" payloadAB).calls =
        [HandlerCall.DeviceUpdate (device "A"), HandlerCall.DeviceUpdate (device "B")] ∧
      (UpdateDeviceConfig sampleJson allHandlers (afterFirst payloadAB) "d" payloadBC).calls =
        [HandlerCall.DeviceUpdate (device "B"), HandlerCall.DeviceUpdate (device "C"),
          HandlerCall.DeviceRemove "A"] := by
  have h1 := updates_before_removes sampleJson allHandlers NewDeviceConfiguration "d"
    payloadAB [] [device "A", device "B"] rfl rfl rfl rfl
  have h2 := updates_before_removes sampleJson allHandlers (afterFirst payloadAB) "d"
    payloadBC [device "A", device "B"] [device "B", device "C"] rfl rfl rfl rfl
  rw [h1, h2]
  exact ⟨rfl, by decide⟩

theorem backfillTypeNames_nil_value (types : GoMap (Option DeviceTypeConfig)) (k : String)
    (hnil : (k, none) ∈ types) : backfillTypeNames types = none := by
  induction types with
  | nil => cases hnil
  | cons kv rest ih =>
    obtain ⟨k1, v1⟩ := kv
    cases v1 with
    | none => rfl
    | some v =>
      have hrest : (k, none) ∈ rest := by simpa using hnil
      simp only [backfillTypeNames, ih hrest]

/-- C15 (the code departs from the claim). A device payload that decodes to
a list with a nil entry makes `UpdateDeviceConfig` panic, and a device-types
payload that decodes to a map with a nil value makes `UpdateDeviceTypeConfig`
panic: both dereference the nil pointer. `UpdateProtocolConfig` and
`UpdateDictionaryConfig` never panic. -/
theorem null_entry_panics (json : Json) (env : CsvEnv) (h : ConfigChangeHandlers) :
    (∀ d dataId configData cfgs,
        parseDeviceConfigs json dataId configData = Except.ok cfgs → none ∈ cfgs →
        (UpdateDeviceConfig json h d dataId configData).isPanic = true) ∧
      (∀ d dataId configData types k,
        json.DeviceTypes configData = Except.ok types → (k, none) ∈ types →
        (UpdateDeviceTypeConfig json h d dataId configData).isPanic = true) ∧
      (∀ p csvName data, (UpdateProtocolConfig env h p csvName data).isPanic = false) ∧
      (∀ p csvName data, (UpdateDictionaryConfig h p csvName data).isPanic = false) := by
  refine ⟨?_, ?_, ?_, ?_⟩
  · intro d dataId configData cfgs hparse hnil
    unfold UpdateDeviceConfig
    rw [parse_on_empty, hparse]
    simp only [storeDevices_nil_element h cfgs _ hnil, Outcome.isPanic]
  · intro d dataId configData types k hparse hnil
    simp only [UpdateDeviceTypeConfig, parseDeviceTypeConfig, hparse,
      backfillTypeNames_nil_value types k hnil, Outcome.isPanic]
  · intro p csvName data
    unfold UpdateProtocolConfig
    cases ParseModbusProtocol env data <;> rfl
  · intro p csvName data
    rfl

/-- Witness for C15: the payloads `[null]` and the device-types map whose
entry `x` is null. -/
theorem null_entry_panics_witness :
    (UpdateDeviceConfig sampleJson allHandlers NewDeviceConfiguration "d" "[null]").isPanic =
        true ∧
      (UpdateDeviceTypeConfig sampleJson allHandlers { DeviceTypes := none } "device-types.json"
        payloadNullType).isPanic = true := by
  have h := null_entry_panics sampleJson sampleCsv allHandlers
  exact ⟨h.1 NewDeviceConfiguration "d" "[null]" [none] rfl (by decide),
    h.2.1 { DeviceTypes := none } "device-types.json" payloadNullType [("x", none)] "x" rfl
      (by decide)⟩

/-! ## The Nacos subscriber -/

theorem subscribed_set (m : GoMap (GoMap Unit)) (p : String) (inner : GoMap Unit) :
    (NacosClient.mk (m.set p inner)).subscribed p = inner := by
  simp [NacosClient.subscribed, GoMap.get_set_self]

theorem unsubscribe_foldl (api : ConfigClient) (p : String)
    (hcancel : ∀ x, api.CancelListenConfig x = none) (l : List String) (nc : NacosClient)
    (calls : List ClientCall) :
    (l.foldl (unsubscribeOne api p) (nc, calls)).1.subscribed p =
        l.foldl (fun m k => m.del k) (nc.subscribed p) ∧
      (l.foldl (unsubscribeOne api p) (nc, calls)).2 =
        calls ++ l.map ClientCall.CancelListenConfig := by
  induction l generalizing nc calls with
  | nil => simp
  | cons a l ih =>
    have hstep : unsubscribeOne api p (nc, calls) a =
        (NacosClient.mk (nc.SubscribedSubDataIds.set p ((nc.subscribed p).del a)),
          calls ++ [ClientCall.CancelListenConfig a]) := by
      simp only [unsubscribeOne, hcancel]
    rw [List.foldl_cons, hstep]
    obtain ⟨h1, h2⟩ := ih (NacosClient.mk (nc.SubscribedSubDataIds.set p ((nc.subscribed p).del a)))
      (calls ++ [ClientCall.CancelListenConfig a])
    rw [h1, h2, subscribed_set]
    simp

theorem subscribe_foldl (api : ConfigClient) (p : String) (content : String → String)
    (hget : ∀ x, api.GetConfig x = Except.ok (content x))
    (hlisten : ∀ x, api.ListenConfig x = none) (l : List String) (nc : NacosClient)
    (calls : List ClientCall) :
    (l.foldl (subscribeOne api p) (nc, calls)).1.subscribed p =
        l.foldl (fun m k => m.set k ()) (nc.subscribed p) ∧
      (l.foldl (subscribeOne api p) (nc, calls)).2 =
        calls ++ l.flatMap fun x =>
          [ClientCall.GetConfig x, ClientCall.Callback x (content x) p,
            ClientCall.ListenConfig x p] := by
  induction l generalizing nc calls with
  | nil => simp
  | cons a l ih =>
    have hstep : subscribeOne api p (nc, calls) a =
        (NacosClient.mk (nc.SubscribedSubDataIds.set p ((nc.subscribed p).set a ())),
          calls ++ [ClientCall.GetConfig a, ClientCall.Callback a (content a) p,
            ClientCall.ListenConfig a p]) := by
      simp only [subscribeOne, hget, hlisten]
    rw [List.foldl_cons, hstep]
    obtain ⟨h1, h2⟩ := ih (NacosClient.mk (nc.SubscribedSubDataIds.set p ((nc.subscribed p).set a ())))
      (calls ++ [ClientCall.GetConfig a, ClientCall.Callback a (content a) p,
        ClientCall.ListenConfig a p])
    rw [h1, h2, subscribed_set]
    simp

theorem mem_newSubDataIdsSet (ids : List String) (x : String) :
    ((newSubDataIdsSet ids).get x).isSome = true ↔ x ∈ ids := by
  unfold newSubDataIdsSet
  rw [GoMap.isSome_get_foldl_set]
  simp [GoMap.get]

/-- C12. When the root payload is not empty and decodes to the list `ids`,
and every fetch, listen and cancel succeeds, `ProcessSubConfig` on a root with
subscribed set `S` makes these calls: first `CancelListenConfig` for the leaves
`toUnsub`, then, for each leaf of `toSub`, `GetConfig`, the callback with
`(leaf, content, root)` and `ListenConfig`; `toUnsub` lists each leaf of
`S - ids` once and nothing else, `toSub` lists each leaf of `ids - S` once and
nothing else, no call is about a leaf of both `S` and `ids`, and afterwards
the subscribed set of the root is `ids`. -/
theorem ProcessSubConfig_reconciles (json : Json) (api : ConfigClient) (nc : NacosClient)
    (root data : String) (ids : List String) (content : String → String)
    (hdata : data ≠ "") (hparse : json.Strings data = Except.ok ids)
    (hwf : (nc.subscribed root).keys.Nodup)
    (hget : ∀ x, api.GetConfig x = Except.ok (content x))
    (hlisten : ∀ x, api.ListenConfig x = none)
    (hcancel : ∀ x, api.CancelListenConfig x = none) :
    ∃ toUnsub toSub : List String,
      (ProcessSubConfig json api nc root data).2 =
        toUnsub.map ClientCall.CancelListenConfig ++
          toSub.flatMap (fun x =>
            [ClientCall.GetConfig x, ClientCall.Callback x (content x) root,
              ClientCall.ListenConfig x root]) ∧
      toUnsub.Nodup ∧ (∀ x, x ∈ toUnsub ↔ (x ∈ (nc.subscribed root).keys ∧ x ∉ ids)) ∧
      toSub.Nodup ∧ (∀ x, x ∈ toSub ↔ (x ∈ ids ∧ x ∉ (nc.subscribed root).keys)) ∧
      (∀ x, x ∈ (nc.subscribed root).keys → x ∈ ids →
        ∀ c ∈ (ProcessSubConfig json api nc root data).2, c.dataId ≠ x) ∧
      (∀ x, (((ProcessSubConfig json api nc root data).1.subscribed root).get x).isSome = true ↔
        x ∈ ids) := by
  -- the client after the initial load-or-store of the set of the root
  have hnc1 : ∀ nc1 : NacosClient,
      nc1 = (match nc.SubscribedSubDataIds.get root with
        | some _ => nc
        | none => { SubscribedSubDataIds := nc.SubscribedSubDataIds.set root [] }) →
      nc1.subscribed root = nc.subscribed root := by
    intro nc1 h1
    subst h1
    cases hg : nc.SubscribedSubDataIds.get root with
    | some inner => rfl
    | none => simp [NacosClient.subscribed, hg, GoMap.get_set_self]
  generalize hS : nc.subscribed root = S at hwf ⊢
  -- the two work lists
  have hU : ∀ x, x ∈ (S.keys.filter fun o => ((newSubDataIdsSet ids).get o).isNone) ↔
      (x ∈ S.keys ∧ x ∉ ids) := by
    intro x
    rw [List.mem_filter]
    have := mem_newSubDataIdsSet ids x
    cases hgx : (newSubDataIdsSet ids).get x <;> simp_all
  have hSub : ∀ x, x ∈ ((newSubDataIdsSet ids).keys.filter fun s => (S.get s).isNone) ↔
      (x ∈ ids ∧ x ∉ S.keys) := by
    intro x
    rw [List.mem_filter, GoMap.mem_keys_iff, mem_newSubDataIdsSet, GoMap.mem_keys_iff]
    cases hgx : S.get x <;> simp
  have hUnodup : (S.keys.filter fun o => ((newSubDataIdsSet ids).get o).isNone).Nodup :=
    hwf.filter _
  have hSnodup : ((newSubDataIdsSet ids).keys.filter fun s => (S.get s).isNone).Nodup :=
    (GoMap.nodup_keys_foldl_set ids [] List.nodup_nil).filter _
  -- the result of the call
  have hres : ∃ nc3 : NacosClient,
      ProcessSubConfig json api nc root data =
        (nc3, (S.keys.filter fun o => ((newSubDataIdsSet ids).get o).isNone).map
            ClientCall.CancelListenConfig ++
          ((newSubDataIdsSet ids).keys.filter fun s => (S.get s).isNone).flatMap (fun x =>
            [ClientCall.GetConfig x, ClientCall.Callback x (content x) root,
              ClientCall.ListenConfig x root])) ∧
      nc3.subscribed root =
        ((newSubDataIdsSet ids).keys.filter fun s => (S.get s).isNone).foldl
          (fun m k => m.set k ())
          ((S.keys.filter fun o => ((newSubDataIdsSet ids).get o).isNone).foldl
            (fun m k => m.del k) S) := by
    unfold ProcessSubConfig
    simp only [hdata, ne_eq, not_false_eq_true, if_true, hparse]
    have e1 := hnc1 _ rfl
    rw [hS] at e1
    simp only [e1]
    generalize (match nc.SubscribedSubDataIds.get root with
        | some _ => nc
        | none => { SubscribedSubDataIds := nc.SubscribedSubDataIds.set root [] }) = nc1 at e1 ⊢
    have hu := unsubscribe_foldl api root hcancel
      (S.keys.filter fun o => ((newSubDataIdsSet ids).get o).isNone) nc1 []
    rw [e1] at hu
    have hr1 : (if (S.keys.filter fun o => ((newSubDataIdsSet ids).get o).isNone).length > 0 then
          UnsubscribeFromDataIds api nc1 root
            (S.keys.filter fun o => ((newSubDataIdsSet ids).get o).isNone)
        else (nc1, [])) =
        UnsubscribeFromDataIds api nc1 root
          (S.keys.filter fun o => ((newSubDataIdsSet ids).get o).isNone) := by
      split
      · rfl
      · next hlen =>
        have hnil : (S.keys.filter fun o => ((newSubDataIdsSet ids).get o).isNone) = [] :=
          List.length_eq_zero.mp (by omega)
        rw [hnil]
        rfl
    rw [hr1]
    generalize hq1 : UnsubscribeFromDataIds api nc1 root
      (S.keys.filter fun o => ((newSubDataIdsSet ids).get o).isNone) = q1 at hu ⊢
    have hq1' : (S.keys.filter fun o => ((newSubDataIdsSet ids).get o).isNone).foldl
        (unsubscribeOne api root) (nc1, []) = q1 := hq1
    rw [hq1'] at hu
    have hs := subscribe_foldl api root content hget hlisten
      ((newSubDataIdsSet ids).keys.filter fun s => (S.get s).isNone) q1.1 []
    have hr2 : (if ((newSubDataIdsSet ids).keys.filter fun s => (S.get s).isNone).length > 0 then
          SubscribeToDataIds api q1.1
            ((newSubDataIdsSet ids).keys.filter fun s => (S.get s).isNone) root
        else (q1.1, [])) =
        SubscribeToDataIds api q1.1
          ((newSubDataIdsSet ids).keys.filter fun s => (S.get s).isNone) root := by
      split
      · rfl
      · next hlen =>
        have hnil : ((newSubDataIdsSet ids).keys.filter fun s => (S.get s).isNone) = [] :=
          List.length_eq_zero.mp (by omega)
        rw [hnil]
        rfl
    rw [hr2]
    have hsdef : SubscribeToDataIds api q1.1
        ((newSubDataIdsSet ids).keys.filter fun s => (S.get s).isNone) root =
        ((newSubDataIdsSet ids).keys.filter fun s => (S.get s).isNone).foldl
          (subscribeOne api root) (q1.1, []) := rfl
    rw [hsdef]
    refine ⟨_, Prod.ext rfl ?_, ?_⟩
    · simp only [hu.2, hs.2, List.nil_append]
    · rw [hs.1, hu.1]
  obtain ⟨nc3, hproc, hfinal⟩ := hres
  refine ⟨_, _, ?_, hUnodup, hU, hSnodup, hSub, ?_, ?_⟩
  · rw [hproc]
  · intro x hxS hxN c hc hcx
    rw [hproc] at hc
    simp only [List.mem_append, List.mem_map, List.mem_flatMap] at hc
    rcases hc with ⟨y, hy, rfl⟩ | ⟨y, hy, hcy⟩
    · have := (hU y).mp hy
      simp only [ClientCall.dataId] at hcx
      subst hcx
      exact this.2 hxN
    · have := (hSub y).mp hy
      simp only [List.mem_cons, List.mem_singleton, List.not_mem_nil, or_false] at hcy
      rcases hcy with rfl | rfl | rfl <;>
        · simp only [ClientCall.dataId] at hcx
          subst hcx
          exact this.2 hxS
  · intro x
    rw [hproc]
    simp only
    rw [hfinal, GoMap.isSome_get_foldl_set, GoMap.isSome_get_foldl_del, hSub, hU,
      ← GoMap.mem_keys_iff]
    by_cases h1 : x ∈ S.keys <;> by_cases h2 : x ∈ ids <;> simp [h1, h2]

/-- Witness for C12: the root payload flips from `["l1","l2"]` to
`["l2","l3"]`: l1 is cancelled, l3 is fetched, delivered and listened to, l2 is
not touched, and the subscribed set ends as l2, l3. -/
theorem ProcessSubConfig_reconciles_witness :
    (ProcessSubConfig sampleJson reliableClient subscribedL1L2 "device-root.json"
        "[\"l2\",\"l3\"]").2 =
        [ClientCall.CancelListenConfig "l1", ClientCall.GetConfig "l3",
          ClientCall.Callback "l3" "content of l3" "device-root.json",
          ClientCall.ListenConfig "l3" "device-root.json"] ∧
      (((ProcessSubConfig sampleJson reliableClient subscribedL1L2 "device-root.json"
        "[\"l2\",\"l3\"]").1.subscribed "device-root.json").get "l3").isSome = true ∧
      ¬ (((ProcessSubConfig sampleJson reliableClient subscribedL1L2 "device-root.json"
        "[\"l2\",\"l3\"]").1.subscribed "device-root.json").get "l1").isSome = true := by
  obtain ⟨_, _, _, _, _, _, _, _, hfinal⟩ :=
    ProcessSubConfig_reconciles sampleJson reliableClient subscribedL1L2 "device-root.json"
      "[\"l2\",\"l3\"]" ["l2", "l3"] (fun x => "content of " ++ x) (by decide) rfl (by decide)
      (fun _ => rfl) (fun _ => rfl) (fun _ => rfl)
  exact ⟨by decide, (hfinal "l3").mpr (by decide),
    fun h => absurd ((hfinal "l1").mp h) (by decide)⟩

end Config

/-! # Device-type lookups and property strings -/

namespace Config

open Script

theorem lookupTypes_published (m : GoMap DeviceTypeConfig) (configs : List DeviceConfig) :
    lookupTypes { DeviceTypes := some m } configs = some () := by
  induction configs with
  | nil => rfl
  | cons c cs ih => simpa [lookupTypes, GetDeviceTypeConfig] using ih

theorem applyTypes_eq_none_iff (m : GoMap DeviceTypeConfig) (configs : List DeviceConfig) :
    applyTypes { DeviceTypes := some m } configs = none ↔
      ∃ cfg ∈ configs, m.get cfg.Type_ = none := by
  induction configs with
  | nil => simp [applyTypes]
  | cons c cs ih =>
    cases hc : m.get c.Type_ with
    | none =>
      simp [applyTypes, ApplyDeviceTypeConfig, GetDeviceTypeConfig, hc]
    | some t =>
      cases hcs : applyTypes { DeviceTypes := some m } cs with
      | none =>
        have h1 := ih.mp hcs
        simp only [applyTypes, ApplyDeviceTypeConfig, GetDeviceTypeConfig, hc, hcs, true_iff]
        obtain ⟨cfg, hmem, hcfg⟩ := h1
        exact ⟨cfg, List.mem_cons_of_mem _ hmem, hcfg⟩
      | some r =>
        have h1 : ¬ ∃ cfg ∈ cs, m.get cfg.Type_ = none := fun hex => by
          have := ih.mpr hex
          rw [hcs] at this
          cases this
        simp only [applyTypes, ApplyDeviceTypeConfig, GetDeviceTypeConfig, hc, hcs]
        constructor
        · intro h
          cases h
        · rintro ⟨cfg, hmem, hcfg⟩
          rcases List.mem_cons.mp hmem with e | hmem
          · subst e
            rw [hc] at hcfg
            cases hcfg
          · exact absurd ⟨cfg, hmem, hcfg⟩ h1

/-- C27: `GetDeviceTypeConfig` does not return nil before the first snapshot
is published: for every type name it panics on the type assertion, so its
own `cfg == nil` branch is never reached. Once a snapshot is published it
returns the snapshot's entry for the name, and nil when there is none. -/
theorem GetDeviceTypeConfig_panics_before_first_store :
    (∀ t : String, GetDeviceTypeConfig NewDeviceTypeConfiguration t = none) ∧
    (∀ (m : GoMap DeviceTypeConfig) (t : String),
      GetDeviceTypeConfig { DeviceTypes := some m } t = some (m.get t)) :=
  ⟨fun _ => rfl, fun _ _ => rfl⟩

/-- C30: with a published snapshot, `FilterDeviceConfigs` panics exactly when
the list holds a device whose type has no entry in the snapshot: its first
loop only logs the missing type, and `ApplyDeviceTypeConfig` then reads the
interval through the nil pointer. A list with one device of the unknown type
`pump` is such an input. -/
theorem FilterDeviceConfigs_panics_on_missing_type :
    (∀ (m : GoMap DeviceTypeConfig) (configs : List DeviceConfig),
      FilterDeviceConfigs { DeviceTypes := some m } configs = none ↔
        ∃ cfg ∈ configs, m.get cfg.Type_ = none) ∧
    FilterDeviceConfigs meterSnapshot [deviceOfType "A" "meter", deviceOfType "B" "pump"] =
      none := by
  refine ⟨fun m configs => ?_, by decide⟩
  unfold FilterDeviceConfigs
  rw [lookupTypes_published]
  exact applyTypes_eq_none_iff m configs

theorem storePair_eq (m : GoMap String) (tok : String) :
    storePair m tok = m.set (tokenName tok) (tokenValue tok) := by
  unfold storePair SplitN tokenName tokenValue
  have h2 : splitNChars '=' 2 tok.toList =
      match tok.toList.dropWhile (fun c => c != '=') with
      | [] => [tok.toList]
      | _ :: rest => [tok.toList.takeWhile (fun c => c != '='), rest] := by
    show splitNChars '=' (0 + 2) tok.toList = _
    unfold splitNChars
    cases tok.toList.dropWhile (fun c => c != '=') <;> rfl
  rw [h2]
  cases hd : tok.toList.dropWhile (fun c => c != '=') with
  | nil =>
    have ht : tok.toList.takeWhile (fun c => c != '=') = tok.toList := by
      have := List.takeWhile_append_dropWhile (fun c => c != '=') tok.toList
      rw [hd, List.append_nil] at this
      exact this
    rw [ht]
    simp
  | cons x rest => simp

theorem get_foldl_set {α V : Type} (f : α → String) (g : α → V) (toks : List α)
    (m0 : GoMap V) (key : String) :
    (toks.foldl (fun m t => m.set (f t) (g t)) m0).get key =
      match toks.reverse.find? (fun t => decide (f t = key)) with
      | some t => some (g t)
      | none => m0.get key := by
  induction toks using List.reverseRecOn with
  | nil => rfl
  | append_singleton ts t ih =>
    rw [List.foldl_append, List.reverse_append]
    simp only [List.foldl_cons, List.foldl_nil, List.reverse_cons, List.reverse_nil,
      List.nil_append, List.singleton_append, List.find?_cons]
    by_cases hk : f t = key
    · subst hk
      simp [GoMap.get_set_self]
    · have hk1 : key ≠ f t := fun e => hk e.symm
      rw [GoMap.get_set_of_ne _ _ hk1, ih]
      simp [hk]

theorem foldl_storePair_get (toks : List String) (key : String) :
    (toks.foldl storePair []).get key =
      ((toks.reverse.find? (fun tok => decide (tokenName tok = key))).map tokenValue) := by
  have h : toks.foldl storePair [] =
      toks.foldl (fun (m : GoMap String) (t : String) => m.set (tokenName t) (tokenValue t))
        [] := by
    congr 1
    funext m t
    exact storePair_eq m t
  rw [h, get_foldl_set]
  cases toks.reverse.find? (fun tok => decide (tokenName tok = key)) <;> rfl

/-- C25: both copies of `GetPropertyValue` return the default when the string
is empty or no comma-separated token has the trimmed name `key`, and
otherwise the value of the last such token: the trimmed text after its first
`=`, or `true` when it has none. -/
theorem GetPropertyValue_last_token (s key defaultValue : String) :
    GetPropertyValue s key defaultValue = propertyValue s key defaultValue ∧
    Strings.GetPropertyValue s key defaultValue = propertyValue s key defaultValue := by
  unfold GetPropertyValue Strings.GetPropertyValue propertyValue
  by_cases hs : s = ""
  · simp [hs]
  · simp only [hs, if_false, foldl_storePair_get]
    cases (Split s ',').reverse.find? (fun tok => decide (tokenName tok = key)) <;> simp

theorem splitChars_of_not_mem (sep : Char) (cs : List Char) (h : sep ∉ cs) :
    splitChars sep cs = [cs] := by
  induction cs with
  | nil => rfl
  | cons c cs ih =>
    have hc : ¬ c = sep := fun e => h (by simp [e])
    have hcs : sep ∉ cs := fun hm => h (List.mem_cons_of_mem _ hm)
    simp [splitChars, hc, ih hcs]

theorem dropWhile_ne_of_not_mem (sep : Char) (cs : List Char) (h : sep ∉ cs) :
    cs.dropWhile (fun c => c != sep) = [] := by
  induction cs with
  | nil => rfl
  | cons c cs ih =>
    have hc : ¬ c = sep := fun e => h (by simp [e])
    have hcs : sep ∉ cs := fun hm => h (List.mem_cons_of_mem _ hm)
    have hb : (c != sep) = true := by simp [hc]
    simp [List.dropWhile, hb, ih hcs]

theorem takeWhile_ne_of_not_mem (sep : Char) (cs : List Char) (h : sep ∉ cs) :
    cs.takeWhile (fun c => c != sep) = cs := by
  have h1 := List.takeWhile_append_dropWhile (fun c => c != sep) cs
  rw [dropWhile_ne_of_not_mem sep cs h, List.append_nil] at h1
  exact h1

/-- C26: `ConstructPropertyMap` does not follow the property-string format on
bare tokens: for a string that is one bare token (no comma, no `=`) it
returns the empty map, while `ParsePropertyMap` maps the trimmed token to
`true`. -/
theorem ConstructPropertyMap_drops_bare_token (k : String) (hne : k ≠ "")
    (hcomma : ',' ∉ k.toList) (heq : '=' ∉ k.toList) :
    ConstructPropertyMap k = [] ∧ Strings.ParsePropertyMap k = [(TrimSpace k, "true")] := by
  have hsplit : Split k ',' = [k] := by
    show (splitChars ',' k.toList).map String.mk = [k]
    rw [splitChars_of_not_mem ',' k.toList hcomma]
    rfl
  have hparts : SplitN k '=' 2 = [k] := by
    show (splitNChars '=' (0 + 2) k.toList).map String.mk = [k]
    unfold splitNChars
    rw [dropWhile_ne_of_not_mem '=' k.toList heq]
    rfl
  constructor
  · unfold ConstructPropertyMap
    simp [hne, hsplit, hparts]
  · unfold Strings.ParsePropertyMap
    simp only [hne, if_false, hsplit, List.foldl_cons, List.foldl_nil, storePair_eq]
    have hn : tokenName k = TrimSpace k := by
      unfold tokenName
      rw [takeWhile_ne_of_not_mem '=' k.toList heq]
      rfl
    have hv : tokenValue k = "true" := by
      unfold tokenValue
      rw [dropWhile_ne_of_not_mem '=' k.toList heq]
    rw [hn, hv]
    rfl

theorem ConstructPropertyMap_drops_bare_token_witness :
    ConstructPropertyMap "debug" = [] ∧
      Strings.ParsePropertyMap "debug" = [(TrimSpace "debug", "true")] :=
  ConstructPropertyMap_drops_bare_token "debug" (by decide) (by decide) (by decide)

end Config

/-! # Host functions: `mysql.query`, `redis.get`, `redis.set` -/

namespace Script

theorem Index_append_of_not_mem (pre post : List Char) (c : Char) (h : c ∉ pre) :
    Strings.Index (pre ++ c :: post) c = some pre.length := by
  induction pre with
  | nil => simp [Strings.Index]
  | cons x xs ih =>
    have hx : ¬ x = c := fun e => h (by simp [e])
    have hxs : c ∉ xs := fun hm => h (List.mem_cons_of_mem _ hm)
    simp [Strings.Index, hx, ih hxs]

theorem take_drop_bracketed (x y : Char) (a b : List Char) :
    ((x :: (a ++ y :: b)).take (a.length + 1)).drop 1 = a ∧
      (x :: (a ++ y :: b)).drop (a.length + 1 + 1) = b := by
  constructor
  · simp
  · simp

theorem Extract_bracketed (name rest : String) (hname : ']' ∉ name.toList) :
    Strings.Extract ("[" ++ name ++ "]" ++ rest) '[' ']' = some (name, rest) := by
  have hl : ("[" ++ name ++ "]" ++ rest).toList = '[' :: (name.toList ++ ']' :: rest.toList) := by
    simp [String.toList]
  have h1 : Strings.Index ('[' :: (name.toList ++ ']' :: rest.toList)) '[' = some 0 := by
    simp [Strings.Index]
  have h2 : Strings.Index ('[' :: (name.toList ++ ']' :: rest.toList)) ']' =
      some (name.toList.length + 1) := by
    have hne : ¬ '[' = ']' := by decide
    unfold Strings.Index
    rw [if_neg hne, Index_append_of_not_mem name.toList rest.toList ']' hname]
    rfl
  unfold Strings.Extract
  rw [hl, h1, h2]
  simp only [Nat.zero_add, Nat.le_add_left, if_true]
  rw [(take_drop_bracketed '[' ']' name.toList rest.toList).1,
    (take_drop_bracketed '[' ']' name.toList rest.toList).2]
  rfl

/-- C22: a query string that does not begin with `[` is not always run
unchanged on the default connection: `Extract` looks for the brackets
anywhere. With `[` before `]` further on it returns the text between them as
the connection name and only the text after `]` as the query, so `mysql.query`
looks for the client `1`; with `]` before `[` its slice expression panics. -/
theorem Extract_brackets_inside_query :
    Strings.Extract "SELECT a[1] FROM t" '[' ']' = some ("1", " FROM t") ∧
    MySQL_query twoClients [Value.string "SELECT a[1] FROM t"] =
      some (Except.error clientNotInitialized) ∧
    Strings.Extract "SELECT ']', '['" '[' ']' = none ∧
    MySQL_query twoClients [Value.string "SELECT ']', '['"] = none :=
  ⟨by decide, rfl, by decide, rfl⟩

/-- C23: for a name without `]`, `Extract` splits `[name]rest` into the name
and the rest; `GetClient` is the default client for the empty name and for
`default` and the client registered under the name otherwise; and, with the
default client initialised, an acceptable second argument and a client found
for the name, `mysql.query` returns what that client answers to `rest`. -/
theorem MySQL_query_bracketed_client (st : Mysql.Clients) (name rest : String)
    (more : List Value) (args : List String) (client : Mysql.MySQLClient)
    (hname : ']' ∉ name.toList) (hdefault : st.MYSQL_CLIENT.isSome = true)
    (hargs : queryArgs more = some args) (hclient : Mysql.GetClient st name = some client) :
    Strings.Extract ("[" ++ name ++ "]" ++ rest) '[' ']' = some (name, rest) ∧
    Mysql.GetClient st name =
      (if name = "" ∨ name = "default" then st.MYSQL_CLIENT else st.MYSQL_CLIENTS.get name) ∧
    MySQL_query st (Value.string ("[" ++ name ++ "]" ++ rest) :: more) =
      some (match client.QueryToMap rest args with
        | Except.error err => Except.error (Err.msg ("query execution failed: " ++ err))
        | Except.ok results => Except.ok results) := by
  refine ⟨Extract_bracketed name rest hname, rfl, ?_⟩
  have hd : st.MYSQL_CLIENT.isNone = false := by
    cases h : st.MYSQL_CLIENT with
    | none => rw [h] at hdefault; cases hdefault
    | some c => rfl
  unfold MySQL_query
  simp only [Value.Text, Extract_bracketed name rest hname, hd, hargs, hclient]
  cases client.QueryToMap rest args <;> rfl

theorem MySQL_query_bracketed_client_witness :
    ']' ∉ "reports".toList ∧
      MySQL_query twoClients [Value.string "[reports]SELECT 1"] =
        some (Except.ok [[("client", "reports"), ("query", "SELECT 1")]]) :=
  ⟨by decide,
    (MySQL_query_bracketed_client twoClients "reports" "SELECT 1" [] [] (echoClient "reports")
      (by decide) rfl rfl rfl).2.2⟩

theorem Redis_get_hash_after_set (d : RedisData) (group key value : Value)
    (hfault : d.server.fault = none) (hkind : d.strings.get (getGroupName group.Text) = none) :
    Redis_get (Redis_set d [group, key, value]).2 [group, key] = Value.string value.Text := by
  have hr : d.refused group.Text = false := by simp [RedisData.refused, hkind]
  have hset : (Redis_set d [group, key, value]).2 =
      { d with server := (Script.SetHValue d.server group.Text key.Text value.Text).2 } := by
    simp [Redis_set, RedisData.SetHValue, hr]
  rw [hset]
  have hr2 : ∀ srv : RedisServer,
      RedisData.refused { server := srv, strings := d.strings } group.Text = false := by
    intro srv
    simp [RedisData.refused, hkind]
  simp [Redis_get, RedisData.GetHValue, hr2, Script.GetHValue, Script.SetHValue,
    RedisServer.HSet, RedisServer.HGet, hfault, RedisServer.hash, GoMap.get_set_self]

/-- C21: `redis.get` is not symmetric with `redis.set` on plain keys: after
`redis.set(key, value)` the call `redis.get(key)` returns undefined for every
client state, key and value, because `Redis_get` returns undefined for fewer
than two arguments. Its plain-key branch runs only for three or more
arguments: on an empty server `redis.get("k", undefined, undefined)` returns
the value written by `redis.set("k", "v")`. -/
theorem Redis_get_one_argument_undefined :
    (∀ (d : RedisData) (key value : Value),
      Redis_get (Redis_set d [key, value]).2 [key] = Value.undefined) ∧
    Redis_get (Redis_set emptyRedis [Value.string "k", Value.string "v"]).2
      [Value.string "k", Value.undefined, Value.undefined] = Value.string "v" :=
  ⟨fun _ _ _ => rfl, by decide⟩

end Script

/-! # Caller options and bound capabilities -/

namespace Script

theorem Split_single (k : String) (h : ¬ 1 < (Split k '.').length) : Split k '.' = [k] := by
  unfold Split at h ⊢
  have hne := splitChars_ne_nil '.' k.toList
  have hj := joinChars_splitChars '.' k.toList
  cases hs : splitChars '.' k.toList with
  | nil => exact absurd hs hne
  | cons p ps =>
    cases ps with
    | nil =>
      rw [hs] at hj
      simp only [joinChars] at hj
      rw [hj]
      rfl
    | cons q qs =>
      rw [hs] at h
      simp at h

theorem descend_foldl_frame (n : Nat) (parts : List String) (cur : Nat × Runtime)
    (hcur : n ≤ cur.1) (hlt : cur.1 < cur.2.heap.length) :
    (parts.foldl descend cur).2.globals = cur.2.globals ∧
      n ≤ (parts.foldl descend cur).1 ∧
      (parts.foldl descend cur).1 < (parts.foldl descend cur).2.heap.length ∧
      cur.2.heap.length ≤ (parts.foldl descend cur).2.heap.length ∧
      ∀ a, a < n → (parts.foldl descend cur).2.heap.getD a [] = cur.2.heap.getD a [] := by
  induction parts generalizing cur with
  | nil => exact ⟨rfl, hcur, hlt, Nat.le_refl _, fun _ _ => rfl⟩
  | cons part ps ih =>
    rw [List.foldl_cons]
    have hlen : (descend cur part).2.heap.length = cur.2.heap.length + 1 := by
      simp [descend, newMap, mapStore]
    have h1 : (descend cur part).1 = cur.2.heap.length := rfl
    have hg : (descend cur part).2.globals = cur.2.globals := rfl
    have hcur1 : n ≤ (descend cur part).1 := by rw [h1]; omega
    have hlt1 : (descend cur part).1 < (descend cur part).2.heap.length := by
      rw [h1, hlen]; omega
    obtain ⟨i1, i2, i3, i4, i5⟩ := ih (descend cur part) hcur1 hlt1
    refine ⟨i1.trans hg, i2, i3, by rw [hlen] at i4; omega, ?_⟩
    intro a ha
    rw [i5 a ha]
    have hne : a ≠ cur.1 := by omega
    show ((cur.2.heap ++ [[]]).set cur.1 _).getD a [] = _
    rw [getD_set_other _ _ _ _ hne, getD_snoc_nil]

theorem injectExtra_frame (rt : Runtime) (k : String) (v : GoValue) (root : String)
    (hroot : (Split k '.').head? ≠ some root) :
    (injectExtra rt k v).globals.get root = rt.globals.get root ∧
      rt.heap.length ≤ (injectExtra rt k v).heap.length ∧
      ∀ a, a < rt.heap.length → (injectExtra rt k v).heap.getD a [] = rt.heap.getD a [] := by
  by_cases hlen : 1 < (Split k '.').length
  · have hp0 : root ≠ (Split k '.').getD 0 "" := by
      intro e
      apply hroot
      cases hs : Split k '.' with
      | nil => rw [hs] at hlen; simp at hlen
      | cons p ps => rw [hs] at e; simp at e; simp [e]
    obtain ⟨i1, i2, i3, i4, i5⟩ := descend_foldl_frame rt.heap.length
      (((Split k '.').drop 1).dropLast)
      (rt.heap.length, rtSet { rt with heap := rt.heap ++ [[]] } ((Split k '.').getD 0 "")
        (GoValue.mapRef rt.heap.length))
      (Nat.le_refl _) (by simp [rtSet])
    have hform : injectExtra rt k v =
        mapStore
          ((((Split k '.').drop 1).dropLast).foldl descend
            (rt.heap.length, rtSet { rt with heap := rt.heap ++ [[]] } ((Split k '.').getD 0 "")
              (GoValue.mapRef rt.heap.length))).2
          ((((Split k '.').drop 1).dropLast).foldl descend
            (rt.heap.length, rtSet { rt with heap := rt.heap ++ [[]] } ((Split k '.').getD 0 "")
              (GoValue.mapRef rt.heap.length))).1
          ((Split k '.').getLastD "") v := by
      unfold injectExtra
      simp only [hlen, if_true, newMap]
    rw [hform]
    refine ⟨?_, ?_, ?_⟩
    · show (List.foldl descend _ _).2.globals.get root = _
      rw [i1]
      exact GoMap.get_set_of_ne _ _ hp0
    · simp only [mapStore, List.length_set]
      simp only [rtSet, List.length_append, List.length_singleton] at i4
      omega
    · intro a ha
      have hne : a ≠ (List.foldl descend
          (rt.heap.length, rtSet { rt with heap := rt.heap ++ [[]] } ((Split k '.').getD 0 "")
            (GoValue.mapRef rt.heap.length)) (((Split k '.').drop 1).dropLast)).1 := by omega
      simp only [mapStore]
      rw [getD_set_other _ _ _ _ hne, i5 a ha]
      exact getD_snoc_nil _ _
  · have hs := Split_single k hlen
    have hk : root ≠ k := by
      intro e
      apply hroot
      rw [hs, e]
      rfl
    have hset : ∀ w, (rtSet rt k w).globals.get root = rt.globals.get root ∧
        rt.heap.length ≤ (rtSet rt k w).heap.length ∧
        ∀ a, a < rt.heap.length → (rtSet rt k w).heap.getD a [] = rt.heap.getD a [] :=
      fun w => ⟨GoMap.get_set_of_ne _ _ hk, Nat.le_refl _, fun _ _ => rfl⟩
    unfold injectExtra
    simp only [hlen, if_false]
    cases v <;> exact hset _

theorem injectsExtra_frame (opts : GoMap GoValue) (rt : Runtime) (root : String)
    (hroot : ∀ k ∈ opts.keys, (Split k '.').head? ≠ some root) :
    (injectsExtra rt opts).globals.get root = rt.globals.get root ∧
      rt.heap.length ≤ (injectsExtra rt opts).heap.length ∧
      ∀ a, a < rt.heap.length → (injectsExtra rt opts).heap.getD a [] = rt.heap.getD a [] := by
  induction opts generalizing rt with
  | nil => exact ⟨rfl, Nat.le_refl _, fun _ _ => rfl⟩
  | cons kv opts ih =>
    have h1 := injectExtra_frame rt kv.1 kv.2 root (hroot kv.1 (by simp [GoMap.keys]))
    have h2 := ih (injectExtra rt kv.1 kv.2)
      (fun k hk => hroot k (by
        simp only [GoMap.keys, List.map_cons, List.mem_cons]
        exact Or.inr hk))
    have hform : injectsExtra rt (kv :: opts) = injectsExtra (injectExtra rt kv.1 kv.2) opts := rfl
    rw [hform]
    refine ⟨h2.1.trans h1.1, Nat.le_trans h1.2.1 h2.2.1, ?_⟩
    intro a ha
    rw [h2.2.2 a (Nat.lt_of_lt_of_le ha h1.2.1), h1.2.2 a ha]

theorem foldl_getProp_none (rt : Runtime) (ks : List String) :
    ks.foldl (fun acc key => acc.bind (fun v => getProp rt v key)) none = none := by
  induction ks with
  | nil => rfl
  | cons k ks ih => exact ih

theorem getProp_frame (rt rt1 : Runtime)
    (hheap : ∀ a, a < rt.heap.length → rt1.heap.getD a [] = rt.heap.getD a [])
    (u : GoValue) (key : String) (w : GoValue) (h : getProp rt u key = some w) :
    getProp rt1 u key = some w := by
  cases u with
  | mapRef a =>
    have ha : a < rt.heap.length := by
      by_contra hge
      have hd : rt.heap.getD a [] = [] := List.getD_eq_default _ _ (Nat.le_of_not_lt hge)
      simp only [getProp, hd] at h
      cases h
    simp only [getProp, hheap a ha]
    exact h
  | _ => cases h

theorem foldl_getProp_frame (rt rt1 : Runtime)
    (hheap : ∀ a, a < rt.heap.length → rt1.heap.getD a [] = rt.heap.getD a [])
    (ks : List String) (acc : Option GoValue) (v : GoValue)
    (h : ks.foldl (fun acc key => acc.bind (fun v => getProp rt v key)) acc = some v) :
    ks.foldl (fun acc key => acc.bind (fun v => getProp rt1 v key)) acc = some v := by
  induction ks generalizing acc with
  | nil => exact h
  | cons k ks ih =>
    rw [List.foldl_cons] at h ⊢
    cases acc with
    | none =>
      rw [Option.none_bind, foldl_getProp_none] at h
      cases h
    | some u =>
      rw [Option.some_bind] at h ⊢
      cases hp : getProp rt u k with
      | none =>
        rw [hp, foldl_getProp_none] at h
        cases h
      | some w =>
        rw [hp] at h
        rw [getProp_frame rt rt1 hheap u k w hp]
        exact ih (some w) h

theorem evalPath_injectsExtra (rt : Runtime) (opts : GoMap GoValue) (root : String)
    (rest : List String) (v : GoValue)
    (hreach : evalPath rt (root :: rest) = some v)
    (hroot : ∀ k ∈ opts.keys, (Split k '.').head? ≠ some root) :
    evalPath (injectsExtra rt opts) (root :: rest) = some v := by
  obtain ⟨h1, _, h3⟩ := injectsExtra_frame opts rt root hroot
  simp only [evalPath] at hreach ⊢
  rw [h1]
  exact foldl_getProp_frame rt _ h3 rest _ v hreach


/-- C29, as stated, fails: the opts key `console` differs from the registered
key `console.log`, and the capability is reachable at `console.log` after the
binding, but `injectsExtra` rebinds the global `console` to the opts value and
the path is gone. The dotted opts key `console.x` does the same. -/
theorem opts_key_replaces_capability_container :
    "console" ≠ "console.log" ∧ "console.x" ≠ "console.log" ∧
    evalPath (bindCapabilities { globals := [], heap := [] } [("console.log", { id := 1 })]).rt
        ["console", "log"] = some (GoValue.wrapped { id := 1 }) ∧
    evalPath (injectsExtra
        (bindCapabilities { globals := [], heap := [] } [("console.log", { id := 1 })]).rt
        [("console", GoValue.str "on")]) ["console", "log"] = none ∧
    evalPath (injectsExtra
        (bindCapabilities { globals := [], heap := [] } [("console.log", { id := 1 })]).rt
        [("console.x", GoValue.str "on")]) ["console", "log"] = none := by
  decide

/-- C29 (amended): when no opts key has the first dotted segment `root`, every
value reachable at a path starting with `root` after the capability binding is
reachable at the same path in the runtime the script runs on, after
`injectsExtra`. -/
theorem injectsExtra_keeps_other_roots (p : ScriptPool) (heap : List (GoMap GoValue))
    (opts : GoMap GoValue) (root : String) (rest : List String) (v : GoValue)
    (hreach : evalPath (bindCapabilities { globals := [], heap := heap } p.injects).rt
      (root :: rest) = some v)
    (hroot : ∀ k ∈ opts.keys, (Split k '.').head? ≠ some root) :
    evalPath (prepareRuntime p heap opts) (root :: rest) = some v :=
  evalPath_injectsExtra _ opts root rest v hreach hroot

theorem injectsExtra_keeps_other_roots_witness :
    evalPath (prepareRuntime { scripts := [], injects := [("console.log", { id := 1 })] } []
      [("data.x", GoValue.str "on"), ("debug", GoValue.bool true)]) ["console", "log"] =
        some (GoValue.wrapped { id := 1 }) :=
  injectsExtra_keeps_other_roots { scripts := [], injects := [("console.log", { id := 1 })] } []
    [("data.x", GoValue.str "on"), ("debug", GoValue.bool true)] "console" ["log"]
    (GoValue.wrapped { id := 1 }) (by decide) (by decide)

end Script

/-! # The device map after a sequence of updates -/

namespace Config

open Script

theorem filterMap_id_map_some {α : Type} (l : List α) : (l.map some).filterMap id = l := by
  induction l with
  | nil => rfl
  | cons a l ih => simp [List.filterMap_cons, ih]

theorem lastNamed_cons (c : DeviceConfig) (cs : List DeviceConfig) (name : String) :
    lastNamed (c :: cs) name =
      (lastNamed cs name).or (if c.Name = name then some c else none) := by
  unfold lastNamed
  rw [List.reverse_cons, List.find?_append]
  by_cases h : c.Name = name <;> simp [List.find?_cons, h]

theorem lastNamed_name {cs : List DeviceConfig} {name : String} {c : DeviceConfig}
    (h : lastNamed cs name = some c) : c.Name = name ∧ name ∈ deviceNames cs := by
  unfold lastNamed at h
  have h1 : c.Name = name := by simpa using List.find?_some h
  have h2 : c ∈ cs := by simpa using List.mem_of_find?_eq_some h
  refine ⟨h1, ?_⟩
  rw [← h1]
  exact List.mem_map_of_mem _ h2

theorem lastNamed_none_iff (cs : List DeviceConfig) (name : String) :
    lastNamed cs name = none ↔ name ∉ deviceNames cs := by
  unfold lastNamed deviceNames
  rw [List.find?_eq_none]
  simp only [List.mem_reverse, decide_eq_true_eq, List.mem_map, not_exists, not_and]

theorem storeDevices_get (h : ConfigChangeHandlers) (cfgs : List (Option DeviceConfig))
    (m m1 : GoMap DeviceConfig) (calls : List HandlerCall)
    (hs : storeDevices h cfgs m = some (m1, calls)) :
    ∃ cs, cfgs = cs.map some ∧ ∀ name, m1.get name = (lastNamed cs name).or (m.get name) := by
  induction cfgs generalizing m m1 calls with
  | nil =>
    simp only [storeDevices, Option.some.injEq, Prod.mk.injEq] at hs
    refine ⟨[], rfl, fun name => ?_⟩
    rw [← hs.1]
    rfl
  | cons c rest ih =>
    cases c with
    | none => simp [storeDevices] at hs
    | some c =>
      simp only [storeDevices] at hs
      cases hr : storeDevices h rest (m.set c.Name c) with
      | none => rw [hr] at hs; cases hs
      | some r =>
        obtain ⟨m2, calls2⟩ := r
        rw [hr] at hs
        simp only [Option.some.injEq, Prod.mk.injEq] at hs
        obtain ⟨cs, hcs, hget⟩ := ih (m.set c.Name c) m2 calls2 hr
        refine ⟨c :: cs, by rw [hcs]; rfl, fun name => ?_⟩
        rw [← hs.1, hget name, lastNamed_cons]
        cases lastNamed cs name with
        | some x => rfl
        | none =>
          by_cases hn : c.Name = name
          · subst hn
            simp [GoMap.get_set_self]
          · have hn1 : name ≠ c.Name := fun e => hn e.symm
            simp [hn, GoMap.get_set_of_ne _ _ hn1]

theorem removeStale_get (h : ConfigChangeHandlers) (dcm : GoMap DeviceConfig)
    (prev : List (Option DeviceConfig)) (m m2 : GoMap DeviceConfig) (calls : List HandlerCall)
    (hs : removeStale h dcm prev m = some (m2, calls)) :
    ∃ ps, prev = ps.map some ∧
      (∀ name, name ∈ deviceNames ps → (dcm.get name).isSome = false → m2.get name = none) ∧
      (∀ name, (name ∉ deviceNames ps ∨ (dcm.get name).isSome = true) →
        m2.get name = m.get name) := by
  induction prev generalizing m m2 calls with
  | nil =>
    simp only [removeStale, Option.some.injEq, Prod.mk.injEq] at hs
    refine ⟨[], rfl, fun name hmem => ?_, fun name _ => by rw [← hs.1]⟩
    simp [deviceNames] at hmem
  | cons c rest ih =>
    cases c with
    | none => simp [removeStale] at hs
    | some c =>
      simp only [removeStale] at hs
      by_cases hc : (dcm.get c.Name).isSome = true
      · simp only [hc, if_true] at hs
        obtain ⟨ps, hps, h1, h2⟩ := ih m m2 calls hs
        refine ⟨c :: ps, by rw [hps]; rfl, fun name hmem hnone => ?_, fun name hor => ?_⟩
        · have hne : name ≠ c.Name := by
            intro e
            rw [e, hc] at hnone
            cases hnone
          have hmem1 : name ∈ deviceNames ps := by
            simp only [deviceNames, List.map_cons, List.mem_cons] at hmem
            rcases hmem with e | hm
            · exact absurd e hne
            · exact hm
          exact h1 name hmem1 hnone
        · apply h2
          rcases hor with hn | hsome
          · left
            intro hm
            exact hn (by
              simp only [deviceNames, List.map_cons, List.mem_cons]
              exact Or.inr hm)
          · exact Or.inr hsome
      · have hc1 : (dcm.get c.Name).isSome = false := by simpa using hc
        simp only [hc1, Bool.false_eq_true, if_false] at hs
        cases hr : removeStale h dcm rest (m.del c.Name) with
        | none => rw [hr] at hs; cases hs
        | some r =>
          obtain ⟨m3, calls3⟩ := r
          rw [hr] at hs
          simp only [Option.some.injEq, Prod.mk.injEq] at hs
          obtain ⟨ps, hps, h1, h2⟩ := ih (m.del c.Name) m3 calls3 hr
          refine ⟨c :: ps, by rw [hps]; rfl, fun name hmem hnone => ?_, fun name hor => ?_⟩
          · rw [← hs.1]
            by_cases hin : name ∈ deviceNames ps
            · exact h1 name hin hnone
            · rw [h2 name (Or.inl hin)]
              have he : name = c.Name := by
                simp only [deviceNames, List.map_cons, List.mem_cons] at hmem
                rcases hmem with e | hm
                · exact e
                · exact absurd hm hin
              rw [he]
              exact GoMap.get_del_self _ _
          · rw [← hs.1]
            have hne : name ≠ c.Name := by
              intro e
              rcases hor with hn | hsome
              · exact hn (by simp [deviceNames, e])
              · rw [e, hc1] at hsome
                cases hsome
            have hor1 : name ∉ deviceNames ps ∨ (dcm.get name).isSome = true := by
              rcases hor with hn | hsome
              · left
                intro hm
                exact hn (by
                  simp only [deviceNames, List.map_cons, List.mem_cons]
                  exact Or.inr hm)
              · exact Or.inr hsome
            rw [h2 name hor1]
            exact GoMap.get_del_of_ne _ hne

theorem buildDeviceConfigMap_keys (cs : List DeviceConfig) (dcm : GoMap DeviceConfig)
    (hb : buildDeviceConfigMap (cs.map some) = some dcm) (n : String) :
    (dcm.get n).isSome = true ↔ n ∈ deviceNames cs := by
  obtain ⟨m1, hm1, hmem⟩ := buildDeviceConfigMapFrom_some cs []
  unfold buildDeviceConfigMap at hb
  rw [hm1] at hb
  cases hb
  rw [hmem n]
  simp [GoMap.get]

theorem latestPayload_snoc (calls : List (String × String)) (id0 data0 dataId : String) :
    latestPayload (calls ++ [(id0, data0)]) dataId =
      if id0 = dataId then some data0 else latestPayload calls dataId := by
  unfold latestPayload
  rw [List.reverse_append]
  by_cases h : id0 = dataId <;> simp [List.find?_cons, h]

theorem latestPayload_mem {calls : List (String × String)} {dataId payload : String}
    (h : latestPayload calls dataId = some payload) : (dataId, payload) ∈ calls := by
  unfold latestPayload at h
  cases hf : calls.reverse.find? (fun call => decide (call.1 = dataId)) with
  | none => rw [hf] at h; cases h
  | some c =>
    rw [hf] at h
    have h1 : c.1 = dataId := by simpa using List.find?_some hf
    have h2 : c ∈ calls := by simpa using List.mem_of_find?_eq_some hf
    have h3 : c.2 = payload := by simpa using h
    obtain ⟨c1, c2⟩ := c
    simp only at h1 h3
    rw [← h1, ← h3]
    exact h2

theorem applyUpdates_snoc (json : Json) (h : ConfigChangeHandlers) (calls : List (String × String))
    (call : String × String) (d : DeviceConfiguration) :
    applyUpdates json h d (calls ++ [call]) =
      (applyUpdates json h d calls).bind (fun d1 => applyUpdates json h d1 [call]) := by
  induction calls generalizing d with
  | nil => rfl
  | cons c cs ih =>
    simp only [List.cons_append, applyUpdates]
    cases hu : UpdateDeviceConfig json h d c.1 c.2 with
    | panicked => rfl
    | returned err d1 cl =>
      cases err with
      | some e => rfl
      | none => exact ih d1

/-- What one successful call does to the two maps. -/
theorem UpdateDeviceConfig_success (json : Json) (h : ConfigChangeHandlers)
    (d d1 : DeviceConfiguration) (dataId configData : String) (calls : List HandlerCall)
    (hu : UpdateDeviceConfig json h d dataId configData = Outcome.returned none d1 calls) :
    d1.DataIdConfigMap = d.DataIdConfigMap.set dataId configData ∧
    ∃ prev,
      (∀ n, n ∈ deviceNames prev → ∃ p, d.DataIdConfigMap.get dataId = some p ∧
        n ∈ deviceNames (payloadDevices json dataId p)) ∧
      (∀ p, d.DataIdConfigMap.get dataId = some p → payloadDevices json dataId p = prev) ∧
      ∀ name,
        (name ∈ deviceNames (payloadDevices json dataId configData) →
          d1.DataIdDeviceMap.get name = lastNamed (payloadDevices json dataId configData) name) ∧
        (name ∉ deviceNames (payloadDevices json dataId configData) →
          name ∈ deviceNames prev → d1.DataIdDeviceMap.get name = none) ∧
        (name ∉ deviceNames (payloadDevices json dataId configData) →
          name ∉ deviceNames prev →
            d1.DataIdDeviceMap.get name = d.DataIdDeviceMap.get name) := by
  unfold UpdateDeviceConfig at hu
  rw [parse_on_empty] at hu
  cases hp : parseDeviceConfigs json dataId configData with
  | error e => rw [hp] at hu; cases hu
  | ok newO =>
    rw [hp] at hu
    simp only at hu
    cases hst : storeDevices h newO d.DataIdDeviceMap with
    | none => rw [hst] at hu; cases hu
    | some r1 =>
      obtain ⟨m1, updates⟩ := r1
      rw [hst] at hu
      simp only at hu
      obtain ⟨new, hnew, hget1⟩ := storeDevices_get h newO _ m1 updates hst
      subst hnew
      cases hb : buildDeviceConfigMap (new.map some) with
      | none => rw [hb] at hu; cases hu
      | some dcm =>
        rw [hb] at hu
        simp only at hu
        cases hrs : removeStale h dcm (previousDevices json d dataId) m1 with
        | none => rw [hrs] at hu; cases hu
        | some r2 =>
          obtain ⟨m2, removes⟩ := r2
          rw [hrs] at hu
          simp only [Outcome.returned.injEq, true_and] at hu
          obtain ⟨ps, hps, hrm1, hrm2⟩ := removeStale_get h dcm _ m1 m2 removes hrs
          have hpd : payloadDevices json dataId configData = new := by
            unfold payloadDevices
            rw [hp]
            exact filterMap_id_map_some new
          have hprevD : ∀ p, d.DataIdConfigMap.get dataId = some p →
              payloadDevices json dataId p = ps := by
            intro p hpq
            unfold previousDevices at hps
            rw [hpq] at hps
            simp only at hps
            unfold payloadDevices
            cases hpp : parseDeviceConfigs json dataId p with
            | error e =>
              rw [hpp] at hps
              simp only at hps
              cases ps with
              | nil => rfl
              | cons a b => cases hps
            | ok l =>
              rw [hpp] at hps
              simp only at hps
              simp only [hps]
              exact filterMap_id_map_some ps
          have hd1 : d1 = DeviceConfiguration.mk (d.DataIdConfigMap.set dataId configData) m2 :=
            hu.1.symm
          rw [hd1, hpd]
          refine ⟨rfl, ps, ?_, hprevD, ?_⟩
          · intro n hn
            cases hq : d.DataIdConfigMap.get dataId with
            | none =>
              unfold previousDevices at hps
              rw [hq] at hps
              simp only at hps
              cases ps with
              | nil => simp [deviceNames] at hn
              | cons a b => cases hps
            | some p => exact ⟨p, rfl, by rw [hprevD p hq]; exact hn⟩
          · intro name
            have hkeys := buildDeviceConfigMap_keys new dcm hb name
            refine ⟨fun hin => ?_, fun hnin hprev => ?_, fun hnin hprev => ?_⟩
            · show m2.get name = _
              rw [hrm2 name (Or.inr (hkeys.mpr hin)), hget1 name]
              cases hl : lastNamed new name with
              | some c => rfl
              | none => exact absurd hin ((lastNamed_none_iff new name).mp hl)
            · show m2.get name = _
              apply hrm1 name hprev
              cases hs : (dcm.get name).isSome with
              | false => rfl
              | true => exact absurd (hkeys.mp hs) hnin
            · show m2.get name = _
              rw [hrm2 name (Or.inl hprev), hget1 name, (lastNamed_none_iff new name).mpr hnin]
              rfl

theorem applyUpdates_invariant (json : Json) (h : ConfigChangeHandlers)
    (calls : List (String × String)) (d : DeviceConfiguration)
    (hrun : applyUpdates json h NewDeviceConfiguration calls = some d)
    (hdisj : ∀ c1 ∈ calls, ∀ c2 ∈ calls, c1.1 ≠ c2.1 →
      ∀ n, n ∈ deviceNames (payloadDevices json c1.1 c1.2) →
        n ∉ deviceNames (payloadDevices json c2.1 c2.2)) :
    (∀ dataId, d.DataIdConfigMap.get dataId = latestPayload calls dataId) ∧
    ∀ name cfg, d.DataIdDeviceMap.get name = some cfg ↔
      ∃ dataId payload, latestPayload calls dataId = some payload ∧
        lastNamed (payloadDevices json dataId payload) name = some cfg := by
  induction calls using List.reverseRecOn generalizing d with
  | nil =>
    simp only [applyUpdates, Option.some.injEq] at hrun
    subst hrun
    refine ⟨fun _ => rfl, fun name cfg => ?_⟩
    simp [NewDeviceConfiguration, GoMap.get, latestPayload]
  | append_singleton cs c ih =>
    obtain ⟨id0, data0⟩ := c
    rw [applyUpdates_snoc] at hrun
    cases hcs : applyUpdates json h NewDeviceConfiguration cs with
    | none => rw [hcs] at hrun; cases hrun
    | some d0 =>
      rw [hcs] at hrun
      simp only [Option.some_bind, applyUpdates] at hrun
      cases hu : UpdateDeviceConfig json h d0 id0 data0 with
      | panicked => rw [hu] at hrun; cases hrun
      | returned err d1 cl =>
        rw [hu] at hrun
        cases err with
        | some e => cases hrun
        | none =>
          simp only [Option.some.injEq] at hrun
          subst hrun
          have hdisj0 : ∀ c1 ∈ cs, ∀ c2 ∈ cs, c1.1 ≠ c2.1 →
              ∀ n, n ∈ deviceNames (payloadDevices json c1.1 c1.2) →
                n ∉ deviceNames (payloadDevices json c2.1 c2.2) :=
            fun c1 h1 c2 h2 => hdisj c1 (List.mem_append_left _ h1) c2
              (List.mem_append_left _ h2)
          obtain ⟨I1, I2⟩ := ih d0 hcs hdisj0
          obtain ⟨hcfg, prev, hprev1, hprev2, hmap⟩ :=
            UpdateDeviceConfig_success json h d0 d1 id0 data0 cl hu
          have hlast : (id0, data0) ∈ cs ++ [(id0, data0)] := by simp
          -- a name of another data id's latest payload is neither new nor previous
          have hother : ∀ dataId payload name, dataId ≠ id0 →
              latestPayload cs dataId = some payload →
              name ∈ deviceNames (payloadDevices json dataId payload) →
              name ∉ deviceNames (payloadDevices json id0 data0) ∧ name ∉ deviceNames prev := by
            intro dataId payload name hne hl hn
            have hmem := List.mem_append_left [(id0, data0)] (latestPayload_mem hl)
            refine ⟨fun hin => ?_, fun hin => ?_⟩
            · exact hdisj (dataId, payload) hmem (id0, data0) hlast hne name hn hin
            · obtain ⟨p, hp, hnp⟩ := hprev1 name hin
              rw [I1 id0] at hp
              have hmem0 := List.mem_append_left [(id0, data0)] (latestPayload_mem hp)
              exact hdisj (dataId, payload) hmem (id0, p) hmem0 hne name hn hnp
          refine ⟨fun dataId => ?_, fun name cfg => ?_⟩
          · rw [hcfg, latestPayload_snoc]
            by_cases he : id0 = dataId
            · subst he
              simp [GoMap.get_set_self]
            · have he1 : dataId ≠ id0 := fun e => he e.symm
              simp [he, GoMap.get_set_of_ne _ _ he1, I1 dataId]
          · obtain ⟨hA, hB1, hB2⟩ := hmap name
            constructor
            · intro hget
              by_cases hin : name ∈ deviceNames (payloadDevices json id0 data0)
              · rw [hA hin] at hget
                exact ⟨id0, data0, by rw [latestPayload_snoc]; simp, hget⟩
              · by_cases hp : name ∈ deviceNames prev
                · rw [hB1 hin hp] at hget
                  cases hget
                · rw [hB2 hin hp] at hget
                  obtain ⟨dataId, payload, hl, hn⟩ := (I2 name cfg).mp hget
                  have hne : dataId ≠ id0 := by
                    intro e
                    subst e
                    rw [← I1] at hl
                    rw [hprev2 payload hl] at hn
                    exact hp (lastNamed_name hn).2
                  have hne1 : ¬ id0 = dataId := fun e => hne e.symm
                  exact ⟨dataId, payload, by rw [latestPayload_snoc]; simp [hne1, hl], hn⟩
            · rintro ⟨dataId, payload, hl, hn⟩
              rw [latestPayload_snoc] at hl
              by_cases he : id0 = dataId
              · subst he
                simp only [if_true, Option.some.injEq] at hl
                subst hl
                rw [hA (lastNamed_name hn).2]
                exact hn
              · simp only [he, if_false] at hl
                have hne : dataId ≠ id0 := fun e => he e.symm
                obtain ⟨o1, o2⟩ := hother dataId payload name hne hl (lastNamed_name hn).2
                rw [hB2 o1 o2]
                exact (I2 name cfg).mpr ⟨dataId, payload, hl, hn⟩

/-- C28: after any sequence of successful `UpdateDeviceConfig` calls on a new
store, in which no device name occurs in the payloads of two different data
ids, the name-to-config map holds exactly the device names of the latest
payload of each data id, each mapped to its last config of that name in that
payload. -/
theorem DataIdDeviceMap_latest_payloads (json : Json) (h : ConfigChangeHandlers)
    (calls : List (String × String)) (d : DeviceConfiguration)
    (hrun : applyUpdates json h NewDeviceConfiguration calls = some d)
    (hdisj : ∀ c1 ∈ calls, ∀ c2 ∈ calls, c1.1 ≠ c2.1 →
      ∀ n, n ∈ deviceNames (payloadDevices json c1.1 c1.2) →
        n ∉ deviceNames (payloadDevices json c2.1 c2.2)) :
    ∀ name cfg, d.DataIdDeviceMap.get name = some cfg ↔
      ∃ dataId payload, latestPayload calls dataId = some payload ∧
        lastNamed (payloadDevices json dataId payload) name = some cfg :=
  (applyUpdates_invariant json h calls d hrun hdisj).2

theorem DataIdDeviceMap_latest_payloads_witness :
    applyUpdates portsJson allHandlers NewDeviceConfiguration sampleCalls =
        some afterSampleCalls ∧
      (afterSampleCalls.DataIdDeviceMap.get "A" = some deviceA3 ↔
        ∃ dataId payload, latestPayload sampleCalls dataId = some payload ∧
          lastNamed (payloadDevices portsJson dataId payload) "A" = some deviceA3) :=
  ⟨by decide,
    DataIdDeviceMap_latest_payloads portsJson allHandlers sampleCalls afterSampleCalls
      (by decide) (by decide) "A" deviceA3⟩

end Config

/-! # Export and import of scripts -/

namespace Main

open Script

theorem append_js (n : String) : n ++ ".js" = String.mk (n.toList ++ ['.', 'j', 's']) := by
  cases n
  rfl

theorem Base_js (cs : List Char) (h : '/' ∉ cs) :
    Base (String.mk (cs ++ ['.', 'j', 's'])) = String.mk (cs ++ ['.', 'j', 's']) := by
  have hne : String.mk (cs ++ ['.', 'j', 's']) ≠ "" := by
    intro e
    have := congrArg String.toList e
    simp [String.toList] at this
  have hrev : (cs ++ ['.', 'j', 's']).reverse = 's' :: 'j' :: '.' :: cs.reverse := by simp
  have hmem : '/' ∉ 's' :: 'j' :: '.' :: cs.reverse := by
    simp only [List.mem_cons, List.mem_reverse, not_or]
    exact ⟨by decide, by decide, by decide, h⟩
  have hd : List.dropWhile (fun c => c == '/') ('s' :: 'j' :: '.' :: cs.reverse) =
      's' :: 'j' :: '.' :: cs.reverse := rfl
  unfold Base
  rw [if_neg hne]
  simp only [String.toList, hrev, hd, Config.takeWhile_ne_of_not_mem '/' _ hmem]
  simp

theorem Ext_js (cs : List Char) (h : '/' ∉ cs) :
    Ext (String.mk (cs ++ ['.', 'j', 's'])) = ".js" := by
  have hrev : (cs ++ ['.', 'j', 's']).reverse = 's' :: 'j' :: '.' :: cs.reverse := by simp
  have hmem : '/' ∉ 's' :: 'j' :: '.' :: cs.reverse := by
    simp only [List.mem_cons, List.mem_reverse, not_or]
    exact ⟨by decide, by decide, by decide, h⟩
  unfold Ext
  simp only [String.toList, hrev, Config.takeWhile_ne_of_not_mem '/' _ hmem]
  rfl

theorem TrimSuffix_js (cs : List Char) :
    TrimSuffix (String.mk (cs ++ ['.', 'j', 's'])) ".js" = String.mk cs := by
  unfold TrimSuffix
  have hs : (".js" : String).toList = ['.', 'j', 's'] := rfl
  have hsuf : List.isSuffixOf ['.', 'j', 's'] (cs ++ ['.', 'j', 's']) = true := by
    simp [List.isSuffixOf, List.isPrefixOf]
  simp only [hs, String.toList, hsuf, if_true]
  simp

theorem importName_export (n : String) (h : '/' ∉ n.toList) :
    importName (n ++ ".js") = some n := by
  unfold importName
  simp only [append_js, Base_js _ h, Ext_js _ h, TrimSuffix_js]
  simp

theorem export_not_dir (n content : String) :
    ZipFile.IsDir { Name := n ++ ".js", dirMode := false, Content := content } = false := by
  rw [append_js]
  simp [ZipFile.IsDir, String.toList, List.getLast?_append]

/-- A read through a cache that answers like `src` leaves a cache that
answers like `src`. -/
theorem GetScript_agree {σ : Type} (S : ScriptStore σ) (src sc : ScriptCache σ) (now : Time)
    (hstore : sc.Store = src.Store)
    (hagree : ∀ n, (GetScript S sc n now).1 = (GetScript S src n now).1) (name : String) :
    (GetScript S sc name now).2.Store = src.Store ∧
      ∀ n, (GetScript S (GetScript S sc name now).2 n now).1 = (GetScript S src n now).1 := by
  cases hc : sc.scripts.get name with
  | some entry =>
    have h2 : (GetScript S sc name now).2 = sc := by simp [GetScript, hc]
    rw [h2]
    exact ⟨hstore, hagree⟩
  | none =>
    cases hg : S.Get sc.Store name with
    | error e =>
      have h2 : (GetScript S sc name now).2 = sc := by simp [GetScript, hc, hg]
      rw [h2]
      exact ⟨hstore, hagree⟩
    | ok code =>
      have h2 : (GetScript S sc name now).2 =
          { sc with scripts := sc.scripts.set name { Name := name, Code := code, UpdatedAt := now } } := by
        simp [GetScript, hc, hg]
      have h1 : (GetScript S sc name now).1 = Except.ok code := by simp [GetScript, hc, hg]
      rw [h2]
      refine ⟨hstore, fun n => ?_⟩
      by_cases hn : n = name
      · subst hn
        rw [← hagree n, h1]
        simp [GetScript, GoMap.get_set_self]
      · rw [← hagree n]
        have hget : (sc.scripts.set name { Name := name, Code := code, UpdatedAt := now }).get n =
            sc.scripts.get n := GoMap.get_set_of_ne _ _ hn
        simp only [GetScript, hget]
        cases sc.scripts.get n with
        | some e => rfl
        | none => cases S.Get sc.Store n <;> rfl

theorem exportFiles_ok {σ : Type} (S : ScriptStore σ) (src : ScriptCache σ) (now : Time)
    (tasks : List String) (sc sc1 : ScriptCache σ) (files : List ZipFile)
    (hstore : sc.Store = src.Store)
    (hagree : ∀ n, (GetScript S sc n now).1 = (GetScript S src n now).1)
    (hexp : exportFiles S now sc tasks = (Except.ok files, sc1)) :
    List.Forall₂ (fun n f => f = { Name := n ++ ".js", dirMode := false, Content := f.Content } ∧
      (GetScript S src n now).1 = Except.ok f.Content) tasks files := by
  induction tasks generalizing sc sc1 files with
  | nil =>
    simp only [exportFiles, Prod.mk.injEq, Except.ok.injEq] at hexp
    rw [← hexp.1]
    exact List.Forall₂.nil
  | cons t rest ih =>
    have hnext := GetScript_agree S src sc now hstore hagree t
    have h1 := hagree t
    simp only [exportFiles] at hexp
    cases hg : GetScript S sc t now with
    | mk r sc2 =>
      rw [hg] at hexp hnext h1
      cases r with
      | error e => simp at hexp
      | ok content =>
        simp only at hexp
        split at hexp
        · simp at hexp
        · cases hr : exportFiles S now sc2 rest with
          | mk r2 sc3 =>
            rw [hr] at hexp
            cases r2 with
            | error e => simp at hexp
            | ok fs =>
              simp only [Prod.mk.injEq, Except.ok.injEq] at hexp
              rw [← hexp.1]
              exact List.Forall₂.cons ⟨rfl, h1.symm⟩ (ih sc2 sc3 fs hnext.1 hnext.2 hr)

theorem StoreScript_redis (sc : ScriptCache ScriptRedisStore) (g : String) (srv : RedisServer)
    (hstore : sc.Store = { Group := g, Redis := some srv }) (hfault : srv.fault = none)
    (name code : String) (now : Time) :
    StoreScript redisStore sc name code now =
      (none,
        { scripts := sc.scripts.set name { Name := name, Code := code, UpdatedAt := now },
          initialized := sc.initialized,
          Store := { Group := g,
                     Redis := some { hashes := srv.hashes.set (getGroupName g)
                                       ((srv.hash (getGroupName g)).set name code),
                                     fault := none } } }) := by
  simp [StoreScript, redisStore, ScriptRedisStore.Save, hstore, SetHValue, RedisServer.HSet,
    hfault]

theorem importFiles_exported (src : ScriptCache ScriptRedisStore) (now now1 : Time)
    (tasks : List String) (files : List ZipFile)
    (hF : List.Forall₂ (fun n f =>
      f = { Name := n ++ ".js", dirMode := false, Content := f.Content } ∧
        (GetScript redisStore src n now).1 = Except.ok f.Content) tasks files)
    (hslash : ∀ n ∈ tasks, '/' ∉ n.toList)
    (sc : ScriptCache ScriptRedisStore) (g : String) (srv : RedisServer)
    (hstore : sc.Store = { Group := g, Redis := some srv }) (hfault : srv.fault = none) :
    ∃ dst srv1, importFiles redisStore now1 sc files = (Except.ok (tasks.length, 0), dst) ∧
      dst.initialized = sc.initialized ∧
      dst.Store = { Group := g, Redis := some srv1 } ∧ srv1.fault = none ∧
      (∀ n, n ∉ tasks → dst.scripts.get n = sc.scripts.get n ∧
        (srv1.hash (getGroupName g)).get n = (srv.hash (getGroupName g)).get n) ∧
      (∀ n, n ∈ tasks → ∃ code, (GetScript redisStore src n now).1 = Except.ok code ∧
        (dst.scripts.get n).map (fun e => e.Code) = some code ∧
        (srv1.hash (getGroupName g)).get n = some code) := by
  induction hF generalizing sc srv with
  | nil =>
    exact ⟨sc, srv, rfl, rfl, hstore, hfault, fun n _ => ⟨rfl, rfl⟩,
      fun n hn => absurd hn (List.not_mem_nil n)⟩
  | @cons t f rest fs hhead _ ih =>
    obtain ⟨hf, hcode⟩ := hhead
    have hdir : f.IsDir = false := by
      rw [hf]
      exact export_not_dir t f.Content
    have hname : importName f.Name = some t := by
      rw [hf]
      exact importName_export t (hslash t (List.mem_cons_self _ _))
    have hst := StoreScript_redis sc g srv hstore hfault t f.Content now1
    obtain ⟨dst, srv1, hi, hinit, hds, hdf, hout, hin⟩ :=
      ih (fun n hn => hslash n (List.mem_cons_of_mem _ hn))
        (ScriptCache.mk (sc.scripts.set t { Name := t, Code := f.Content, UpdatedAt := now1 })
          sc.initialized
          (ScriptRedisStore.mk g (some (RedisServer.mk
            (srv.hashes.set (getGroupName g) ((srv.hash (getGroupName g)).set t f.Content))
            none))))
        (RedisServer.mk
          (srv.hashes.set (getGroupName g) ((srv.hash (getGroupName g)).set t f.Content)) none)
        rfl rfl
    have hhash : ∀ n, (RedisServer.hash
        { hashes := srv.hashes.set (getGroupName g) ((srv.hash (getGroupName g)).set t f.Content),
          fault := none } (getGroupName g)).get n =
        ((srv.hash (getGroupName g)).set t f.Content).get n := by
      intro n
      simp [RedisServer.hash, GoMap.get_set_self]
    refine ⟨dst, srv1, ?_, hinit, hds, hdf, ?_, ?_⟩
    · simp only [importFiles, hdir, hname, hst, hi, List.length_cons]
      rfl
    · intro n hn
      have hnt : n ≠ t := fun e => hn (by simp [e])
      have hnr : n ∉ rest := fun hm => hn (List.mem_cons_of_mem _ hm)
      obtain ⟨o1, o2⟩ := hout n hnr
      refine ⟨?_, ?_⟩
      · rw [o1]
        exact GoMap.get_set_of_ne _ _ hnt
      · rw [o2, hhash n]
        exact GoMap.get_set_of_ne _ _ hnt
    · intro n hn
      by_cases hnr : n ∈ rest
      · exact hin n hnr
      · have hnt : n = t := by
          rcases List.mem_cons.mp hn with e | hm
          · exact e
          · exact absurd hm hnr
        obtain ⟨o1, o2⟩ := hout n hnr
        subst hnt
        refine ⟨f.Content, hcode, ?_, ?_⟩
        · rw [o1]
          simp [GoMap.get_set_self]
        · rw [o2, hhash n]
          exact GoMap.get_set_self _ _ _

/-- C24, as stated, fails: for the script name `lib/util` the import rule
applied to the export entry name `lib/util.js` yields `util`, and importing
the export of a store holding `job` and `lib/util` into an empty store yields
the names `util` and `job`. -/
theorem nested_name_not_round_tripped :
    importName ("lib/util" ++ ".js") = some "util" ∧
    (ListScripts redisStore nestedNameCache).toOption = some ["job", "lib/util"] ∧
    (ListScripts redisStore
      (ImportScripts redisStore (freshCache "scripts" false) (exported nestedNameCache) 1).2).toOption
        = some ["util", "job"] := by
  decide

/-- C24 (amended): for every script name without a slash the import rule
applied to the export entry name `n.js` yields `n`; and when the export
succeeds and no exported name has a slash, importing the archive into a store
that answers and holds nothing imports every entry, after which the script
names are those exported and each has the code it was exported with. -/
theorem export_import_round_trip (src src1 : ScriptCache ScriptRedisStore)
    (tasks : List String) (files : List ZipFile) (group : String) (initialized : Bool)
    (now now1 now2 : Time)
    (htasks : ListScripts redisStore src = Except.ok tasks)
    (hexp : ExportScripts redisStore src now = (Except.ok files, src1))
    (hslash : ∀ n ∈ tasks, '/' ∉ n.toList) :
    (∀ n ∈ tasks, importName (n ++ ".js") = some n) ∧
    ∃ dst names,
      ImportScripts redisStore (freshCache group initialized) files now1 =
        (Except.ok (tasks.length, 0), dst) ∧
      ListScripts redisStore dst = Except.ok names ∧ (∀ n, n ∈ names ↔ n ∈ tasks) ∧
      ∀ n ∈ tasks, (GetScript redisStore dst n now2).1 = (GetScript redisStore src n now).1 := by
  refine ⟨fun n hn => importName_export n (hslash n hn), ?_⟩
  have hexp1 : exportFiles redisStore now src tasks = (Except.ok files, src1) := by
    unfold ExportScripts at hexp
    rw [htasks] at hexp
    exact hexp
  have hF := exportFiles_ok redisStore src now tasks src src1 files rfl (fun _ => rfl) hexp1
  obtain ⟨dst, srv1, hi, hinit, hds, hdf, hout, hin⟩ :=
    importFiles_exported src now now1 tasks files hF hslash (freshCache group initialized) group
      { hashes := [], fault := none } rfl rfl
  have hcache : ∀ n, (dst.scripts.get n).isSome = true ↔ n ∈ tasks := by
    intro n
    by_cases hn : n ∈ tasks
    · obtain ⟨code, _, hc, _⟩ := hin n hn
      cases hg : dst.scripts.get n with
      | none => rw [hg] at hc; cases hc
      | some e => simp [hn]
    · rw [(hout n hn).1]
      simp [freshCache, GoMap.get, hn]
  have hhash : ∀ n, ((srv1.hash (getGroupName group)).get n).isSome = true ↔ n ∈ tasks := by
    intro n
    by_cases hn : n ∈ tasks
    · obtain ⟨code, _, _, hc⟩ := hin n hn
      simp [hc, hn]
    · rw [(hout n hn).2]
      simp [RedisServer.hash, GoMap.get, hn]
  have hlist : ∃ names, ListScripts redisStore dst = Except.ok names ∧
      ∀ n, n ∈ names ↔ n ∈ tasks := by
    cases hb : dst.initialized with
    | true =>
      refine ⟨dst.scripts.keys, by simp [ListScripts, hb], fun n => ?_⟩
      rw [GoMap.mem_keys_iff]
      exact hcache n
    | false =>
      refine ⟨(srv1.hash (getGroupName group)).keys, ?_, fun n => ?_⟩
      · simp [ListScripts, hb, redisStore, ScriptRedisStore.List, hds, HKeys, RedisServer.HKeys,
          hdf]
      · rw [GoMap.mem_keys_iff]
        exact hhash n
  obtain ⟨names, hl1, hl2⟩ := hlist
  refine ⟨dst, names, hi, hl1, hl2, fun n hn => ?_⟩
  obtain ⟨code, hsrc, hc, _⟩ := hin n hn
  rw [hsrc]
  cases hg : dst.scripts.get n with
  | none => rw [hg] at hc; cases hc
  | some e =>
    rw [hg] at hc
    simp only [Option.map_some', Option.some.injEq] at hc
    simp [GetScript, hg, hc]

theorem export_import_round_trip_witness :
    ListScripts redisStore flatNameCache = Except.ok ["job", "report.v2"] ∧
      ∃ dst names,
        ImportScripts redisStore (freshCache "other" true) (exported flatNameCache) 5 =
          (Except.ok (2, 0), dst) ∧
        ListScripts redisStore dst = Except.ok names ∧
        (∀ n, n ∈ names ↔ n ∈ ["job", "report.v2"]) ∧
        ∀ n ∈ ["job", "report.v2"],
          (GetScript redisStore dst n 9).1 = (GetScript redisStore flatNameCache n 0).1 :=
  ⟨rfl,
    (export_import_round_trip flatNameCache (ExportScripts redisStore flatNameCache 0).2
      ["job", "report.v2"] (exported flatNameCache) "other" true 0 5 9 rfl rfl
      (by decide)).2⟩

end Main
